import Mathlib

namespace tb

-- Vectors and boxes of the vm library, over the rationals.

/-- A `vm::vec3d`; the doubles of the source are idealised as exact rationals. -/
structure Vec3 where
  x : ℚ
  y : ℚ
  z : ℚ
deriving DecidableEq

namespace Vec3

def zero : Vec3 := ⟨0, 0, 0⟩
def add (a b : Vec3) : Vec3 := ⟨a.x + b.x, a.y + b.y, a.z + b.z⟩
def sub (a b : Vec3) : Vec3 := ⟨a.x - b.x, a.y - b.y, a.z - b.z⟩
def smul (k : ℚ) (a : Vec3) : Vec3 := ⟨k * a.x, k * a.y, k * a.z⟩
def dot (a b : Vec3) : ℚ := a.x * b.x + a.y * b.y + a.z * b.z
def cross (a b : Vec3) : Vec3 :=
  ⟨a.y * b.z - a.z * b.y, a.z * b.x - a.x * b.z, a.x * b.y - a.y * b.x⟩
def squaredLength (a : Vec3) : ℚ := dot a a
def distanceSq (a b : Vec3) : ℚ := squaredLength (sub a b)

/-- `v[axis]` for `axis` in 0, 1, 2. -/
def get (v : Vec3) (axis : Fin 3) : ℚ :=
  match axis with
  | 0 => v.x
  | 1 => v.y
  | 2 => v.z

/-- `v[axis] = a`. -/
def set (v : Vec3) (axis : Fin 3) (a : ℚ) : Vec3 :=
  match axis with
  | 0 => { v with x := a }
  | 1 => { v with y := a }
  | 2 => { v with z := a }

/-- `vm::length`, with the square root function `sqrt` of the platform as a parameter. -/
def length (sqrt : ℚ → ℚ) (a : Vec3) : ℚ := sqrt (squaredLength a)

/-- `vm::normalize`: the vector divided by its length. -/
def normalize (sqrt : ℚ → ℚ) (a : Vec3) : Vec3 := smul (1 / length sqrt a) a

def vmin (a b : Vec3) : Vec3 := ⟨min a.x b.x, min a.y b.y, min a.z b.z⟩
def vmax (a b : Vec3) : Vec3 := ⟨max a.x b.x, max a.y b.y, max a.z b.z⟩

end Vec3

/-- A `vm::bbox3d`. -/
structure BBox where
  min : Vec3
  max : Vec3
deriving DecidableEq

namespace BBox

def center (b : BBox) : Vec3 := Vec3.smul (1 / 2) (Vec3.add b.min b.max)
def size (b : BBox) : Vec3 := Vec3.sub b.max b.min
def translate (b : BBox) (t : Vec3) : BBox := ⟨Vec3.add b.min t, Vec3.add b.max t⟩
def merge (b c : BBox) : BBox := ⟨Vec3.vmin b.min c.min, Vec3.vmax b.max c.max⟩
def contains (b : BBox) (p : Vec3) : Bool :=
  decide (b.min.x ≤ p.x ∧ p.x ≤ b.max.x ∧ b.min.y ≤ p.y ∧ p.y ≤ b.max.y ∧
    b.min.z ≤ p.z ∧ p.z ≤ b.max.z)
def encloses (b c : BBox) : Bool := b.contains c.min && b.contains c.max

/-- The box grown to hold the point `q`. -/
def extend (b : BBox) (q : Vec3) : BBox := ⟨Vec3.vmin b.min q, Vec3.vmax b.max q⟩

/-- The box spanned by a non-empty point list (`vm::bbox3d::merge_all`). -/
def mergeAll : List Vec3 → Option BBox
  | [] => none
  | p :: ps => some (ps.foldl extend ⟨p, p⟩)

end BBox

/-- A `vm::segment3d` with its two end points. -/
structure Segment where
  start : Vec3
  stop : Vec3
deriving DecidableEq

-- The polyhedron kernel. The sources of Polyhedron3, Brush and BrushBuilder are not part
-- of the tree (only BrushBuilder.h, the tests and the callers are), so the kernel follows
-- sections 3 and 4 of the specification.

/-- Modelled from the spec: the error taxonomy of the kernel operations (sections 4.2
and 7). -/
inductive BrushError where
  | DegenerateGeometry
  | OutOfWorldBounds
  | EmptyResult
  | HandleNotFound
deriving DecidableEq

/-- Modelled from the spec: the `Result<T>` of a fallible kernel operation (section 3):
the success value or the diagnostic. -/
inductive Result (α : Type) where
  | success (value : α)
  | error (e : BrushError)
deriving DecidableEq

namespace Result

def is_success {α : Type} : Result α → Bool
  | success _ => true
  | error _ => false

/-- The success value, when there is one. -/
def value? {α : Type} : Result α → Option α
  | success v => some v
  | error _ => none

end Result

/-- Position of a point relative to a plane: `below` is strictly inside (behind the
plane), `above` strictly outside (in front of it, the side the normal points to). -/
inductive Side where
  | below
  | on
  | above
deriving DecidableEq

/-- A plane given by an anchor point and a normal. -/
structure Plane where
  point : Vec3
  normal : Vec3
deriving DecidableEq

namespace Plane

/-- Signed distance of `p` from the plane, in units of the normal's length. -/
def pointDistance (pl : Plane) (p : Vec3) : ℚ := Vec3.dot (Vec3.sub p pl.point) pl.normal

def side (pl : Plane) (p : Vec3) : Side :=
  if 0 < pl.pointDistance p then Side.above
  else if pl.pointDistance p < 0 then Side.below
  else Side.on

/-- The point where the segment from `u` to `v` crosses the plane. -/
def intersect (pl : Plane) (u v : Vec3) : Vec3 :=
  Vec3.add u (Vec3.smul (pl.pointDistance u / (pl.pointDistance u - pl.pointDistance v))
    (Vec3.sub v u))

end Plane

/-- Modelled from the spec: a face of the boundary representation (section 3): the loop
of its vertices (indices into the vertex list, counter-clockwise seen from outside), the
outward unit normal of its supporting plane, and the face attributes (here the material
name), absent when the face has no brush face attached. -/
structure Face where
  loop : List Nat
  normal : Vec3
  material : Option String
deriving DecidableEq

/-- Modelled from the spec: the vertex / edge / face graph of one convex solid
(section 3): the positions of the vertices, the edges as pairs of vertex indices, and
the faces. -/
structure Polyhedron where
  vertices : List Vec3
  edges : List (Nat × Nat)
  faces : List Face
deriving DecidableEq

namespace Polyhedron

def vertexCount (p : Polyhedron) : Nat := p.vertices.length
def edgeCount (p : Polyhedron) : Nat := p.edges.length
def faceCount (p : Polyhedron) : Nat := p.faces.length
def position (p : Polyhedron) (i : Nat) : Vec3 := p.vertices.getD i Vec3.zero
def bounds (p : Polyhedron) : Option BBox := BBox.mergeAll p.vertices
def fullySpecified (p : Polyhedron) : Bool := p.faces.all (fun f => f.material.isSome)

end Polyhedron

/-- The cyclically consecutive pairs of a loop. -/
def loopPairs (l : List Nat) : List (Nat × Nat) := l.zip (l.rotate 1)

/-- A point of the clipped boundary: a vertex that is kept, or the cut of the edge
between a vertex strictly inside (first) and a vertex strictly outside (second). -/
inductive SeamPoint where
  | vertex (i : Nat)
  | cut (inner outer : Nat)
deriving DecidableEq

def sideOf (cls : List Side) (i : Nat) : Side := cls.getD i Side.on

def kept (cls : List Side) (i : Nat) : Bool := decide (sideOf cls i ≠ Side.above)

/-- The cut of the directed pair `(u, v)`, when it crosses the plane. -/
def cutOf (cls : List Side) (e : Nat × Nat) : Option (Nat × Nat) :=
  if sideOf cls e.1 = Side.below ∧ sideOf cls e.2 = Side.above then some (e.1, e.2)
  else if sideOf cls e.1 = Side.above ∧ sideOf cls e.2 = Side.below then some (e.2, e.1)
  else none

/-- The edges that cross the plane, each as (inner vertex, outer vertex). -/
def cuts (cls : List Side) (edges : List (Nat × Nat)) : List (Nat × Nat) := edges.filterMap (cutOf cls)

/-- Index of a kept vertex after the dropped vertices are removed. -/
def newIndex (cls : List Side) (i : Nat) : Nat := ((List.range i).filter (kept cls)).length

def keptCount (cls : List Side) : Nat := ((List.range cls.length).filter (kept cls)).length

/-- Index of a point of the clipped boundary in the new vertex list: kept vertices
first, then one new vertex per crossing edge. -/
def resolve (cls : List Side) (edges : List (Nat × Nat)) : SeamPoint → Nat
  | SeamPoint.vertex i => newIndex cls i
  | SeamPoint.cut a b => keptCount cls + (cuts cls edges).indexOf (a, b)

/-- What one step of a loop leaves after the clip: its first vertex when it is kept,
and the cut point when the step crosses the plane. -/
def clipStep (cls : List Side) (e : Nat × Nat) : List SeamPoint :=
  (if kept cls e.1 then [SeamPoint.vertex e.1] else []) ++
  (match cutOf cls e with
   | some c => [SeamPoint.cut c.1 c.2]
   | none => [])

/-- The loop of a face after the clip: kept vertices stay, each crossing of the plane
inserts the cut point. -/
def clipLoop (cls : List Side) (l : List Nat) : List SeamPoint :=
  (loopPairs l).flatMap (clipStep cls)

/-- The new edge a clipped face gets along the plane: from the point where its loop
leaves the kept side to the point where it comes back. -/
def seamOf (cls : List Side) (l : List Nat) : Option (SeamPoint × SeamPoint) :=
  match (loopPairs l).find? (fun e => kept cls e.1 && !kept cls e.2),
        (loopPairs l).find? (fun e => !kept cls e.1 && kept cls e.2) with
  | some ex, some en =>
    let p := if sideOf cls ex.1 = Side.below then SeamPoint.cut ex.1 ex.2
             else SeamPoint.vertex ex.1
    let q := if sideOf cls en.2 = Side.below then SeamPoint.cut en.2 en.1
             else SeamPoint.vertex en.2
    if p = q then none else some (p, q)
  | _, _ => none

/-- Follows the seam edges from `p`, each to the one that starts where it ends. -/
def chain (seams : List (SeamPoint × SeamPoint)) : Nat → SeamPoint → List SeamPoint
  | 0, _ => []
  | n + 1, p =>
    match seams.find? (fun s => s.1 = p) with
    | some s => p :: chain seams n s.2
    | none => []

/-- The closed loop of the crossing points, oriented for the new face. -/
def capLoop (seams : List (SeamPoint × SeamPoint)) : List SeamPoint :=
  match seams with
  | [] => []
  | s :: _ => (chain seams seams.length s.1).reverse

/-- A seam edge is new unless it runs between two kept vertices that an edge joins
already. -/
def isNewSeam (edges : List (Nat × Nat)) : SeamPoint × SeamPoint → Bool
  | (SeamPoint.vertex i, SeamPoint.vertex j) => !(edges.contains (i, j) || edges.contains (j, i))
  | _ => true

/-- Modelled from the spec: Polyhedron clip (section 4.1; Polyhedron / Brush sources are
not part of the source tree). `cls` gives the side of each vertex, `cutPos inner outer`
the crossing point of an edge. Vertices strictly inside and on the plane are kept,
vertices strictly outside are dropped, edges crossing the plane are cut with a new
vertex at the crossing point, and the crossing points form the loop of one new face.
The solid is returned unchanged when no vertex is outside, and the clip fails with
`EmptyResult` when no vertex is strictly inside. -/
def clipWith (cls : List Side) (cutPos : Nat → Nat → Vec3) (capNormal : Vec3) (capMaterial : Option String)
    (p : Polyhedron) : Result Polyhedron :=
  if ¬ cls.any (fun s => decide (s = Side.above)) then Result.success p
  else if ¬ cls.any (fun s => decide (s = Side.below)) then Result.error BrushError.EmptyResult
  else
    let res := resolve cls p.edges
    let seams := p.faces.filterMap (fun f => seamOf cls f.loop)
    let faces := p.faces.filterMap (fun f =>
      let l := clipLoop cls f.loop
      if 3 ≤ l.length then some { f with loop := l.map res } else none)
    let cap : Face := ⟨(capLoop seams).map res, capNormal, capMaterial⟩
    Result.success
      { vertices := ((List.range cls.length).filter (kept cls)).map p.position ++
          (cuts cls p.edges).map (fun c => cutPos c.1 c.2)
        edges := (p.edges.filter (fun e => kept cls e.1 && kept cls e.2)).map
            (fun e => (newIndex cls e.1, newIndex cls e.2)) ++
          (cuts cls p.edges).map (fun c => (newIndex cls c.1, res (SeamPoint.cut c.1 c.2))) ++
          ((seams.filter (isNewSeam p.edges)).map (fun s => (res s.1, res s.2)))
        faces := faces ++ [cap] }

/-- Modelled from the spec: clip of a polyhedron with a plane (section 4.1): the part
in front of the plane is removed, and the new face gets the given attributes. -/
def Polyhedron.clip (p : Polyhedron) (pl : Plane) (capMaterial : Option String) :
    Result Polyhedron :=
  clipWith (p.vertices.map pl.side)
    (fun a b => pl.intersect (p.position a) (p.position b)) pl.normal capMaterial p

/-- Modelled from the spec: a brush (section 3): a polyhedron whose faces carry their
attributes. -/
abbrev Brush := Polyhedron


/-- Modelled from the spec: BrushBuilder::createCuboid (BrushBuilder.cpp is not part of
the source tree): the solid bounded by the six axis-aligned planes of the box, every
face with the given material. Fails when the box has no volume and when it is not
inside the world bounds. -/
def createCuboid (worldBounds : BBox) (b : BBox) (material : String) :
    Result Brush :=
  if ¬ (b.min.x < b.max.x ∧ b.min.y < b.max.y ∧ b.min.z < b.max.z) then
    Result.error BrushError.DegenerateGeometry
  else if ¬ worldBounds.encloses b then Result.error BrushError.OutOfWorldBounds
  else
    Result.success
      { vertices :=
          [⟨b.min.x, b.min.y, b.min.z⟩, ⟨b.min.x, b.min.y, b.max.z⟩,
           ⟨b.min.x, b.max.y, b.min.z⟩, ⟨b.min.x, b.max.y, b.max.z⟩,
           ⟨b.max.x, b.min.y, b.min.z⟩, ⟨b.max.x, b.min.y, b.max.z⟩,
           ⟨b.max.x, b.max.y, b.min.z⟩, ⟨b.max.x, b.max.y, b.max.z⟩]
        edges :=
          [(0, 1), (2, 3), (4, 5), (6, 7), (0, 2), (1, 3), (4, 6), (5, 7),
           (0, 4), (1, 5), (2, 6), (3, 7)]
        faces :=
          [⟨[0, 1, 3, 2], ⟨-1, 0, 0⟩, some material⟩,
           ⟨[4, 6, 7, 5], ⟨1, 0, 0⟩, some material⟩,
           ⟨[0, 4, 5, 1], ⟨0, -1, 0⟩, some material⟩,
           ⟨[2, 3, 7, 6], ⟨0, 1, 0⟩, some material⟩,
           ⟨[0, 2, 6, 4], ⟨0, 0, -1⟩, some material⟩,
           ⟨[1, 5, 7, 3], ⟨0, 0, 1⟩, some material⟩] }


/-- `areSegmentsEqual` of EdgeTool.cpp: both end points closer than `epsilon`, in either
order. -/
def areSegmentsEqual (a b : Segment) (epsilon : ℚ) : Bool :=
  (decide (Vec3.distanceSq a.start b.start < epsilon * epsilon) &&
    decide (Vec3.distanceSq a.stop b.stop < epsilon * epsilon)) ||
  (decide (Vec3.distanceSq a.start b.stop < epsilon * epsilon) &&
    decide (Vec3.distanceSq a.stop b.start < epsilon * epsilon))

/-- The segment of an edge of the polyhedron. -/
def Polyhedron.segment (p : Polyhedron) (e : Nat × Nat) : Segment :=
  ⟨p.position e.1, p.position e.2⟩

/-- Modelled from the spec: the tolerant edge-by-position lookup of the polyhedron
(section 4.1, query surface): the first edge whose end points match the given segment
within `epsilon`. -/
def findEdge (p : Polyhedron) (edge : Segment) (epsilon : ℚ) : Option (Nat × Nat) :=
  p.edges.find? (fun e => areSegmentsEqual (p.segment e) edge epsilon)

/-- Modelled from the spec: Brush::hasEdge, the tolerant existence query (section 4.2). -/
def hasEdge (p : Brush) (edge : Segment) (epsilon : ℚ) : Bool :=
  (findEdge p edge epsilon).isSome

/-- Tolerance of the edge lookup inside bevelEdge (section 4.2, item 5). -/
def edgeEpsilon : ℚ := 1 / 10

/-- The faces whose boundary runs along the edge. -/
def incidentFaces (p : Polyhedron) (e : Nat × Nat) : List Face :=
  p.faces.filter (fun f =>
    (loopPairs f.loop).contains e || (loopPairs f.loop).contains (e.2, e.1))

/-- Modelled from the spec: the bevel plane of section 4.2, item 1. Its normal is
`normalize (n1 + n2)` and it passes through the centre of the edge moved by `distance`
against that normal. -/
def bevelPlane (sqrt : ℚ → ℚ) (p : Polyhedron) (e : Nat × Nat) (n1 n2 : Vec3)
    (distance : ℚ) : Plane :=
  let n := Vec3.normalize sqrt (Vec3.add n1 n2)
  ⟨Vec3.sub (Vec3.smul (1 / 2) (Vec3.add (p.position e.1) (p.position e.2)))
      (Vec3.smul distance n), n⟩

/-- Modelled from the spec: Brush::bevelEdge (section 4.2; Brush.cpp is not part of the
source tree). The edge is looked up by position, the bevel plane is built from the
normals of its two faces, and the brush is clipped with it; the new face takes the
attributes of the first of the two faces. A clip only removes material, so the world
bounds play no role. On failure the caller keeps the brush it had. -/
def bevelEdge (sqrt : ℚ → ℚ) (brush : Brush) (edge : Segment) (distance : ℚ) :
    Result Brush :=
  match findEdge brush edge edgeEpsilon with
  | none => Result.error BrushError.HandleNotFound
  | some e =>
    match incidentFaces brush e with
    | [f1, f2] =>
      brush.clip (bevelPlane sqrt brush e f1.normal f2.normal distance) f1.material
    | _ => Result.error BrushError.HandleNotFound


/-- Integer square root by bisection between `lo` and `hi`, `fuel` halvings. -/
def natSqrtAux : Nat → Nat → Nat → Nat → Nat
  | 0, _, lo, _ => lo
  | fuel + 1, n, lo, hi =>
    if hi ≤ lo + 1 then lo
    else if ((lo + hi) / 2) * ((lo + hi) / 2) ≤ n then natSqrtAux fuel n ((lo + hi) / 2) hi
    else natSqrtAux fuel n lo ((lo + hi) / 2)

/-- A concrete square root for the `sqrt` parameter of the model: the root rounded down
to twelve decimal places (exact on squares of such numbers), for radicands whose scaled
numerator stays below `2 ^ 256`. -/
def sqrtApprox (q : ℚ) : ℚ :=
  mkRat (natSqrtAux 256 (q.num.toNat * q.den * 10 ^ 24) 0 (q.num.toNat * q.den * 10 ^ 24 + 1))
    (q.den * 10 ^ 12)

/-- Centroid of a face: the mean of the positions of its vertices. -/
def Polyhedron.faceCentroid (p : Polyhedron) (f : Face) : Vec3 :=
  Vec3.smul (1 / (f.loop.length : ℚ)) ((f.loop.map p.position).foldl Vec3.add Vec3.zero)

/-- The normal of a loop from its first three vertices, not normalised: the cross
product of the first two sides. -/
def rawNormal (vertices : List Vec3) (loop : List Nat) : Vec3 :=
  match loop with
  | a :: b :: c :: _ =>
    Vec3.cross (Vec3.sub (vertices.getD b Vec3.zero) (vertices.getD a Vec3.zero))
      (Vec3.sub (vertices.getD c Vec3.zero) (vertices.getD b Vec3.zero))
  | _ => Vec3.zero

/-- Signed distance, in units of the raw normal, of the point `v` from the plane of a
loop. -/
def loopDistance (vertices : List Vec3) (loop : List Nat) (v : Vec3) : ℚ :=
  Vec3.dot (Vec3.sub v (vertices.getD (loop.headD 0) Vec3.zero)) (rawNormal vertices loop)

/-- Modelled from the spec: the invariants of a polyhedron that must hold after every
successful operation (section 3), exact instead of within a tolerance, on the vertex
positions, the edges and the loops of the faces: every edge is shared by exactly two
faces and every side of a face is an edge; every face has a normal and is planar; the
solid is convex, every vertex on or behind the plane of every face, which also fixes the
winding; no two faces are coplanar. -/
def holdsInvariants (vertices : List Vec3) (edges : List (Nat × Nat))
    (loops : List (List Nat)) : Bool :=
  edges.all (fun e =>
    loops.countP (fun l => (loopPairs l).contains e || (loopPairs l).contains (e.2, e.1)) == 2) &&
  loops.all (fun l =>
    (loopPairs l).all (fun s => edges.contains s || edges.contains (s.2, s.1))) &&
  loops.all (fun l =>
    decide (rawNormal vertices l ≠ Vec3.zero) &&
      l.all (fun i => decide (loopDistance vertices l (vertices.getD i Vec3.zero) = 0))) &&
  loops.all (fun l => vertices.all (fun v => decide (loopDistance vertices l v ≤ 0))) &&
  loops.enum.all (fun il => loops.enum.all (fun jm =>
    il.1 == jm.1 ||
      !(jm.2.all (fun i => decide (loopDistance vertices il.2 (vertices.getD i Vec3.zero) = 0)))))

/-- The invariants of section 3 of the specification for a polyhedron. -/
def Polyhedron.invariantsHold (p : Polyhedron) : Bool :=
  holdsInvariants p.vertices p.edges (p.faces.map (fun f => f.loop))

/-- The unit normal of a face derived from the first three vertices of its loop. -/
def Polyhedron.deriveNormal (sqrt : ℚ → ℚ) (p : Polyhedron) (f : Face) : Vec3 :=
  match f.loop with
  | a :: b :: c :: _ =>
    Vec3.normalize sqrt
      (Vec3.cross (Vec3.sub (p.position b) (p.position a)) (Vec3.sub (p.position c) (p.position b)))
  | _ => f.normal

/-- The vertex positions of an inset: the vertices of the loop are scaled about `c`,
the others stay. -/
def insetVertices (vertices : List Vec3) (loop : List Nat) (c : Vec3) (scale : ℚ) : List Vec3 :=
  vertices.enum.map (fun iv =>
    if iv.1 ∈ loop then Vec3.add c (Vec3.smul scale (Vec3.sub iv.2 c)) else iv.2)

/-- Modelled from the spec: insetFace (section 4.2; Brush.cpp is not part of the source
tree): every vertex of the face moves to `centroid + (vertex - centroid) * scale`, so the
plane of the face stays; the adjoining faces keep their loops and so follow the moved
vertices, and their planes are derived again from them. The result must satisfy the
invariants of section 3: when it does not (an adjoining face is no longer planar, the
solid is no longer convex, the face has collapsed) the call fails with
`DegenerateGeometry`. -/
def insetFace (sqrt : ℚ → ℚ) (brush : Brush) (faceIndex : Nat) (scale : ℚ) : Result Brush :=
  match brush.faces.get? faceIndex with
  | none => Result.error BrushError.HandleNotFound
  | some f =>
    let moved : Polyhedron :=
      { brush with vertices := insetVertices brush.vertices f.loop (brush.faceCentroid f) scale }
    if moved.invariantsHold then
      Result.success
        { moved with
          faces := moved.faces.enum.map (fun ig =>
            if ig.1 = faceIndex then ig.2
            else { ig.2 with normal := moved.deriveNormal sqrt ig.2 }) }
    else Result.error BrushError.DegenerateGeometry

/-- Modelled from the spec: Brush::transform (section 4.2) for the translation matrices
the tools pass, read on the bounds of the brush: the bounds move by the translation,
and the call fails with `OutOfWorldBounds` when they leave the world bounds. -/
def transformBounds (worldBounds : BBox) (translation : Vec3) (bounds : BBox) : Result BBox :=
  if worldBounds.encloses (bounds.translate translation) then
    Result.success (bounds.translate translation)
  else Result.error BrushError.OutOfWorldBounds

-- AlignmentTool.

/-- `AlignMode` of AlignmentTool.h. -/
inductive AlignMode where
  | Min
  | Center
  | Max
deriving DecidableEq

/-- Kind of the contents of a selected node (world and layer nodes are never part of
a selection, and the visitors do nothing for them; a selected entity node is a point
entity, without children). -/
inductive NodeKind where
  | Brush
  | Entity
  | Group
  | Patch
deriving DecidableEq

/-- A selected node, reduced to what the alignment tool reads and writes: the kind of
its contents and its `logicalBounds()`, which for a group node are the bounds of its
children. -/
structure Node where
  kind : NodeKind
  bounds : BBox
deriving DecidableEq

/-- The `node->accept(...)` visitor of the alignment tool for a translation: the
contents are copied, the copy is transformed and written back with
`updateNodeContents`. For a brush the result of `Brush::transform` is not looked at; a
failed transform leaves the copy as it was. For a group only the `Group` value is
transformed and written back: no child is visited, so the children stay where they are
and with them the logical bounds of the group node. -/
def transformNode (worldBounds : BBox) (translation : Vec3) (node : Node) : Node :=
  match node.kind with
  | NodeKind.Brush =>
    match transformBounds worldBounds translation node.bounds with
    | Result.success b => { node with bounds := b }
    | Result.error _ => node
  | NodeKind.Entity => { node with bounds := node.bounds.translate translation }
  | NodeKind.Group => node
  | NodeKind.Patch => { node with bounds := node.bounds.translate translation }

/-- The `switch (mode)` of the alignment tool: min, centre or max of a box on an axis. -/
def refPos (mode : AlignMode) (axis : Fin 3) (b : BBox) : ℚ :=
  match mode with
  | AlignMode.Min => b.min.get axis
  | AlignMode.Center => b.center.get axis
  | AlignMode.Max => b.max.get axis

/-- `Selection::selectionBounds()`: the box spanned by the logical bounds of the
selected nodes. -/
def selectionBounds : List Node → BBox
  | [] => ⟨Vec3.zero, Vec3.zero⟩
  | n :: ns => ns.foldl (fun b m => b.merge m.bounds) n.bounds

/-- The translation along `axis` by `delta` (`translation[axis] = delta`). -/
def axisTranslation (axis : Fin 3) (delta : ℚ) : Vec3 := Vec3.zero.set axis delta

/-- Body of the loops of the alignment tool: move the node so that `currentPos` comes
to `targetPos`, unless it is there already up to 0.001. -/
def moveTo (worldBounds : BBox) (axis : Fin 3) (targetPos currentPos : ℚ) (node : Node) :
    Node :=
  if |targetPos - currentPos| > 1 / 1000 then
    transformNode worldBounds (axisTranslation axis (targetPos - currentPos)) node
  else node

/-- Whether the translation that `moveTo` makes for the node, if it makes one,
succeeds: `Brush::transform` returns success (the other contents cannot fail). -/
def moveSucceeds (worldBounds : BBox) (axis : Fin 3) (targetPos currentPos : ℚ) (node : Node) :
    Bool :=
  if |targetPos - currentPos| > 1 / 1000 ∧ node.kind = NodeKind.Brush then
    (transformBounds worldBounds (axisTranslation axis (targetPos - currentPos))
      node.bounds).is_success
  else true

/-- The `targetPos` of alignObjects: taken from the first selected node when
`alignToFirst` is set, from the bounds of the whole selection otherwise. -/
def alignTargetPos (axis : Fin 3) (mode : AlignMode) (alignToFirst : Bool) (nodes : List Node) :
    ℚ :=
  match nodes with
  | first :: _ =>
    if alignToFirst then refPos mode axis first.bounds
    else refPos mode axis (selectionBounds nodes)
  | [] => refPos mode axis (selectionBounds nodes)

/-- AlignmentTool::alignObjects (AlignmentTool.cpp) on the selected nodes; the result is the selection after
the call. -/
def alignObjects (worldBounds : BBox) (axis : Fin 3) (mode : AlignMode) (alignToFirst : Bool)
    (nodes : List Node) : List Node :=
  match nodes with
  | [] => nodes
  | first :: rest =>
    if nodes.length < 2 && !alignToFirst then nodes
    else
      let targetPos := alignTargetPos axis mode alignToFirst nodes
      let step := fun (node : Node) =>
        moveTo worldBounds axis targetPos (refPos mode axis node.bounds) node
      if alignToFirst then first :: rest.map step else nodes.map step

/-- Centre of the logical bounds of a node on an axis. -/
def Node.centerOn (axis : Fin 3) (node : Node) : ℚ := node.bounds.center.get axis

/-- The `std::sort` of distributeObjects, by centre along the axis, as an insertion
sort (nodes with equal centres keep their order; `std::sort` leaves it open). -/
def sortByCenter (axis : Fin 3) (nodes : List Node) : List Node :=
  nodes.insertionSort (fun a b => a.centerOn axis ≤ b.centerOn axis)

/-- AlignmentTool::distributeObjects (AlignmentTool.cpp) from the `std::sort` on: the
span, the step and the loop over the nodes between the first and the last, on the
sorted vector. -/
def distributeSorted (worldBounds : BBox) (axis : Fin 3) (useSpacing : Bool) (spacing : ℚ)
    (sorted : List Node) : List Node :=
  match sorted.head?, sorted.getLast? with
  | some front, some back =>
    let totalSpan := back.centerOn axis - front.centerOn axis
    let step := if useSpacing then spacing else totalSpan / ((sorted.length - 1 : Nat) : ℚ)
    let startPos := front.centerOn axis
    sorted.enum.map (fun inode =>
      if 1 ≤ inode.1 ∧ inode.1 < sorted.length - 1 then
        moveTo worldBounds axis (startPos + step * (inode.1 : ℚ)) (inode.2.centerOn axis)
          inode.2
      else inode.2)
  | _, _ => sorted

/-- AlignmentTool::distributeObjects (AlignmentTool.cpp); the result is the selection
after the call, in the order of the sort. -/
def distributeObjects (worldBounds : BBox) (axis : Fin 3) (useSpacing : Bool) (spacing : ℚ)
    (nodes : List Node) : List Node :=
  if nodes.length < 3 then nodes
  else distributeSorted worldBounds axis useSpacing spacing (sortByCenter axis nodes)


/-- The `std::sort` of stackObjects, by the min of the bounds on the axis, as an
insertion sort (nodes with equal min keep their order; `std::sort` leaves it open). -/
def sortByMin (axis : Fin 3) (nodes : List Node) : List Node :=
  nodes.insertionSort (fun a b => a.bounds.min.get axis ≤ b.bounds.min.get axis)

/-- The loop of AlignmentTool::stackObjects from some node on, with the `nextPos`
reached there: the node is moved so that its min comes to `nextPos`, and `nextPos`
becomes `bounds.max + delta + gap`, with the bounds read before the move. -/
def stackFrom (worldBounds : BBox) (axis : Fin 3) (gap : ℚ) : ℚ → List Node → List Node
  | _, [] => []
  | nextPos, node :: rest =>
    let currentPos := node.bounds.min.get axis
    let delta := nextPos - currentPos
    moveTo worldBounds axis nextPos currentPos node ::
      stackFrom worldBounds axis gap (node.bounds.max.get axis + delta + gap) rest

/-- AlignmentTool::stackObjects (AlignmentTool.cpp) from the `std::sort` on: the first
node stays, and the loop starts with `nextPos` at its max plus the gap. -/
def stackSorted (worldBounds : BBox) (axis : Fin 3) (gap : ℚ) (sorted : List Node) :
    List Node :=
  match sorted with
  | [] => []
  | front :: rest =>
    front :: stackFrom worldBounds axis gap (front.bounds.max.get axis + gap) rest

/-- AlignmentTool::stackObjects (AlignmentTool.cpp); the result is the selection after
the call, in the order of the sort. -/
def stackObjects (worldBounds : BBox) (axis : Fin 3) (gap : ℚ) (nodes : List Node) :
    List Node :=
  if nodes.length < 2 then nodes
  else stackSorted worldBounds axis gap (sortByMin axis nodes)

/-- Whether every translation that the loop of stackObjects makes from `nextPos` on
succeeds. -/
def stackSucceeds (worldBounds : BBox) (axis : Fin 3) (gap : ℚ) : ℚ → List Node → Bool
  | _, [] => true
  | nextPos, node :: rest =>
    moveSucceeds worldBounds axis nextPos (node.bounds.min.get axis) node &&
      stackSucceeds worldBounds axis gap
        (node.bounds.max.get axis + (nextPos - node.bounds.min.get axis) + gap) rest

/-- Whether every delta that the loop of stackObjects computes from `nextPos` on
exceeds the no-move tolerance 0.001. -/
def stackAllMoved (axis : Fin 3) (gap : ℚ) : ℚ → List Node → Bool
  | _, [] => true
  | nextPos, node :: rest =>
    decide (|nextPos - node.bounds.min.get axis| > 1 / 1000) &&
      stackAllMoved axis gap
        (node.bounds.max.get axis + (nextPos - node.bounds.min.get axis) + gap) rest

-- BridgeTool.

/-- A selected brush face as createBridge reads it: `boundsCenter()`, `normal()` and
the positions of `vertices()`. -/
structure BridgeFace where
  boundsCenter : Vec3
  normal : Vec3
  vertices : List Vec3
deriving DecidableEq

/-- The settings of BridgeTool. -/
structure BridgeTool where
  segments : Nat
  curvedBridge : Bool
  curvature : ℚ
  taper : Bool
  taperAmount : ℚ
deriving DecidableEq

/-- The path points `pos1` and `pos2` of segment `i` of the bridge from `center1` to
`center2`, with the curve offset applied when the bridge is curved. -/
def segmentEnds (sqrt : ℚ → ℚ) (tool : BridgeTool) (center1 center2 : Vec3) (avgWidth : ℚ)
    (i : Nat) : Vec3 × Vec3 :=
  let t1 := (i : ℚ) / (tool.segments : ℚ)
  let t2 := ((i + 1 : Nat) : ℚ) / (tool.segments : ℚ)
  let pos1 := Vec3.add center1 (Vec3.smul t1 (Vec3.sub center2 center1))
  let pos2 := Vec3.add center1 (Vec3.smul t2 (Vec3.sub center2 center1))
  if tool.curvedBridge ∧ |tool.curvature| > 1 / 1000 then
    let curveOffset1 := tool.curvature * 4 * t1 * (1 - t1) * avgWidth
    let curveOffset2 := tool.curvature * 4 * t2 * (1 - t2) * avgWidth
    let bridgeDir := Vec3.normalize sqrt (Vec3.sub center2 center1)
    let sideDir := Vec3.normalize sqrt (Vec3.cross bridgeDir ⟨0, 0, 1⟩)
    (Vec3.add pos1 (Vec3.smul curveOffset1 sideDir), Vec3.add pos2 (Vec3.smul curveOffset2 sideDir))
  else (pos1, pos2)

/-- The taper scales `scale1` and `scale2` of segment `i`. -/
def segmentScales (tool : BridgeTool) (i : Nat) : ℚ × ℚ :=
  let t1 := (i : ℚ) / (tool.segments : ℚ)
  let t2 := ((i + 1 : Nat) : ℚ) / (tool.segments : ℚ)
  if tool.taper ∧ |tool.taperAmount| > 1 / 1000 then
    let taperMid := 1 - |tool.taperAmount|
    (1 - (1 - taperMid) * 2 * |t1 - 1 / 2|, 1 - (1 - taperMid) * 2 * |t2 - 1 / 2|)
  else (1, 1)

/-- The `segmentBounds` of segment `i`, or nothing when the segment is shorter than 0.1
and skipped. -/
def segmentBounds (sqrt : ℚ → ℚ) (tool : BridgeTool) (center1 center2 : Vec3)
    (avgWidth avgHeight : ℚ) (i : Nat) : Option BBox :=
  let ends := segmentEnds sqrt tool center1 center2 avgWidth i
  let scales := segmentScales tool i
  let segmentWidth1 := avgWidth * scales.1
  let segmentWidth2 := avgWidth * scales.2
  let segmentHeight := avgHeight
  let segmentCenter := Vec3.smul (1 / 2) (Vec3.add ends.1 ends.2)
  let segmentLength := Vec3.length sqrt (Vec3.sub ends.2 ends.1)
  if segmentLength < 1 / 10 then none
  else
    let halfSize : Vec3 :=
      ⟨segmentLength / 2 + 1 / 10, (segmentWidth1 + segmentWidth2) / 4, segmentHeight / 2⟩
    some ⟨Vec3.sub segmentCenter halfSize, Vec3.add segmentCenter halfSize⟩

/-- The cross-section `(avgWidth, avgHeight)` of the bridge from the bounds of the two
faces. -/
def bridgeSection (bounds1 bounds2 : BBox) : ℚ × ℚ :=
  let size1 := bounds1.size
  let size2 := bounds2.size
  let avgWidth := (max size1.x size1.y + max size2.x size2.y) / 2
  let avgHeight := (size1.z + size2.z) / 2
  let avgHeight := if avgHeight < 1 then avgWidth else avgHeight
  let avgWidth := if avgWidth < 1 then 8 else avgWidth
  (avgWidth, avgHeight)

/-- BridgeTool::createBridge on the selected brush faces: the brushes of the new nodes
when the bridge is created (`true`), nothing when it is not (`false`). Adding the new
nodes to the map is taken to succeed. -/
def createBridge (sqrt : ℚ → ℚ) (tool : BridgeTool) (worldBounds : BBox) (material : String)
    (selectedFaces : List BridgeFace) : Option (List Brush) :=
  match selectedFaces with
  | [face1, face2] =>
    if face1.vertices.length < 3 ∨ face2.vertices.length < 3 then none
    else
      match BBox.mergeAll face1.vertices, BBox.mergeAll face2.vertices with
      | some bounds1, some bounds2 =>
        let sec := bridgeSection bounds1 bounds2
        let newNodes := (List.range tool.segments).filterMap (fun i =>
          match segmentBounds sqrt tool face1.boundsCenter face2.boundsCenter sec.1 sec.2 i with
          | none => none
          | some b => (createCuboid worldBounds b material).value?)
        if newNodes.isEmpty then none else some newNodes
      | _, _ => none
  | _ => none

-- EdgeTool.

/-- `MoveResult` of the vertex tools. -/
inductive MoveResult where
  | Continue
  | Deny
  | Cancel
deriving DecidableEq

/-- The members of EdgeTool that `move` reads and writes in bevel mode: the
accumulated drag and the brushes of the incident nodes as they were when the drag
started, per node. -/
structure EdgeTool where
  totalDelta : Vec3
  initialBrushes : List (Nat × Brush)
deriving DecidableEq

/-- The call `brush.bevelEdge(...)` of EdgeTool::move on the working copy: the result
is not looked at, and a failed bevel leaves the copy as it was. -/
def bevelOnCopy (sqrt : ℚ → ℚ) (distance : ℚ) (brush : Brush) (edgeHandle : Segment) : Brush :=
  match bevelEdge sqrt brush edgeHandle distance with
  | Result.success b => b
  | Result.error _ => brush

/-- One step of the inner loop of EdgeTool::move: the handle is checked against the
initial brush with tolerance 0.1 and, when it passes, beveled on the working copy. -/
def bevelHandle (sqrt : ℚ → ℚ) (initialBrush : Brush) (distance : ℚ) (brush : Brush)
    (edgeHandle : Segment) : Brush :=
  if hasEdge initialBrush edgeHandle (1 / 10) then bevelOnCopy sqrt distance brush edgeHandle
  else brush

/-- EdgeTool::move in bevel mode (`m_bevelMode` set). `almostZero` is
`vm::Cd::almost_zero()`. The result is the tool, the `setBrush` calls made (node and
new brush) and the move result. -/
def move (sqrt : ℚ → ℚ) (almostZero : ℚ) (tool : EdgeTool) (selectedHandles : List Segment)
    (delta : Vec3) : EdgeTool × List (Nat × Brush) × MoveResult :=
  let totalDelta := Vec3.add tool.totalDelta delta
  let distance := Vec3.length sqrt totalDelta
  if distance < almostZero then ({ tool with totalDelta := totalDelta }, [], MoveResult.Continue)
  else
    ({ tool with totalDelta := totalDelta },
      tool.initialBrushes.map (fun nb =>
        (nb.1, selectedHandles.foldl (bevelHandle sqrt nb.2 distance) nb.2)),
      MoveResult.Continue)


-- ArrayTool.

/-- A homogeneous vector (`vm::vec4d`), here a row of a matrix. -/
structure Vec4 where
  x : ℚ
  y : ℚ
  z : ℚ
  w : ℚ
deriving DecidableEq

/-- The dot product of two homogeneous vectors. -/
def Vec4.dot (a b : Vec4) : ℚ := a.x * b.x + a.y * b.y + a.z * b.z + a.w * b.w

/-- A `vm::mat4x4d`, given by its four rows. -/
structure Mat4 where
  r0 : Vec4
  r1 : Vec4
  r2 : Vec4
  r3 : Vec4
deriving DecidableEq

namespace Mat4

def c0 (m : Mat4) : Vec4 := ⟨m.r0.x, m.r1.x, m.r2.x, m.r3.x⟩
def c1 (m : Mat4) : Vec4 := ⟨m.r0.y, m.r1.y, m.r2.y, m.r3.y⟩
def c2 (m : Mat4) : Vec4 := ⟨m.r0.z, m.r1.z, m.r2.z, m.r3.z⟩
def c3 (m : Mat4) : Vec4 := ⟨m.r0.w, m.r1.w, m.r2.w, m.r3.w⟩

/-- The row of the product `a * b` that comes from the row `r` of `a`. -/
def mulRow (r : Vec4) (b : Mat4) : Vec4 :=
  ⟨Vec4.dot r b.c0, Vec4.dot r b.c1, Vec4.dot r b.c2, Vec4.dot r b.c3⟩

/-- The matrix product `a * b`. -/
def mul (a b : Mat4) : Mat4 := ⟨mulRow a.r0 b, mulRow a.r1 b, mulRow a.r2 b, mulRow a.r3 b⟩

/-- The product `m * p` of a matrix and a point: the point is taken to homogeneous
coordinates (w = 1), multiplied, and taken back to cartesian coordinates. -/
def apply (m : Mat4) (p : Vec3) : Vec3 :=
  let h : Vec4 := ⟨p.x, p.y, p.z, 1⟩
  let w := Vec4.dot m.r3 h
  ⟨Vec4.dot m.r0 h / w, Vec4.dot m.r1 h / w, Vec4.dot m.r2 h / w⟩

/-- The matrix is a linear map of space: no translation part, and the last row is
(0, 0, 0, 1). -/
def isLinear (m : Mat4) : Prop :=
  m.r0.w = 0 ∧ m.r1.w = 0 ∧ m.r2.w = 0 ∧ m.r3 = ⟨0, 0, 0, 1⟩

end Mat4

instance (m : Mat4) : Decidable m.isLinear := by
  unfold Mat4.isLinear
  infer_instance

/-- The `vm::translation_matrix` of a vector. -/
def translation_matrix (d : Vec3) : Mat4 :=
  ⟨⟨1, 0, 0, d.x⟩, ⟨0, 1, 0, d.y⟩, ⟨0, 0, 1, d.z⟩, ⟨0, 0, 0, 1⟩⟩

/-- The `vm::to_radians` of an angle in degrees, with `pi` the constant of the
platform. -/
def to_radians (pi : ℚ) (d : ℚ) : ℚ := d * pi / 180

/-- `vm::vec3d::axis(i)`: the unit vector of a coordinate axis. -/
def Vec3.axis (i : Fin 3) : Vec3 := Vec3.zero.set i 1

/-- The vector `-v`. -/
def Vec3.neg (v : Vec3) : Vec3 := ⟨-v.x, -v.y, -v.z⟩

/-- The contents of a node of the map, by the type of the node, reduced to what a
transformation moves: the transformation of a group, the origin of an entity, the
vertex positions of a brush, the control points of a patch. -/
inductive NodeContents where
  | World
  | Layer
  | Group (transformation : Mat4)
  | Entity (origin : Vec3)
  | Brush (vertices : List Vec3)
  | Patch (controlPoints : List Vec3)
deriving DecidableEq

/-- A node of the map: its parent (`node->parent()`, the place of the parent in the
list of the nodes of the map) and its contents. -/
structure MapNode where
  parent : Option Nat
  contents : NodeContents
deriving DecidableEq

/-- The map as the array tool reads and writes it: the world bounds, the nodes (a node
is known by its place in the list) and the selected nodes (`map.selection().nodes`). -/
structure Map where
  worldBounds : BBox
  nodes : List MapNode
  selection : List Nat
deriving DecidableEq

/-- The children of the node at place `k`, in the order in which they were added
(`visitChildren`). -/
def Map.children (map : Map) (k : Nat) : List MapNode :=
  map.nodes.filter (fun n => n.parent = some k)

/-- The selected nodes themselves. -/
def Map.selectedNodes (map : Map) : List MapNode :=
  map.selection.filterMap (fun s => map.nodes[s]?)

/-- The call `addNodes(map, ...)`: the new nodes come after the nodes of the map. Adding
nodes is taken to succeed. -/
def Map.addNodes (map : Map) (newNodes : List MapNode) : Map :=
  { map with nodes := map.nodes ++ newNodes }

/-- The state of the loops of the array tool, the map and `allNewNodes`, when the nodes
`newNodes` have been added to `map` one by one. -/
def Map.added (map : Map) (newNodes : List MapNode) : Map × List Nat :=
  (map.addNodes newNodes, List.range' map.nodes.length newNodes.length)

/-- Modelled from the spec: Brush::transform (section 4.2) on the vertex positions of
the brush: the matrix is applied to every vertex, and the call fails with
`OutOfWorldBounds` when the result leaves the world bounds. -/
def transformBrush (worldBounds : BBox) (m : Mat4) (vertices : List Vec3) :
    Result (List Vec3) :=
  if (vertices.map m.apply).all worldBounds.contains then
    Result.success (vertices.map m.apply)
  else Result.error BrushError.OutOfWorldBounds

/-- The brush after a call of `brush.transform(...)` whose result is not looked at: a
failed transform leaves the brush as it was. -/
def transformBrushUnchecked (worldBounds : BBox) (m : Mat4) (vertices : List Vec3) :
    List Vec3 :=
  match transformBrush worldBounds m vertices with
  | Result.success moved => moved
  | Result.error _ => vertices

/-- The visitor for the children of a group in applyLinearArray: the copy of a child
brush, entity or patch, made a child of the new group node; nothing for a nested
group. -/
def copyGroupChild (worldBounds : BBox) (transform : Mat4) (newGroupNode : Nat)
    (child : MapNode) : Option MapNode :=
  match child.contents with
  | NodeContents.Brush brush =>
    some ⟨some newGroupNode,
      NodeContents.Brush (transformBrushUnchecked worldBounds transform brush)⟩
  | NodeContents.Entity entity =>
    some ⟨some newGroupNode, NodeContents.Entity (transform.apply entity)⟩
  | NodeContents.Patch patch =>
    some ⟨some newGroupNode, NodeContents.Patch (patch.map transform.apply)⟩
  | _ => none

/-- The visitor for the children of an entity in applyLinearArray: the copy of a child
brush, made a child of the new entity node. -/
def copyEntityChild (worldBounds : BBox) (transform : Mat4) (newEntityNode : Nat)
    (child : MapNode) : Option MapNode :=
  match child.contents with
  | NodeContents.Brush brush =>
    some ⟨some newEntityNode,
      NodeContents.Brush (transformBrushUnchecked worldBounds transform brush)⟩
  | _ => none

/-- The visitor of applyLinearArray for one node to duplicate: the state is the map and
`allNewNodes`. A group and an entity are copied with copies of their children, a brush
is copied only when its transform succeeds, world and layer nodes are passed over. -/
def duplicateLinear (transform : Mat4) (st : Map × List Nat) (node : Nat) : Map × List Nat :=
  match st.1.nodes[node]? with
  | none => st
  | some n =>
    let newNode := st.1.nodes.length
    match n.contents with
    | NodeContents.Group group =>
      let newChildren :=
        (st.1.children node).filterMap (copyGroupChild st.1.worldBounds transform newNode)
      (st.1.addNodes (⟨n.parent, NodeContents.Group (transform.mul group)⟩ :: newChildren),
        st.2 ++ [newNode])
    | NodeContents.Brush brush =>
      match transformBrush st.1.worldBounds transform brush with
      | Result.success moved =>
        (st.1.addNodes [⟨n.parent, NodeContents.Brush moved⟩], st.2 ++ [newNode])
      | Result.error _ => st
    | NodeContents.Entity entity =>
      let newChildren :=
        (st.1.children node).filterMap (copyEntityChild st.1.worldBounds transform newNode)
      (st.1.addNodes (⟨n.parent, NodeContents.Entity (transform.apply entity)⟩ :: newChildren),
        st.2 ++ [newNode])
    | NodeContents.Patch patch =>
      (st.1.addNodes [⟨n.parent, NodeContents.Patch (patch.map transform.apply)⟩],
        st.2 ++ [newNode])
    | NodeContents.World => st
    | NodeContents.Layer => st

/-- The new node that the visitor of applyGridArray and of applyRadialArray (the same
text in both) makes for a node to duplicate: a brush is copied only when its transform
succeeds, and a group is copied as a group node alone. -/
def copyNode (worldBounds : BBox) (transform : Mat4) (n : MapNode) : Option MapNode :=
  match n.contents with
  | NodeContents.Brush brush =>
    match transformBrush worldBounds transform brush with
    | Result.success moved => some ⟨n.parent, NodeContents.Brush moved⟩
    | Result.error _ => none
  | NodeContents.Entity entity => some ⟨n.parent, NodeContents.Entity (transform.apply entity)⟩
  | NodeContents.Patch patch =>
    some ⟨n.parent, NodeContents.Patch (patch.map transform.apply)⟩
  | NodeContents.Group group => some ⟨n.parent, NodeContents.Group (transform.mul group)⟩
  | NodeContents.World => none
  | NodeContents.Layer => none

/-- The visitor of applyGridArray and of applyRadialArray for one node to duplicate:
the new node, when one is made, is added to the map and to `allNewNodes`. -/
def duplicateNode (transform : Mat4) (st : Map × List Nat) (node : Nat) : Map × List Nat :=
  match st.1.nodes[node]? with
  | none => st
  | some n =>
    match copyNode st.1.worldBounds transform n with
    | some newNode => (st.1.addNodes [newNode], st.2 ++ [st.1.nodes.length])
    | none => st

/-- The end of the three array functions: with `groupResult` the originals and the new
nodes are selected and grouped (`groupSelectedNodes`, a parameter), otherwise the new
nodes are selected; without new nodes nothing is done. -/
def finishArray (groupSelectedNodes : Map → String → Map) (name : String)
    (nodesToDuplicate : List Nat) (groupResult : Bool) (st : Map × List Nat) : Map :=
  if groupResult ∧ ¬ st.2.isEmpty then
    groupSelectedNodes { st.1 with selection := nodesToDuplicate ++ st.2 } name
  else if ¬ st.2.isEmpty then { st.1 with selection := st.2 }
  else st.1

/-- ArrayTool::applyLinearArray (ArrayTool.cpp); the result is the map after the call. -/
def applyLinearArray (groupSelectedNodes : Map → String → Map) (map : Map) (count : Int)
    (offset : Vec3) (groupResult : Bool) : Map :=
  if map.selection.isEmpty ∨ count ≤ 0 then map
  else
    let nodesToDuplicate := map.selection
    let st := (List.range count.toNat).foldl (fun st k =>
      let i : Nat := k + 1
      let translation := Vec3.smul (i : ℚ) offset
      let transform := translation_matrix translation
      nodesToDuplicate.foldl (duplicateLinear transform) st) (map, [])
    finishArray groupSelectedNodes "Array" nodesToDuplicate groupResult st

/-- The `translation` of the grid cell (x, y, z) in applyGridArray: the size of the
bounds of the selection plus the spacing, times the cell index, on every axis. -/
def gridTranslation (bounds : BBox) (spacingX spacingY spacingZ : ℚ) (x y z : Nat) : Vec3 :=
  let size := bounds.size
  let totalSpacingX := size.x + spacingX
  let totalSpacingY := size.y + spacingY
  let totalSpacingZ := size.z + spacingZ
  ⟨(x : ℚ) * totalSpacingX, (y : ℚ) * totalSpacingY, (z : ℚ) * totalSpacingZ⟩

/-- ArrayTool::applyGridArray (ArrayTool.cpp); `bounds` is the value of
`*map.selectionBounds()`. The result is the map after the call. -/
def applyGridArray (groupSelectedNodes : Map → String → Map) (bounds : BBox) (map : Map)
    (countX countY countZ : Int) (spacingX spacingY spacingZ : ℚ) (groupResult : Bool) : Map :=
  if map.selection.isEmpty then map
  else
    let nodesToDuplicate := map.selection
    let st := (List.range countX.toNat).foldl (fun st x =>
      (List.range countY.toNat).foldl (fun st y =>
        (List.range countZ.toNat).foldl (fun st z =>
          if x = 0 ∧ y = 0 ∧ z = 0 then st
          else
            let translation := gridTranslation bounds spacingX spacingY spacingZ x y z
            let transform := translation_matrix translation
            nodesToDuplicate.foldl (duplicateNode transform) st) st) st) (map, [])
    finishArray groupSelectedNodes "Grid Array" nodesToDuplicate groupResult st

/-- The `transform` of copy `i` in applyRadialArray, with `vm::rotation_matrix` as a
parameter. -/
def radialTransform (pi : ℚ) (rotation_matrix : Vec3 → ℚ → Mat4) (count : Int)
    (center : Vec3) (axis : Fin 3) (totalAngle : ℚ) (i : Nat) : Mat4 :=
  let angleIncrement := to_radians pi totalAngle / (count : ℚ)
  let axisVec := Vec3.axis axis
  let angle := angleIncrement * (i : ℚ)
  ((translation_matrix center).mul (rotation_matrix axisVec angle)).mul
    (translation_matrix (Vec3.neg center))

/-- ArrayTool::applyRadialArray (ArrayTool.cpp), with `vm::rotation_matrix` and the
constant `pi` as parameters; the result is the map after the call. -/
def applyRadialArray (pi : ℚ) (rotation_matrix : Vec3 → ℚ → Mat4)
    (groupSelectedNodes : Map → String → Map) (map : Map) (count : Int) (center : Vec3)
    (axis : Fin 3) (totalAngle : ℚ) (groupResult : Bool) : Map :=
  if map.selection.isEmpty ∨ count ≤ 0 then map
  else
    let nodesToDuplicate := map.selection
    let st := (List.range count.toNat).foldl (fun st k =>
      let transform := radialTransform pi rotation_matrix count center axis totalAngle (k + 1)
      nodesToDuplicate.foldl (duplicateNode transform) st) (map, [])
    finishArray groupSelectedNodes "Radial Array" nodesToDuplicate groupResult st

/-- The node translated by `d`: the positions of a brush, a patch or an entity moved by
`d`, and for a group the translation put before its transformation; the parent is
kept. -/
def MapNode.translate (d : Vec3) (n : MapNode) : MapNode :=
  match n.contents with
  | NodeContents.Brush brush =>
    ⟨n.parent, NodeContents.Brush (brush.map (fun v => Vec3.add v d))⟩
  | NodeContents.Entity entity => ⟨n.parent, NodeContents.Entity (Vec3.add entity d)⟩
  | NodeContents.Patch patch =>
    ⟨n.parent, NodeContents.Patch (patch.map (fun v => Vec3.add v d))⟩
  | NodeContents.Group group =>
    ⟨n.parent, NodeContents.Group ((translation_matrix d).mul group)⟩
  | NodeContents.World => n
  | NodeContents.Layer => n

/-- The copies of a linear array as its documentation describes them: for i from 1 to
`count`, every selected node translated by i times the offset. -/
def linearCopies (map : Map) (count : Nat) (offset : Vec3) : List MapNode :=
  (List.range count).flatMap (fun k =>
    map.selectedNodes.map (MapNode.translate (Vec3.smul ((k + 1 : Nat) : ℚ) offset)))

/-- The new nodes of an array made with the given transforms in turn: for every
transform, the new node of every selected node for which one is made. -/
def arrayCopies (map : Map) (transforms : List Mat4) : List MapNode :=
  transforms.flatMap (fun t => map.selectedNodes.filterMap (copyNode map.worldBounds t))

/-- The cells of a grid of the given counts in the order of the loops, without the
cell (0, 0, 0) of the originals. -/
def gridCells (countX countY countZ : Nat) : List (Nat × Nat × Nat) :=
  (List.range countX).flatMap (fun x =>
    (List.range countY).flatMap (fun y =>
      (List.range countZ).flatMap (fun z =>
        if x = 0 ∧ y = 0 ∧ z = 0 then [] else [(x, y, z)])))

/-- Every selected node is a node of the map. -/
def Map.selectionValid (map : Map) : Prop := ∀ s ∈ map.selection, s < map.nodes.length

instance (map : Map) : Decidable map.selectionValid := by
  unfold Map.selectionValid
  infer_instance

/-- Whether every selected node is a brush node whose transform by each of the
translations of a linear array of `count` copies succeeds. -/
def linearBrushesSucceed (map : Map) (count : Nat) (offset : Vec3) : Bool :=
  map.selection.all (fun s =>
    match map.nodes[s]? with
    | some n =>
      match n.contents with
      | NodeContents.Brush brush =>
        (List.range count).all (fun k =>
          (transformBrush map.worldBounds
            (translation_matrix (Vec3.smul ((k + 1 : Nat) : ℚ) offset)) brush).is_success)
      | _ => false
    | none => false)

-- Inputs of the tests and of the scenarios.

/-- The world bounds of the tests, `vm::bbox3d{4096.0}`. -/
def worldBounds4096 : BBox := ⟨⟨-4096, -4096, -4096⟩, ⟨4096, 4096, 4096⟩⟩

/-- The box of the bevel test, [-32, 32]^3. -/
def cube64Bounds : BBox := ⟨⟨-32, -32, -32⟩, ⟨32, 32, 32⟩⟩

/-- The cube of the bevel test, as createCuboid builds it. -/
def cube64 : Brush :=
  { vertices :=
      [⟨-32, -32, -32⟩, ⟨-32, -32, 32⟩, ⟨-32, 32, -32⟩, ⟨-32, 32, 32⟩,
       ⟨32, -32, -32⟩, ⟨32, -32, 32⟩, ⟨32, 32, -32⟩, ⟨32, 32, 32⟩]
    edges :=
      [(0, 1), (2, 3), (4, 5), (6, 7), (0, 2), (1, 3), (4, 6), (5, 7),
       (0, 4), (1, 5), (2, 6), (3, 7)]
    faces :=
      [⟨[0, 1, 3, 2], ⟨-1, 0, 0⟩, some "material"⟩,
       ⟨[4, 6, 7, 5], ⟨1, 0, 0⟩, some "material"⟩,
       ⟨[0, 4, 5, 1], ⟨0, -1, 0⟩, some "material"⟩,
       ⟨[2, 3, 7, 6], ⟨0, 1, 0⟩, some "material"⟩,
       ⟨[0, 2, 6, 4], ⟨0, 0, -1⟩, some "material"⟩,
       ⟨[1, 5, 7, 3], ⟨0, 0, 1⟩, some "material"⟩] }

/-- The edge of the bevel test, from (32, 32, -32) to (32, 32, 32). -/
def bevelTarget : Segment := ⟨⟨32, 32, -32⟩, ⟨32, 32, 32⟩⟩

/-- A square pyramid with base [-24, 24]^2 at z = 0 and apex (0, 0, 32); the apex lies
on four edges. -/
def pyramid : Brush :=
  { vertices := [⟨-24, -24, 0⟩, ⟨24, -24, 0⟩, ⟨24, 24, 0⟩, ⟨-24, 24, 0⟩, ⟨0, 0, 32⟩]
    edges := [(0, 1), (1, 2), (2, 3), (3, 0), (0, 4), (1, 4), (2, 4), (3, 4)]
    faces :=
      [⟨[0, 3, 2, 1], ⟨0, 0, -1⟩, some "material"⟩,
       ⟨[0, 1, 4], ⟨0, -4 / 5, 3 / 5⟩, some "material"⟩,
       ⟨[1, 2, 4], ⟨4 / 5, 0, 3 / 5⟩, some "material"⟩,
       ⟨[2, 3, 4], ⟨0, 4 / 5, 3 / 5⟩, some "material"⟩,
       ⟨[3, 0, 4], ⟨-4 / 5, 0, 3 / 5⟩, some "material"⟩] }

/-- The edge of the pyramid from the base corner (24, 24, 0) to the apex. -/
def apexEdge : Segment := ⟨⟨24, 24, 0⟩, ⟨0, 0, 32⟩⟩

/-- A tetrahedron with base (0, 0, 0), (6, 0, 0), (0, 6, 0) and apex (0, 0, 12), cut off
at z = 6. -/
def truncatedTetrahedron : Brush :=
  { vertices := [⟨0, 0, 0⟩, ⟨6, 0, 0⟩, ⟨0, 6, 0⟩, ⟨0, 0, 6⟩, ⟨3, 0, 6⟩, ⟨0, 3, 6⟩]
    edges := [(0, 1), (1, 2), (2, 0), (3, 4), (4, 5), (5, 3), (0, 3), (1, 4), (2, 5)]
    faces :=
      [⟨[0, 2, 1], ⟨0, 0, -1⟩, some "material"⟩,
       ⟨[3, 4, 5], ⟨0, 0, 1⟩, some "material"⟩,
       ⟨[0, 1, 4, 3], ⟨0, -1, 0⟩, some "material"⟩,
       ⟨[0, 3, 5, 2], ⟨-1, 0, 0⟩, some "material"⟩,
       ⟨[1, 2, 5, 4], ⟨2 / 3, 2 / 3, 1 / 3⟩, some "material"⟩] }

-- Conditions used in the statements.

/-- The plane cuts off exactly the edge between the vertices `a` and `b`: the two are
strictly outside and every other vertex is strictly inside. -/
def cutsOffEdge (cls : List Side) (vertexCount a b : Nat) : Prop :=
  a ≠ b ∧ a < vertexCount ∧ b < vertexCount ∧ cls.length = vertexCount ∧
    ∀ i, i < vertexCount → sideOf cls i = if i = a ∨ i = b then Side.above else Side.below

/-- The graph is well formed: edges join two different vertices, and the loop of
every face has three or more vertices, none twice. -/
def Polyhedron.wellFormed (p : Polyhedron) : Prop :=
  (∀ e ∈ p.edges, e.1 < p.vertexCount ∧ e.2 < p.vertexCount ∧ e.1 ≠ e.2) ∧
    ∀ f ∈ p.faces, 3 ≤ f.loop.length ∧ f.loop.Nodup ∧ ∀ i ∈ f.loop, i < p.vertexCount

instance (cls : List Side) (vertexCount a b : Nat) :
    Decidable (cutsOffEdge cls vertexCount a b) := by
  unfold cutsOffEdge
  infer_instance

instance (p : Polyhedron) : Decidable p.wellFormed := by
  unfold Polyhedron.wellFormed
  infer_instance

/-- Number of edges at the vertex `a`. -/
def Polyhedron.degree (p : Polyhedron) (a : Nat) : Nat :=
  p.edges.countP (fun e => e.1 == a || e.2 == a)

/-- Number of edges that join `a` and `b`. -/
def Polyhedron.edgesBetween (p : Polyhedron) (a b : Nat) : Nat :=
  p.edges.countP (fun e => (e.1 == a || e.2 == a) && (e.1 == b || e.2 == b))

/-- Number of faces at the vertex `a`. -/
def Polyhedron.facesAt (p : Polyhedron) (a : Nat) : Nat :=
  p.faces.countP (fun f => f.loop.contains a)

/-- Number of faces at both `a` and `b`. -/
def Polyhedron.facesAtBoth (p : Polyhedron) (a b : Nat) : Nat :=
  p.faces.countP (fun f => f.loop.contains a && f.loop.contains b)

/-- The box `b` lies inside the box `B`. -/
def BBox.within (B b : BBox) : Prop :=
  B.min.x ≤ b.min.x ∧ B.min.y ≤ b.min.y ∧ B.min.z ≤ b.min.z ∧
    b.max.x ≤ B.max.x ∧ b.max.y ≤ B.max.y ∧ b.max.z ≤ B.max.z

/-- An edge of the cube next to `bevelTarget`: from (32, -32, 32) to (32, 32, 32). -/
def neighbourEdge : Segment := ⟨⟨32, -32, 32⟩, ⟨32, 32, 32⟩⟩

/-- An edge tool at the start of a bevel drag on the cube (node 0). -/
def cubeDrag : EdgeTool := ⟨⟨0, 0, 0⟩, [(0, cube64)]⟩

/-- The inner loop of EdgeTool::move as the specification words it: the handle is
matched with tolerance 0.1 against the current state of the brush. -/
def bevelHandleOnCurrent (sqrt : ℚ → ℚ) (distance : ℚ) (brush : Brush) (edgeHandle : Segment) :
    Brush :=
  if hasEdge brush edgeHandle (1 / 10) then bevelOnCopy sqrt distance brush edgeHandle
  else brush

/-- Two square faces of side 16 that face each other along the y axis, 64 apart. -/
def bridgeFaceNear : BridgeFace :=
  ⟨⟨0, 0, 0⟩, ⟨0, 1, 0⟩, [⟨-8, 0, -8⟩, ⟨8, 0, -8⟩, ⟨8, 0, 8⟩, ⟨-8, 0, 8⟩]⟩

def bridgeFaceFar : BridgeFace :=
  ⟨⟨0, 64, 0⟩, ⟨0, -1, 0⟩, [⟨-8, 64, -8⟩, ⟨8, 64, -8⟩, ⟨8, 64, 8⟩, ⟨-8, 64, 8⟩]⟩

/-- The bridge tool with its default settings: one segment, straight, no taper. -/
def defaultBridgeTool : BridgeTool := ⟨1, false, 0, false, 0⟩

/-- A node whose bounds are the cube of side `2 * h` centred at `(cx, 0, 0)`. -/
def boxNode (kind : NodeKind) (cx h : ℚ) : Node :=
  ⟨kind, ⟨⟨cx - h, -h, -h⟩, ⟨cx + h, h, h⟩⟩⟩


/-- Three selected nodes of different kinds along the x axis. -/
def mixedSelection : List Node :=
  [boxNode NodeKind.Brush 0 8, boxNode NodeKind.Entity 50 4, boxNode NodeKind.Group 100 2]

-- Inputs of the examples for the stacking and the array tool.

/-- The node transformed by a matrix: the positions of a brush, a patch or an entity
mapped by the matrix, and for a group the matrix put before its transformation; the
parent is kept. -/
def MapNode.transformed (m : Mat4) (n : MapNode) : MapNode :=
  match n.contents with
  | NodeContents.Brush brush => ⟨n.parent, NodeContents.Brush (brush.map m.apply)⟩
  | NodeContents.Entity entity => ⟨n.parent, NodeContents.Entity (m.apply entity)⟩
  | NodeContents.Patch patch => ⟨n.parent, NodeContents.Patch (patch.map m.apply)⟩
  | NodeContents.Group group => ⟨n.parent, NodeContents.Group (m.mul group)⟩
  | NodeContents.World => n
  | NodeContents.Layer => n

/-- The identity matrix. -/
def Mat4.identity : Mat4 := ⟨⟨1, 0, 0, 0⟩, ⟨0, 1, 0, 0⟩, ⟨0, 0, 1, 0⟩, ⟨0, 0, 0, 1⟩⟩

/-- The matrix of the rotation about a unit axis by an angle (Rodrigues' formula), with
the sine and the cosine as parameters: a value for the parameter `rotation_matrix` in
the examples. -/
def rotationAbout (sin cos : ℚ → ℚ) (axis : Vec3) (angle : ℚ) : Mat4 :=
  let s := sin angle
  let c := cos angle
  let i := 1 - c
  ⟨⟨i * axis.x * axis.x + c, i * axis.x * axis.y - s * axis.z, i * axis.x * axis.z + s * axis.y, 0⟩,
   ⟨i * axis.x * axis.y + s * axis.z, i * axis.y * axis.y + c, i * axis.y * axis.z - s * axis.x, 0⟩,
   ⟨i * axis.x * axis.z - s * axis.y, i * axis.y * axis.z + s * axis.x, i * axis.z * axis.z + c, 0⟩,
   ⟨0, 0, 0, 1⟩⟩

/-- The sine as the sum of the first eight terms of its series. -/
def sinApprox (x : ℚ) : ℚ :=
  ((List.range 8).map (fun k =>
    (-1 : ℚ) ^ k * x ^ (2 * k + 1) / ((2 * k + 1).factorial : ℚ))).sum

/-- The cosine as the sum of the first eight terms of its series. -/
def cosApprox (x : ℚ) : ℚ :=
  ((List.range 8).map (fun k => (-1 : ℚ) ^ k * x ^ (2 * k) / ((2 * k).factorial : ℚ))).sum

/-- The constant pi to fifteen decimals. -/
def piApprox : ℚ := 3141592653589793 / 1000000000000000

/-- A `groupSelectedNodes` that leaves the map as it is, for the examples, which do not
group the result. -/
def noGrouping (map : Map) (_name : String) : Map := map

/-- A map with a world node, a layer and two brushes in the layer, the cube
[-32, 32]^3 and the same cube 128 further along x, both selected. -/
def twoBrushMap : Map :=
  { worldBounds := worldBounds4096
    nodes :=
      [⟨none, NodeContents.World⟩, ⟨some 0, NodeContents.Layer⟩,
       ⟨some 1, NodeContents.Brush cube64.vertices⟩,
       ⟨some 1, NodeContents.Brush (cube64.vertices.map (fun v => Vec3.add v ⟨128, 0, 0⟩))⟩]
    selection := [2, 3] }

/-- A map with a world node, a layer, a group in the layer and one brush in the group,
the cube [-32, 32]^3; the group is selected. -/
def groupMap : Map :=
  { worldBounds := worldBounds4096
    nodes :=
      [⟨none, NodeContents.World⟩, ⟨some 0, NodeContents.Layer⟩,
       ⟨some 1, NodeContents.Group Mat4.identity⟩,
       ⟨some 2, NodeContents.Brush cube64.vertices⟩]
    selection := [2] }


theorem BBox.contains_iff (B : BBox) (p : Vec3) :
    B.contains p = true ↔
      B.min.x ≤ p.x ∧ p.x ≤ B.max.x ∧ B.min.y ≤ p.y ∧ p.y ≤ B.max.y ∧
        B.min.z ≤ p.z ∧ p.z ≤ B.max.z := by
  simp [BBox.contains]

theorem foldl_merge_within (B : BBox) (ps : List Vec3) :
    ∀ b : BBox, (∀ p ∈ ps, B.contains p = true) → B.within b →
      B.within (ps.foldl BBox.extend b) := by
  induction ps with
  | nil => intro b _ hb; exact hb
  | cons q qs ih =>
    intro b hps hb
    apply ih
    · intro p hp; exact hps p (List.mem_cons_of_mem _ hp)
    · have hq := (BBox.contains_iff B q).mp (hps q (List.mem_cons_self _ _))
      obtain ⟨h1, h2, h3, h4, h5, h6⟩ := hb
      obtain ⟨q1, q2, q3, q4, q5, q6⟩ := hq
      exact ⟨le_min h1 q1, le_min h2 q3, le_min h3 q5, max_le h4 q2, max_le h5 q4, max_le h6 q6⟩

theorem foldl_merge_grows (ps : List Vec3) :
    ∀ b : BBox,
      BBox.within (ps.foldl BBox.extend b) b := by
  induction ps with
  | nil => intro b; exact ⟨le_refl _, le_refl _, le_refl _, le_refl _, le_refl _, le_refl _⟩
  | cons q qs ih =>
    intro b
    obtain ⟨h1, h2, h3, h4, h5, h6⟩ := ih (b.extend q)
    exact ⟨h1.trans (min_le_left _ _), h2.trans (min_le_left _ _), h3.trans (min_le_left _ _),
      (le_max_left _ _).trans h4, (le_max_left _ _).trans h5, (le_max_left _ _).trans h6⟩

theorem foldl_merge_covers (ps : List Vec3) :
    ∀ (b : BBox) (p : Vec3), p ∈ ps →
      (ps.foldl BBox.extend b).contains p = true := by
  induction ps with
  | nil => intro b p hp; cases hp
  | cons q qs ih =>
    intro b p hp
    rcases List.mem_cons.mp hp with rfl | hp
    · obtain ⟨h1, h2, h3, h4, h5, h6⟩ :=
        foldl_merge_grows qs (b.extend p)
      rw [BBox.contains_iff]
      exact ⟨h1.trans (min_le_right _ _), (le_max_right _ _).trans h4,
        h2.trans (min_le_right _ _), (le_max_right _ _).trans h5,
        h3.trans (min_le_right _ _), (le_max_right _ _).trans h6⟩
    · exact ih _ p hp

/-- The bounds of a point list are `B` when every point lies in `B` and each of the six
sides of `B` is touched by a point. -/
theorem mergeAll_eq (B : BBox) (ps : List Vec3) (hall : ∀ p ∈ ps, B.contains p = true)
    (hx : ∃ p ∈ ps, p.x = B.min.x) (hy : ∃ p ∈ ps, p.y = B.min.y)
    (hz : ∃ p ∈ ps, p.z = B.min.z) (hX : ∃ p ∈ ps, p.x = B.max.x)
    (hY : ∃ p ∈ ps, p.y = B.max.y) (hZ : ∃ p ∈ ps, p.z = B.max.z) :
    BBox.mergeAll ps = some B := by
  cases ps with
  | nil => obtain ⟨p, hp, _⟩ := hx; cases hp
  | cons p0 ps =>
    have hcov : ∀ p ∈ p0 :: ps,
        (ps.foldl BBox.extend ⟨p0, p0⟩).contains p
          = true := by
      intro p hp
      rcases List.mem_cons.mp hp with rfl | hp
      · obtain ⟨h1, h2, h3, h4, h5, h6⟩ := foldl_merge_grows ps ⟨p, p⟩
        rw [BBox.contains_iff]
        exact ⟨h1, h4, h2, h5, h3, h6⟩
      · exact foldl_merge_covers ps _ p hp
    have h0 := (BBox.contains_iff B p0).mp (hall p0 (List.mem_cons_self _ _))
    obtain ⟨w1, w2, w3, w4, w5, w6⟩ := foldl_merge_within B ps ⟨p0, p0⟩
      (fun p hp => hall p (List.mem_cons_of_mem _ hp))
      ⟨h0.1, h0.2.2.1, h0.2.2.2.2.1, h0.2.1, h0.2.2.2.1, h0.2.2.2.2.2⟩
    obtain ⟨px, hpx, ex⟩ := hx
    obtain ⟨py, hpy, ey⟩ := hy
    obtain ⟨pz, hpz, ez⟩ := hz
    obtain ⟨pX, hpX, eX⟩ := hX
    obtain ⟨pY, hpY, eY⟩ := hY
    obtain ⟨pZ, hpZ, eZ⟩ := hZ
    have cx := (BBox.contains_iff _ _).mp (hcov px hpx)
    have cy := (BBox.contains_iff _ _).mp (hcov py hpy)
    have cz := (BBox.contains_iff _ _).mp (hcov pz hpz)
    have cX := (BBox.contains_iff _ _).mp (hcov pX hpX)
    have cY := (BBox.contains_iff _ _).mp (hcov pY hpY)
    have cZ := (BBox.contains_iff _ _).mp (hcov pZ hpZ)
    simp only [BBox.mergeAll, Option.some.injEq]
    generalize ps.foldl BBox.extend ⟨p0, p0⟩ = r
      at w1 w2 w3 w4 w5 w6 cx cy cz cX cY cZ
    obtain ⟨⟨r1, r2, r3⟩, ⟨r4, r5, r6⟩⟩ := r
    obtain ⟨⟨B1, B2, B3⟩, ⟨B4, B5, B6⟩⟩ := B
    simp only at *
    simp only [BBox.mk.injEq, Vec3.mk.injEq]
    refine ⟨⟨?_, ?_, ?_⟩, ⟨?_, ?_, ?_⟩⟩ <;> apply le_antisymm <;> linarith

/-- The crossing point of an edge that crosses the plane lies in every box that holds
both ends of the edge. -/
theorem intersect_contained (pl : Plane) (B : BBox) (u v : Vec3) (hu : B.contains u = true)
    (hv : B.contains v = true) (du : pl.pointDistance u < 0) (dv : 0 < pl.pointDistance v) :
    B.contains (pl.intersect u v) = true := by
  rw [BBox.contains_iff] at hu hv ⊢
  have hden : pl.pointDistance u - pl.pointDistance v < 0 := by linarith
  have ht0 : 0 ≤ pl.pointDistance u / (pl.pointDistance u - pl.pointDistance v) :=
    div_nonneg_of_nonpos du.le hden.le
  have ht1 : pl.pointDistance u / (pl.pointDistance u - pl.pointDistance v) ≤ 1 := by
    rw [div_le_one_of_neg hden]; linarith
  obtain ⟨u1, u2, u3, u4, u5, u6⟩ := hu
  obtain ⟨v1, v2, v3, v4, v5, v6⟩ := hv
  simp only [Plane.intersect, Vec3.add, Vec3.smul, Vec3.sub]
  generalize pl.pointDistance u / (pl.pointDistance u - pl.pointDistance v) = t at ht0 ht1 ⊢
  have hs0 : 0 ≤ 1 - t := by linarith
  refine ⟨?_, ?_, ?_, ?_, ?_, ?_⟩
  · nlinarith [mul_nonneg ht0 (sub_nonneg.2 v1), mul_nonneg hs0 (sub_nonneg.2 u1)]
  · nlinarith [mul_nonneg ht0 (sub_nonneg.2 v2), mul_nonneg hs0 (sub_nonneg.2 u2)]
  · nlinarith [mul_nonneg ht0 (sub_nonneg.2 v3), mul_nonneg hs0 (sub_nonneg.2 u3)]
  · nlinarith [mul_nonneg ht0 (sub_nonneg.2 v4), mul_nonneg hs0 (sub_nonneg.2 u4)]
  · nlinarith [mul_nonneg ht0 (sub_nonneg.2 v5), mul_nonneg hs0 (sub_nonneg.2 u5)]
  · nlinarith [mul_nonneg ht0 (sub_nonneg.2 v6), mul_nonneg hs0 (sub_nonneg.2 u6)]

theorem countP_or_add_and {α : Type} (p q : α → Bool) (l : List α) :
    l.countP (fun x => p x || q x) + l.countP (fun x => p x && q x) =
      l.countP p + l.countP q := by
  induction l with
  | nil => rfl
  | cons x xs ih =>
    simp only [List.countP_cons]
    cases hp : p x <;> cases hq : q x <;> simp <;> omega

theorem countP_not {α : Type} (p : α → Bool) (l : List α) :
    l.countP (fun x => !p x) = l.length - l.countP p := by
  have := List.length_eq_countP_add_countP p l
  have h2 : l.countP (fun a => decide (¬p a = true)) = l.countP (fun x => !p x) := by
    apply List.countP_congr
    intro x _
    cases p x <;> simp
  omega

theorem two_le_countP {α : Type} (p : α → Bool) (l : List α) (x y : α) (hx : x ∈ l)
    (hy : y ∈ l) (hxy : x ≠ y) (px : p x = true) (py : p y = true) : 2 ≤ l.countP p := by
  induction l with
  | nil => cases hx
  | cons z zs ih =>
    rw [List.countP_cons]
    rcases List.mem_cons.mp hx with hx' | hx' <;> rcases List.mem_cons.mp hy with hy' | hy'
    · exact absurd (hx'.trans hy'.symm) hxy
    · have : 0 < zs.countP p := List.countP_pos_iff.mpr ⟨y, hy', py⟩
      rw [← hx', px]; simp only [if_true]; omega
    · have : 0 < zs.countP p := List.countP_pos_iff.mpr ⟨x, hx', px⟩
      rw [← hy', py]; simp only [if_true]; omega
    · have := ih hx' hy'
      omega

theorem loopPairs_map_fst (l : List Nat) : (loopPairs l).map Prod.fst = l := by
  unfold loopPairs
  exact List.map_fst_zip _ _ (by simp [List.length_rotate])

theorem loopPairs_length (l : List Nat) : (loopPairs l).length = l.length := by
  simp [loopPairs, List.length_rotate]

theorem loopPairs_getElem (l : List Nat) (i : Nat) (h : i < l.length) :
    (loopPairs l)[i]? = some (l.getD i 0, l.getD ((i + 1) % l.length) 0) := by
  have h1 : i < (loopPairs l).length := by rw [loopPairs_length]; exact h
  have h2 : (i + 1) % l.length < l.length := Nat.mod_lt _ (by omega)
  rw [List.getElem?_eq_getElem h1, List.getD_eq_getElem l 0 h, List.getD_eq_getElem l 0 h2]
  simp only [loopPairs, List.getElem_zip, List.getElem_rotate]

theorem mem_loopPairs (l : List Nat) (e : Nat × Nat) (he : e ∈ loopPairs l) :
    ∃ i : Nat, i < l.length ∧ e = (l.getD i 0, l.getD ((i + 1) % l.length) 0) := by
  obtain ⟨i, hi⟩ := List.mem_iff_getElem?.mp he
  have h1 : i < l.length := by
    have := (List.getElem?_eq_some.mp hi).1
    rwa [loopPairs_length] at this
  refine ⟨i, h1, ?_⟩
  rw [loopPairs_getElem l i h1] at hi
  exact (Option.some.inj hi).symm

theorem getD_mem (l : List Nat) (i : Nat) (h : i < l.length) : l.getD i 0 ∈ l := by
  rw [List.getD_eq_getElem l 0 h]
  exact List.getElem_mem _

theorem mem_loopPairs_fst (l : List Nat) (e : Nat × Nat) (he : e ∈ loopPairs l) :
    e.1 ∈ l ∧ e.2 ∈ l := by
  obtain ⟨i, h, rfl⟩ := mem_loopPairs l e he
  exact ⟨getD_mem l i h, getD_mem l _ (Nat.mod_lt _ (by omega))⟩

theorem getD_inj (l : List Nat) (hl : l.Nodup) (i j : Nat) (hi : i < l.length)
    (hj : j < l.length) (h : l.getD i 0 = l.getD j 0) : i = j := by
  rw [List.getD_eq_getElem l 0 hi, List.getD_eq_getElem l 0 hj] at h
  exact hl.getElem_inj_iff.mp h

/-- A loop that holds a vertex with `q` and a vertex without it steps from one with
`q` to one without. -/
theorem loop_exit (q : Nat → Bool) (l : List Nat) (x y : Nat) (hx : x ∈ l) (hy : y ∈ l)
    (qx : q x = true) (qy : q y = false) :
    ∃ e ∈ loopPairs l, q e.1 = true ∧ q e.2 = false := by
  by_contra hno
  push_neg at hno
  obtain ⟨i, hi, hxi⟩ := List.mem_iff_getElem.mp hx
  obtain ⟨j, hj, hyj⟩ := List.mem_iff_getElem.mp hy
  rw [← List.getD_eq_getElem l 0 hi] at hxi
  rw [← List.getD_eq_getElem l 0 hj] at hyj
  have hn : 0 < l.length := by omega
  have step : ∀ k, q (l.getD ((i + k) % l.length) 0) = true := by
    intro k
    induction k with
    | zero =>
      rw [Nat.add_zero, Nat.mod_eq_of_lt hi, hxi]
      exact qx
    | succ k ih =>
      have hk : (i + k) % l.length < l.length := Nat.mod_lt _ hn
      have hmem : (l.getD ((i + k) % l.length) 0,
          l.getD (((i + k) % l.length + 1) % l.length) 0) ∈ loopPairs l := by
        apply List.mem_iff_getElem?.mpr
        exact ⟨_, loopPairs_getElem l _ hk⟩
      have := hno _ hmem ih
      simp only [Bool.not_eq_false] at this
      have e : ((i + k) % l.length + 1) % l.length = (i + (k + 1)) % l.length := by
        rw [Nat.add_mod, Nat.mod_mod, ← Nat.add_mod, Nat.add_assoc]
      rw [e] at this
      exact this
  have := step (j + l.length - i)
  have e : (i + (j + l.length - i)) % l.length = j := by
    have : i + (j + l.length - i) = j + l.length := by omega
    rw [this, Nat.add_mod_right, Nat.mod_eq_of_lt hj]
  rw [e, hyj, qy] at this
  cases this

/-- A duplicate-free loop of three or more vertices has no pair in both directions. -/
theorem loop_no_back (l : List Nat) (hl : l.Nodup) (h3 : 3 ≤ l.length) (u v : Nat)
    (h1 : (u, v) ∈ loopPairs l) (h2 : (v, u) ∈ loopPairs l) : False := by
  obtain ⟨i, hi, e1⟩ := mem_loopPairs l _ h1
  obtain ⟨j, hj, e2⟩ := mem_loopPairs l _ h2
  simp only [Prod.mk.injEq] at e1 e2
  have hn : 0 < l.length := by omega
  have a1 : (i + 1) % l.length = j :=
    getD_inj l hl _ _ (Nat.mod_lt _ hn) hj (e1.2.symm.trans e2.1)
  have a2 : (j + 1) % l.length = i :=
    getD_inj l hl _ _ (Nat.mod_lt _ hn) hi (e2.2.symm.trans e1.1)
  rcases Nat.lt_or_ge (i + 1) l.length with c1 | c1
  · rw [Nat.mod_eq_of_lt c1] at a1
    rcases Nat.lt_or_ge (j + 1) l.length with c2 | c2
    · rw [Nat.mod_eq_of_lt c2] at a2; omega
    · have : j + 1 = l.length := by omega
      rw [this, Nat.mod_self] at a2; omega
  · have : i + 1 = l.length := by omega
    rw [this, Nat.mod_self] at a1
    rcases Nat.lt_or_ge (j + 1) l.length with c2 | c2
    · rw [Nat.mod_eq_of_lt c2] at a2; omega
    · omega

theorem kept_of_cutsOff (cls : List Side) (V a b : Nat) (h : cutsOffEdge cls V a b) (i : Nat)
    (hi : i < V) : kept cls i = !(i == a || i == b) := by
  obtain ⟨_, _, _, _, hc⟩ := h
  unfold kept
  rw [hc i hi]
  by_cases ha : i = a <;> by_cases hb : i = b <;> simp [ha, hb]

theorem cutOf_of_cutsOff (cls : List Side) (V a b : Nat) (h : cutsOffEdge cls V a b)
    (e : Nat × Nat) (h1 : e.1 < V) (h2 : e.2 < V) :
    (cutOf cls e).isSome = (kept cls e.1 != kept cls e.2) := by
  rw [kept_of_cutsOff cls V a b h e.1 h1, kept_of_cutsOff cls V a b h e.2 h2]
  obtain ⟨_, _, _, _, hc⟩ := h
  unfold cutOf
  rw [hc e.1 h1, hc e.2 h2]
  have k1 : (e.1 = a ∨ e.1 = b) ↔ (e.1 == a || e.1 == b) = true := by simp
  have k2 : (e.2 = a ∨ e.2 = b) ↔ (e.2 == a || e.2 == b) = true := by simp
  simp only [k1, k2]
  cases (e.1 == a || e.1 == b) <;> cases (e.2 == a || e.2 == b) <;> simp

theorem keptCount_of_cutsOff (cls : List Side) (V a b : Nat) (h : cutsOffEdge cls V a b) :
    ((List.range cls.length).filter (kept cls)).length + 2 = V := by
  have hk := kept_of_cutsOff cls V a b h
  obtain ⟨hab, ha, hb, hlen, _⟩ := h
  rw [hlen, ← List.countP_eq_length_filter]
  have e1 : (List.range V).countP (kept cls) =
      (List.range V).countP (fun i => !(i == a || i == b)) :=
    List.countP_congr (fun i hi => by rw [hk i (List.mem_range.mp hi)])
  rw [e1, countP_not]
  have e2 := countP_or_add_and (fun i => i == a) (fun i => i == b) (List.range V)
  have e3 : (List.range V).countP (fun i => (i == a) && (i == b)) = 0 := by
    rw [List.countP_eq_zero]
    intro i _
    simp only [Bool.and_eq_true, beq_iff_eq, not_and]
    intro h1 h2
    exact hab (h1.symm.trans h2)
  have ca : (List.range V).countP (fun i => i == a) = 1 :=
    List.count_eq_one_of_mem (List.nodup_range V) (List.mem_range.mpr ha)
  have cb : (List.range V).countP (fun i => i == b) = 1 :=
    List.count_eq_one_of_mem (List.nodup_range V) (List.mem_range.mpr hb)
  have hl : (List.range V).length = V := List.length_range V
  omega

theorem countP_crossing (a b : Nat) (hab : a ≠ b) (l : List (Nat × Nat))
    (hvalid : ∀ e ∈ l, e.1 ≠ e.2) :
    l.countP (fun e => (!(e.1 == a || e.1 == b)) != (!(e.2 == a || e.2 == b))) +
        2 * l.countP (fun e => (e.1 == a || e.2 == a) && (e.1 == b || e.2 == b)) =
      l.countP (fun e => e.1 == a || e.2 == a) + l.countP (fun e => e.1 == b || e.2 == b) := by
  induction l with
  | nil => rfl
  | cons e es ih =>
    have ih' := ih (fun e he => hvalid e (List.mem_cons_of_mem _ he))
    have hne := hvalid e (List.mem_cons_self _ _)
    simp only [List.countP_cons]
    simp only [Bool.not_or] at ih' ⊢
    cases h1 : (e.1 == a) <;> cases h2 : (e.1 == b) <;> cases h3 : (e.2 == a) <;>
      cases h4 : (e.2 == b) <;>
      first
      | (exfalso; simp at h1 h2 h3 h4; omega)
      | (simp; omega)

theorem countP_both_kept (a b : Nat) (l : List (Nat × Nat)) :
    l.countP (fun e => (!(e.1 == a || e.1 == b)) && (!(e.2 == a || e.2 == b))) =
      l.length - l.countP (fun e => (e.1 == a || e.2 == a) || (e.1 == b || e.2 == b)) := by
  rw [← countP_not]
  apply List.countP_congr
  intro e _
  cases e.1 == a <;> cases e.1 == b <;> cases e.2 == a <;> cases e.2 == b <;> simp

theorem edges_of_cutsOff (p : Polyhedron) (cls : List Side) (a b : Nat)
    (hwf : p.wellFormed) (h : cutsOffEdge cls p.vertexCount a b)
    (da : p.degree a = 3) (db : p.degree b = 3) (dab : p.edgesBetween a b = 1) :
    (cuts cls p.edges).length = 4 ∧
      (p.edges.filter (fun e => kept cls e.1 && kept cls e.2)).length + 5 = p.edgeCount := by
  have hk := kept_of_cutsOff cls p.vertexCount a b h
  have hcut := cutOf_of_cutsOff cls p.vertexCount a b h
  have hab := h.1
  have hv := hwf.1
  unfold Polyhedron.degree at da db
  unfold Polyhedron.edgesBetween at dab
  constructor
  · unfold cuts
    rw [List.length_filterMap_eq_countP]
    have e1 : p.edges.countP (fun e => (cutOf cls e).isSome) =
        p.edges.countP (fun e => (!(e.1 == a || e.1 == b)) != (!(e.2 == a || e.2 == b))) := by
      apply List.countP_congr
      intro e he
      obtain ⟨v1, v2, _⟩ := hv e he
      rw [hcut e v1 v2, hk e.1 v1, hk e.2 v2]
    rw [e1]
    have := countP_crossing a b hab p.edges (fun e he => (hv e he).2.2)
    omega
  · rw [← List.countP_eq_length_filter]
    have e1 : p.edges.countP (fun e => kept cls e.1 && kept cls e.2) =
        p.edges.countP (fun e => (!(e.1 == a || e.1 == b)) && (!(e.2 == a || e.2 == b))) := by
      apply List.countP_congr
      intro e he
      obtain ⟨v1, v2, _⟩ := hv e he
      rw [hk e.1 v1, hk e.2 v2]
    rw [e1, countP_both_kept]
    have := countP_or_add_and (fun e : Nat × Nat => e.1 == a || e.2 == a)
      (fun e => e.1 == b || e.2 == b) p.edges
    have hle : p.edges.countP (fun e => (e.1 == a || e.2 == a) || (e.1 == b || e.2 == b)) ≤
        p.edges.length := List.countP_le_length _
    unfold Polyhedron.edgeCount
    omega

theorem exists_third (l : List Nat) (hl : l.Nodup) (h3 : 3 ≤ l.length) (a b : Nat) :
    ∃ y ∈ l, y ≠ a ∧ y ≠ b := by
  match l, hl, h3 with
  | x1 :: x2 :: x3 :: rest, hl, _ =>
    simp only [List.nodup_cons, List.mem_cons, not_or] at hl
    obtain ⟨⟨h12, h13, _⟩, ⟨h23, _⟩, _⟩ := hl
    by_cases c1 : x1 ≠ a ∧ x1 ≠ b
    · exact ⟨x1, by simp, c1⟩
    · by_cases c2 : x2 ≠ a ∧ x2 ≠ b
      · exact ⟨x2, by simp, c2⟩
      · refine ⟨x3, by simp, ?_⟩
        constructor <;> (intro h; omega)

theorem side_below_of_kept (cls : List Side) (V a b : Nat) (h : cutsOffEdge cls V a b) (i : Nat)
    (hi : i < V) (hk : kept cls i = true) : sideOf cls i = Side.below := by
  have h1 := kept_of_cutsOff cls V a b h i hi
  rw [hk] at h1
  obtain ⟨_, _, _, _, hc⟩ := h
  rw [hc i hi, if_neg]
  intro hab
  have h2 : (i == a || i == b) = true := by simpa using hab
  rw [h2] at h1
  cases h1

theorem seamOf_of_cutsOff (cls : List Side) (V a b : Nat) (h : cutsOffEdge cls V a b)
    (l : List Nat) (h3 : 3 ≤ l.length) (hl : l.Nodup) (hr : ∀ i ∈ l, i < V) :
    (l.contains a || l.contains b) = false ∧ seamOf cls l = none ∨
    (l.contains a || l.contains b) = true ∧
      ∃ u v u' v', seamOf cls l = some (SeamPoint.cut u v, SeamPoint.cut u' v') := by
  have hk := kept_of_cutsOff cls V a b h
  cases hc : (l.contains a || l.contains b)
  · left
    refine ⟨rfl, ?_⟩
    have hall : ∀ i ∈ l, kept cls i = true := by
      intro i hi
      rw [hk i (hr i hi)]
      simp only [Bool.or_eq_false_iff, List.contains_eq_any_beq, List.any_eq_false, beq_iff_eq]
        at hc
      have h1 : ¬ i = a := fun e => hc.1 i hi e.symm
      have h2 : ¬ i = b := fun e => hc.2 i hi e.symm
      simp [h1, h2]
    have hnone : (loopPairs l).find? (fun e => kept cls e.1 && !kept cls e.2) = none := by
      rw [List.find?_eq_none]
      intro e he
      have := hall e.2 (mem_loopPairs_fst l e he).2
      simp [this]
    unfold seamOf
    rw [hnone]
  · right
    refine ⟨rfl, ?_⟩
    obtain ⟨y, hy, hya, hyb⟩ := exists_third l hl h3 a b
    have ky : kept cls y = true := by
      rw [hk y (hr y hy)]; simp [hya, hyb]
    obtain ⟨x, hx, kx⟩ : ∃ x ∈ l, kept cls x = false := by
      simp only [Bool.or_eq_true, List.contains_iff_exists_mem_beq, beq_iff_eq] at hc
      rcases hc with ⟨x, hx, e⟩ | ⟨x, hx, e⟩
      · refine ⟨x, hx, ?_⟩
        rw [hk x (hr x hx)]; simp [e]
      · refine ⟨x, hx, ?_⟩
        rw [hk x (hr x hx)]; simp [e]
    obtain ⟨ex, hex, ex1, ex2⟩ := loop_exit (kept cls) l y x hy hx ky kx
    obtain ⟨en, hen, en1, en2⟩ := loop_exit (fun i => !kept cls i) l x y hx hy
      (by simp [kx]) (by simp [ky])
    simp only [Bool.not_eq_true', Bool.not_eq_false'] at en1 en2
    have hsome1 : ((loopPairs l).find? (fun e => kept cls e.1 && !kept cls e.2)).isSome := by
      rw [List.find?_isSome]
      exact ⟨ex, hex, by simp [ex1, ex2]⟩
    have hsome2 : ((loopPairs l).find? (fun e => !kept cls e.1 && kept cls e.2)).isSome := by
      rw [List.find?_isSome]
      exact ⟨en, hen, by simp [en1, en2]⟩
    obtain ⟨fx, hfx⟩ := Option.isSome_iff_exists.mp hsome1
    obtain ⟨fn, hfn⟩ := Option.isSome_iff_exists.mp hsome2
    have px := List.find?_some hfx
    have pn := List.find?_some hfn
    have mx := List.mem_of_find?_eq_some hfx
    have mn := List.mem_of_find?_eq_some hfn
    simp only [Bool.and_eq_true, Bool.not_eq_true'] at px pn
    have sx : sideOf cls fx.1 = Side.below :=
      side_below_of_kept cls V a b h fx.1 (hr _ (mem_loopPairs_fst l fx mx).1) px.1
    have sn : sideOf cls fn.2 = Side.below :=
      side_below_of_kept cls V a b h fn.2 (hr _ (mem_loopPairs_fst l fn mn).2) pn.2
    refine ⟨fx.1, fx.2, fn.2, fn.1, ?_⟩
    unfold seamOf
    rw [hfx, hfn]
    simp only [sx, sn, if_true]
    rw [if_neg]
    intro heq
    simp only [SeamPoint.cut.injEq] at heq
    have m1 : (fx.1, fx.2) ∈ loopPairs l := mx
    have m2 : (fx.2, fx.1) ∈ loopPairs l := by
      have : fn = (fx.2, fx.1) := Prod.ext heq.2.symm heq.1.symm
      rw [← this]; exact mn
    exact loop_no_back l hl h3 fx.1 fx.2 m1 m2

theorem clipLoop_length (cls : List Side) (l : List Nat) :
    (clipLoop cls l).length =
      l.countP (kept cls) + (loopPairs l).countP (fun e => (cutOf cls e).isSome) := by
  have gen : ∀ ps : List (Nat × Nat),
      (ps.flatMap (clipStep cls)).length =
      ps.countP (fun e => kept cls e.1) + ps.countP (fun e => (cutOf cls e).isSome) := by
    intro ps
    induction ps with
    | nil => rfl
    | cons e es ih =>
      simp only [List.flatMap_cons, List.length_append, ih, List.countP_cons, clipStep]
      cases kept cls e.1 <;> cases cutOf cls e <;> simp <;> omega
  unfold clipLoop
  rw [gen]
  congr 1
  have := List.countP_map (kept cls) Prod.fst (loopPairs l)
  rw [loopPairs_map_fst] at this
  rw [this]
  rfl

theorem clipLoop_survives (cls : List Side) (V a b : Nat) (h : cutsOffEdge cls V a b)
    (l : List Nat) (h3 : 3 ≤ l.length) (hl : l.Nodup) (hr : ∀ i ∈ l, i < V) :
    3 ≤ (clipLoop cls l).length := by
  have hk := kept_of_cutsOff cls V a b h
  rw [clipLoop_length]
  by_cases hall : ∀ i ∈ l, kept cls i = true
  · have : l.countP (kept cls) = l.length := List.countP_eq_length.mpr hall
    omega
  · push_neg at hall
    obtain ⟨x, hx, kx⟩ := hall
    simp only [Bool.not_eq_true] at kx
    obtain ⟨y, hy, hya, hyb⟩ := exists_third l hl h3 a b
    have ky : kept cls y = true := by
      rw [hk y (hr y hy)]; simp [hya, hyb]
    obtain ⟨ex, hex, ex1, ex2⟩ := loop_exit (kept cls) l y x hy hx ky kx
    obtain ⟨en, hen, en1, en2⟩ := loop_exit (fun i => !kept cls i) l x y hx hy
      (by simp [kx]) (by simp [ky])
    simp only [Bool.not_eq_true', Bool.not_eq_false'] at en1 en2
    have c1 : (cutOf cls ex).isSome = true := by
      rw [cutOf_of_cutsOff cls V a b h ex (hr _ (mem_loopPairs_fst l ex hex).1)
        (hr _ (mem_loopPairs_fst l ex hex).2), ex1, ex2]
      rfl
    have c2 : (cutOf cls en).isSome = true := by
      rw [cutOf_of_cutsOff cls V a b h en (hr _ (mem_loopPairs_fst l en hen).1)
        (hr _ (mem_loopPairs_fst l en hen).2), en1, en2]
      rfl
    have hne : ex ≠ en := by
      intro e
      rw [e, en1] at ex1
      cases ex1
    have two := two_le_countP (fun e => (cutOf cls e).isSome) (loopPairs l) ex en hex hen hne c1 c2
    have one : 0 < l.countP (kept cls) := List.countP_pos_iff.mpr ⟨y, hy, ky⟩
    omega

/-- Counts of the clip that cuts off one edge whose two end points each lie on three
edges and three faces. -/
theorem clipWith_cutsOff_counts (p : Polyhedron) (cls : List Side) (a b : Nat)
    (cutPos : Nat → Nat → Vec3) (capNormal : Vec3) (capMaterial : Option String)
    (hwf : p.wellFormed) (h : cutsOffEdge cls p.vertexCount a b)
    (da : p.degree a = 3) (db : p.degree b = 3) (dab : p.edgesBetween a b = 1)
    (fa : p.facesAt a = 3) (fb : p.facesAt b = 3) (fab : p.facesAtBoth a b = 2) :
    ∃ r, clipWith cls cutPos capNormal capMaterial p = Result.success r ∧
      r.faceCount = p.faceCount + 1 ∧ r.vertexCount = p.vertexCount + 2 ∧
      r.edgeCount = p.edgeCount + 3 := by
  have hk := kept_of_cutsOff cls p.vertexCount a b h
  obtain ⟨hab, ha, hb, hlen, hc⟩ := id h
  -- the clip neither returns the solid unchanged nor fails
  have habove : cls.any (fun s => decide (s = Side.above)) = true := by
    rw [List.any_eq_true]
    have hs := hc a ha
    simp only [true_or, if_true] at hs
    refine ⟨sideOf cls a, ?_, by simp [hs]⟩
    unfold sideOf
    rw [List.getD_eq_getElem _ _ (by omega)]
    exact List.getElem_mem _
  obtain ⟨f0, hf0⟩ : ∃ f, f ∈ p.faces := by
    unfold Polyhedron.facesAt at fa
    have : 0 < p.faces.countP (fun f => f.loop.contains a) := by omega
    obtain ⟨f, hf, _⟩ := List.countP_pos_iff.mp this
    exact ⟨f, hf⟩
  obtain ⟨y, hy, hya, hyb⟩ :=
    exists_third f0.loop (hwf.2 f0 hf0).2.1 (hwf.2 f0 hf0).1 a b
  have hyV : y < p.vertexCount := (hwf.2 f0 hf0).2.2 y hy
  have hbelow : cls.any (fun s => decide (s = Side.below)) = true := by
    rw [List.any_eq_true]
    have hs := hc y hyV
    rw [if_neg (by simp [hya, hyb])] at hs
    refine ⟨sideOf cls y, ?_, by simp [hs]⟩
    unfold sideOf
    rw [List.getD_eq_getElem _ _ (by omega)]
    exact List.getElem_mem _
  obtain ⟨hcuts, hkeptE⟩ := edges_of_cutsOff p cls a b hwf h da db dab
  have hkeptV := keptCount_of_cutsOff cls p.vertexCount a b h
  -- seams
  have hseam : ∀ f ∈ p.faces,
      (f.loop.contains a || f.loop.contains b) = false ∧ seamOf cls f.loop = none ∨
      (f.loop.contains a || f.loop.contains b) = true ∧
        ∃ u v u' v', seamOf cls f.loop = some (SeamPoint.cut u v, SeamPoint.cut u' v') :=
    fun f hf => seamOf_of_cutsOff cls p.vertexCount a b h f.loop (hwf.2 f hf).1
      (hwf.2 f hf).2.1 (hwf.2 f hf).2.2
  have hseams : (p.faces.filterMap (fun f => seamOf cls f.loop)).length = 4 := by
    rw [List.length_filterMap_eq_countP]
    have e1 : p.faces.countP (fun f => (seamOf cls f.loop).isSome) =
        p.faces.countP (fun f => f.loop.contains a || f.loop.contains b) := by
      apply List.countP_congr
      intro f hf
      rcases hseam f hf with ⟨c, s⟩ | ⟨c, u, v, u', v', s⟩
      · rw [c, s]; simp
      · rw [c, s]; simp
    rw [e1]
    have := countP_or_add_and (fun f : Face => f.loop.contains a) (fun f => f.loop.contains b)
      p.faces
    unfold Polyhedron.facesAt at fa fb
    unfold Polyhedron.facesAtBoth at fab
    omega
  have hnew : (p.faces.filterMap (fun f => seamOf cls f.loop)).filter (isNewSeam p.edges) =
      p.faces.filterMap (fun f => seamOf cls f.loop) := by
    rw [List.filter_eq_self]
    intro s hs
    obtain ⟨f, hf, hfs⟩ := List.mem_filterMap.mp hs
    rcases hseam f hf with ⟨_, s0⟩ | ⟨_, u, v, u', v', s1⟩
    · rw [s0] at hfs; cases hfs
    · rw [s1] at hfs
      cases hfs
      rfl
  have hfaces : (p.faces.filterMap (fun f =>
      if 3 ≤ (clipLoop cls f.loop).length then
        some { f with loop := (clipLoop cls f.loop).map (resolve cls p.edges) }
      else none)).length = p.faces.length := by
    rw [List.length_filterMap_eq_countP, List.countP_eq_length]
    intro f hf
    have := clipLoop_survives cls p.vertexCount a b h f.loop (hwf.2 f hf).1 (hwf.2 f hf).2.1
      (hwf.2 f hf).2.2
    simp [this]
  unfold clipWith
  rw [if_neg (by simp [habove]), if_neg (by simp [hbelow])]
  refine ⟨_, rfl, ?_, ?_, ?_⟩
  · simp only [Polyhedron.faceCount, List.length_append, List.length_singleton, hfaces]
  · simp only [Polyhedron.vertexCount, List.length_append, List.length_map, hcuts]
    unfold Polyhedron.vertexCount at hkeptV
    omega
  · simp only [Polyhedron.edgeCount, List.length_append, List.length_map, hcuts, hnew, hseams]
    unfold Polyhedron.edgeCount at hkeptE
    omega

theorem bevelEdge_unfold (sqrt : ℚ → ℚ) (brush : Brush) (edge : Segment) (distance : ℚ)
    (e : Nat × Nat) (f1 f2 : Face) (hfind : findEdge brush edge edgeEpsilon = some e)
    (hfaces : incidentFaces brush e = [f1, f2]) :
    bevelEdge sqrt brush edge distance =
      clipWith (brush.vertices.map (bevelPlane sqrt brush e f1.normal f2.normal distance).side)
        (fun a b => (bevelPlane sqrt brush e f1.normal f2.normal distance).intersect
          (brush.position a) (brush.position b))
        (bevelPlane sqrt brush e f1.normal f2.normal distance).normal f1.material brush := by
  unfold bevelEdge
  rw [hfind]
  simp only [hfaces]
  rfl

theorem clip_cube64_edge (cutPos : Nat → Nat → Vec3) (n : Vec3) (m : Option String) :
    clipWith [Side.below, Side.below, Side.below, Side.below, Side.below, Side.below,
        Side.above, Side.above] cutPos n m cube64 =
      Result.success
        { vertices :=
            [⟨-32, -32, -32⟩, ⟨-32, -32, 32⟩, ⟨-32, 32, -32⟩, ⟨-32, 32, 32⟩,
             ⟨32, -32, -32⟩, ⟨32, -32, 32⟩, cutPos 4 6, cutPos 5 7, cutPos 2 6, cutPos 3 7]
          edges :=
            [(0, 1), (2, 3), (4, 5), (0, 2), (1, 3), (0, 4), (1, 5), (4, 6), (5, 7), (2, 8),
             (3, 9), (6, 7), (9, 8), (8, 6), (7, 9)]
          faces :=
            [⟨[0, 1, 3, 2], ⟨-1, 0, 0⟩, some "material"⟩,
             ⟨[4, 6, 7, 5], ⟨1, 0, 0⟩, some "material"⟩,
             ⟨[0, 4, 5, 1], ⟨0, -1, 0⟩, some "material"⟩,
             ⟨[2, 3, 9, 8], ⟨0, 1, 0⟩, some "material"⟩,
             ⟨[0, 2, 8, 6, 4], ⟨0, 0, -1⟩, some "material"⟩,
             ⟨[1, 5, 7, 9, 3], ⟨0, 0, 1⟩, some "material"⟩,
             ⟨[8, 9, 7, 6], n, m⟩] } := by
  rfl

theorem cube64_findEdge : findEdge cube64 bevelTarget edgeEpsilon = some (6, 7) := by decide!

theorem cube64_incidentFaces :
    incidentFaces cube64 (6, 7) =
      [⟨[4, 6, 7, 5], ⟨1, 0, 0⟩, some "material"⟩, ⟨[2, 3, 7, 6], ⟨0, 1, 0⟩, some "material"⟩] := by
  decide!

/-- Signed distance of a point from the bevel plane of the cube. -/
theorem cube64_pointDistance (sqrt : ℚ → ℚ) (d : ℚ) (hs : 0 < sqrt 2) (v : Vec3) :
    (bevelPlane sqrt cube64 (6, 7) ⟨1, 0, 0⟩ ⟨0, 1, 0⟩ d).pointDistance v =
      ((v.x + v.y - 64) * sqrt 2 + 2 * d) / (sqrt 2 * sqrt 2) := by
  have h2 : Vec3.squaredLength (Vec3.add ⟨1, 0, 0⟩ ⟨0, 1, 0⟩) = 2 := by
    simp [Vec3.squaredLength, Vec3.dot, Vec3.add]; norm_num
  have hn : Vec3.normalize sqrt (Vec3.add ⟨1, 0, 0⟩ ⟨0, 1, 0⟩) =
      ⟨1 / sqrt 2, 1 / sqrt 2, 0⟩ := by
    rw [Vec3.normalize, Vec3.length, h2]
    simp [Vec3.smul, Vec3.add]
  have hp1 : cube64.position 6 = ⟨32, 32, -32⟩ := rfl
  have hp2 : cube64.position 7 = ⟨32, 32, 32⟩ := rfl
  rw [bevelPlane, hn, hp1, hp2]
  simp only [Plane.pointDistance, Vec3.dot, Vec3.sub, Vec3.add, Vec3.smul]
  field_simp
  ring

theorem cube64_cls (sqrt : ℚ → ℚ) (d : ℚ) (hs : 0 < sqrt 2) (hd : 0 < d)
    (hlt : d < 32 * sqrt 2) :
    cube64.vertices.map (bevelPlane sqrt cube64 (6, 7) ⟨1, 0, 0⟩ ⟨0, 1, 0⟩ d).side =
      [Side.below, Side.below, Side.below, Side.below, Side.below, Side.below,
        Side.above, Side.above] := by
  have hss : 0 < sqrt 2 * sqrt 2 := mul_pos hs hs
  have below : ∀ v : Vec3, v.x + v.y ≤ 0 →
      (bevelPlane sqrt cube64 (6, 7) ⟨1, 0, 0⟩ ⟨0, 1, 0⟩ d).side v = Side.below := by
    intro v hv
    have hneg : (bevelPlane sqrt cube64 (6, 7) ⟨1, 0, 0⟩ ⟨0, 1, 0⟩ d).pointDistance v < 0 := by
      rw [cube64_pointDistance sqrt d hs]
      apply div_neg_of_neg_of_pos _ hss
      nlinarith
    unfold Plane.side
    rw [if_neg (not_lt.mpr hneg.le), if_pos hneg]
  have above : ∀ v : Vec3, v.x + v.y = 64 →
      (bevelPlane sqrt cube64 (6, 7) ⟨1, 0, 0⟩ ⟨0, 1, 0⟩ d).side v = Side.above := by
    intro v hv
    have hpos : 0 < (bevelPlane sqrt cube64 (6, 7) ⟨1, 0, 0⟩ ⟨0, 1, 0⟩ d).pointDistance v := by
      rw [cube64_pointDistance sqrt d hs]
      apply div_pos _ hss
      rw [hv]; linarith
    unfold Plane.side
    rw [if_pos hpos]
  have hv : cube64.vertices =
      [⟨-32, -32, -32⟩, ⟨-32, -32, 32⟩, ⟨-32, 32, -32⟩, ⟨-32, 32, 32⟩,
       ⟨32, -32, -32⟩, ⟨32, -32, 32⟩, ⟨32, 32, -32⟩, ⟨32, 32, 32⟩] := rfl
  rw [hv]
  simp only [List.map_cons, List.map_nil]
  rw [below ⟨-32, -32, -32⟩ (by norm_num), below ⟨-32, -32, 32⟩ (by norm_num),
    below ⟨-32, 32, -32⟩ (by norm_num), below ⟨-32, 32, 32⟩ (by norm_num),
    below ⟨32, -32, -32⟩ (by norm_num), below ⟨32, -32, 32⟩ (by norm_num),
    above ⟨32, 32, -32⟩ (by norm_num), above ⟨32, 32, 32⟩ (by norm_num)]

theorem Vec3.get_add (a b : Vec3) (axis : Fin 3) :
    (Vec3.add a b).get axis = a.get axis + b.get axis := by
  fin_cases axis <;> rfl

theorem Vec3.get_smul (k : ℚ) (a : Vec3) (axis : Fin 3) :
    (Vec3.smul k a).get axis = k * a.get axis := by
  fin_cases axis <;> rfl

theorem axisTranslation_get (axis a : Fin 3) (d : ℚ) :
    (axisTranslation axis d).get a = if a = axis then d else 0 := by
  fin_cases axis <;> fin_cases a <;> simp [axisTranslation, Vec3.set, Vec3.get, Vec3.zero]

theorem refPos_translate (mode : AlignMode) (axis a : Fin 3) (d : ℚ) (b : BBox) :
    refPos mode a (b.translate (axisTranslation axis d)) =
      refPos mode a b + (if a = axis then d else 0) := by
  cases mode <;>
    simp only [refPos, BBox.translate, BBox.center, Vec3.get_add, Vec3.get_smul,
      axisTranslation_get] <;> ring

/-- What `transformNode` does to the bounds when the transform succeeds. -/
theorem transformNode_bounds (worldBounds : BBox) (t : Vec3) (node : Node)
    (hg : node.kind ≠ NodeKind.Group)
    (h : node.kind = NodeKind.Brush → (transformBounds worldBounds t node.bounds).is_success = true) :
    (transformNode worldBounds t node).bounds = node.bounds.translate t ∧
      (transformNode worldBounds t node).kind = node.kind := by
  unfold transformNode
  cases hk : node.kind
  · have h' := h hk
    unfold transformBounds at h' ⊢
    split_ifs at h' ⊢ with hw
    · simp
    · simp [Result.is_success] at h'
  · simp
  · exact absurd hk hg
  · simp

theorem moveTo_spec (worldBounds : BBox) (mode : AlignMode) (axis : Fin 3) (targetPos : ℚ)
    (node : Node) (hg : node.kind ≠ NodeKind.Group)
    (h : moveSucceeds worldBounds axis targetPos (refPos mode axis node.bounds) node = true) :
    |refPos mode axis (moveTo worldBounds axis targetPos (refPos mode axis node.bounds) node).bounds
        - targetPos| ≤ 1 / 1000 ∧
      (moveTo worldBounds axis targetPos (refPos mode axis node.bounds) node).kind = node.kind ∧
      ∀ a : Fin 3, a ≠ axis →
        (moveTo worldBounds axis targetPos (refPos mode axis node.bounds) node).bounds.min.get a
          = node.bounds.min.get a ∧
        (moveTo worldBounds axis targetPos (refPos mode axis node.bounds) node).bounds.max.get a
          = node.bounds.max.get a := by
  unfold moveTo
  unfold moveSucceeds at h
  split_ifs with hd
  · have hb := transformNode_bounds worldBounds
      (axisTranslation axis (targetPos - refPos mode axis node.bounds)) node hg
      (fun hk => by rw [if_pos ⟨hd, hk⟩] at h; exact h)
    rw [hb.1]
    refine ⟨?_, hb.2, ?_⟩
    · rw [refPos_translate]; simp
    · intro a ha
      have h1 := refPos_translate AlignMode.Min axis a
        (targetPos - refPos mode axis node.bounds) node.bounds
      have h2 := refPos_translate AlignMode.Max axis a
        (targetPos - refPos mode axis node.bounds) node.bounds
      simpa [refPos, ha] using And.intro h1 h2
  · refine ⟨?_, rfl, fun _ _ => ⟨rfl, rfl⟩⟩
    rw [abs_sub_comm]
    exact not_lt.mp hd

theorem distributeSorted_unfold (worldBounds : BBox) (axis : Fin 3) (useSpacing : Bool)
    (spacing : ℚ) (front back : Node) (mid : List Node) (hmid : mid ≠ []) :
    distributeSorted worldBounds axis useSpacing spacing (front :: (mid ++ [back])) =
      front :: ((mid.enumFrom 1).map (fun inode =>
        moveTo worldBounds axis
          (front.centerOn axis +
            (if useSpacing then spacing
             else (back.centerOn axis - front.centerOn axis) / ((mid.length + 1 : Nat) : ℚ)) *
              (inode.1 : ℚ))
          (inode.2.centerOn axis) inode.2) ++ [back]) := by
  have hmid' : 0 < mid.length := List.length_pos.mpr hmid
  unfold distributeSorted
  simp only [List.head?_cons, List.getLast?_cons_cons, List.length_cons, List.length_append,
    List.length_singleton, List.enum_cons, List.enumFrom_append, List.enumFrom_singleton,
    List.map_cons, List.map_append]
  have hl : (front :: (mid ++ [back])).getLast? = some back := by
    simp [List.getLast?_cons, List.getLast?_append]
  rw [hl]
  simp only [List.map_nil, Nat.add_sub_cancel]
  simp only [List.length_nil, Nat.zero_add]
  have h0 : ¬ (1 ≤ 0 ∧ 0 < mid.length + 1) := by omega
  have hL : ¬ (1 ≤ 1 + mid.length ∧ 1 + mid.length < mid.length + 1) := by omega
  rw [if_neg h0, if_neg hL]
  congr 2
  apply List.map_congr_left
  rintro ⟨i, n⟩ hin
  have := List.mem_enumFrom hin
  rw [if_pos ⟨by omega, by omega⟩]

theorem moveTo_center_spec (worldBounds : BBox) (axis : Fin 3) (targetPos : ℚ) (node : Node)
    (hg : node.kind ≠ NodeKind.Group)
    (h : moveSucceeds worldBounds axis targetPos (node.centerOn axis) node = true) :
    |(moveTo worldBounds axis targetPos (node.centerOn axis) node).centerOn axis - targetPos|
        ≤ 1 / 1000 ∧
      (moveTo worldBounds axis targetPos (node.centerOn axis) node).kind = node.kind ∧
      ∀ a : Fin 3, a ≠ axis →
        (moveTo worldBounds axis targetPos (node.centerOn axis) node).bounds.min.get a
          = node.bounds.min.get a ∧
        (moveTo worldBounds axis targetPos (node.centerOn axis) node).bounds.max.get a
          = node.bounds.max.get a :=
  moveTo_spec worldBounds AlignMode.Center axis targetPos node hg h

/-- Counts of a bevel whose plane cuts off exactly the edge. -/
theorem bevelEdge_counts (sqrt : ℚ → ℚ) (brush : Brush) (edge : Segment) (distance : ℚ)
    (e : Nat × Nat) (f1 f2 : Face) (hfind : findEdge brush edge edgeEpsilon = some e)
    (hfaces : incidentFaces brush e = [f1, f2]) (hwf : brush.wellFormed)
    (hcut : cutsOffEdge
      (brush.vertices.map (bevelPlane sqrt brush e f1.normal f2.normal distance).side)
      brush.vertexCount e.1 e.2)
    (da : brush.degree e.1 = 3) (db : brush.degree e.2 = 3)
    (dab : brush.edgesBetween e.1 e.2 = 1)
    (fa : brush.facesAt e.1 = 3) (fb : brush.facesAt e.2 = 3)
    (fab : brush.facesAtBoth e.1 e.2 = 2) :
    ∃ r, bevelEdge sqrt brush edge distance = Result.success r ∧
      r.faceCount = brush.faceCount + 1 ∧ r.vertexCount = brush.vertexCount + 2 ∧
      r.edgeCount = brush.edgeCount + 3 ∧
      ((brush.vertexCount : ℤ) - brush.edgeCount + brush.faceCount = 2 →
        (r.vertexCount : ℤ) - r.edgeCount + r.faceCount = 2) := by
  rw [bevelEdge_unfold sqrt brush edge distance e f1 f2 hfind hfaces]
  obtain ⟨r, hr, h1, h2, h3⟩ := clipWith_cutsOff_counts brush _ e.1 e.2 _ _ f1.material hwf hcut
    da db dab fa fb fab
  refine ⟨r, hr, h1, h2, h3, ?_⟩
  intro he
  rw [h1, h2, h3]
  push_cast
  omega

theorem cube64_bevel_small (sqrt : ℚ → ℚ) (d : ℚ) (hs : 0 < sqrt 2) (hd : 0 < d)
    (hlt : d < 32 * sqrt 2) :
    ∃ r, bevelEdge sqrt cube64 bevelTarget d = Result.success r ∧ r.faceCount = 7 ∧
      r.vertexCount = 10 ∧ r.edgeCount = 15 ∧ r.fullySpecified = true ∧
      r.bounds = some cube64Bounds := by
  rw [bevelEdge_unfold sqrt cube64 bevelTarget d (6, 7) _ _ cube64_findEdge cube64_incidentFaces,
    cube64_cls sqrt d hs hd hlt, clip_cube64_edge]
  refine ⟨_, rfl, rfl, rfl, rfl, rfl, ?_⟩
  have hss : 0 < sqrt 2 * sqrt 2 := mul_pos hs hs
  have neg : ∀ v : Vec3, v.x + v.y = 0 →
      (bevelPlane sqrt cube64 (6, 7) ⟨1, 0, 0⟩ ⟨0, 1, 0⟩ d).pointDistance v < 0 := by
    intro v hv
    rw [cube64_pointDistance sqrt d hs]
    apply div_neg_of_neg_of_pos _ hss
    rw [hv]; linarith
  have pos : ∀ v : Vec3, v.x + v.y = 64 →
      0 < (bevelPlane sqrt cube64 (6, 7) ⟨1, 0, 0⟩ ⟨0, 1, 0⟩ d).pointDistance v := by
    intro v hv
    rw [cube64_pointDistance sqrt d hs]
    apply div_pos _ hss
    rw [hv]; linarith
  have inside : ∀ u v : Vec3, cube64Bounds.contains u = true → cube64Bounds.contains v = true →
      u.x + u.y = 0 → v.x + v.y = 64 →
      cube64Bounds.contains
        ((bevelPlane sqrt cube64 (6, 7) ⟨1, 0, 0⟩ ⟨0, 1, 0⟩ d).intersect u v) = true :=
    fun u v hu hv eu ev => intersect_contained _ _ u v hu hv (neg u eu) (pos v ev)
  have c46 := inside ⟨32, -32, -32⟩ ⟨32, 32, -32⟩ (by decide!) (by decide!) (by norm_num)
    (by norm_num)
  have c57 := inside ⟨32, -32, 32⟩ ⟨32, 32, 32⟩ (by decide!) (by decide!) (by norm_num)
    (by norm_num)
  have c26 := inside ⟨-32, 32, -32⟩ ⟨32, 32, -32⟩ (by decide!) (by decide!) (by norm_num)
    (by norm_num)
  have c37 := inside ⟨-32, 32, 32⟩ ⟨32, 32, 32⟩ (by decide!) (by decide!) (by norm_num)
    (by norm_num)
  unfold Polyhedron.bounds
  apply mergeAll_eq
  · intro p hp
    simp only [List.mem_cons, List.mem_singleton, List.not_mem_nil, or_false] at hp
    rcases hp with rfl | rfl | rfl | rfl | rfl | rfl | rfl | rfl | rfl | rfl
    · decide!
    · decide!
    · decide!
    · decide!
    · decide!
    · decide!
    · exact c46
    · exact c57
    · exact c26
    · exact c37
  · exact ⟨⟨-32, -32, -32⟩, by simp, rfl⟩
  · exact ⟨⟨-32, -32, -32⟩, by simp, rfl⟩
  · exact ⟨⟨-32, -32, -32⟩, by simp, rfl⟩
  · exact ⟨⟨32, -32, -32⟩, by simp, rfl⟩
  · exact ⟨⟨-32, 32, -32⟩, by simp, rfl⟩
  · exact ⟨⟨-32, -32, 32⟩, by simp, rfl⟩

theorem clip_cube64_far (cutPos : Nat → Nat → Vec3) (n : Vec3) (m : Option String) :
    clipWith [Side.below, Side.below, Side.above, Side.above, Side.above, Side.above,
        Side.above, Side.above] cutPos n m cube64 =
      Result.success
        { vertices :=
            [⟨-32, -32, -32⟩, ⟨-32, -32, 32⟩, cutPos 0 2, cutPos 1 3, cutPos 0 4, cutPos 1 5]
          edges := [(0, 1), (0, 2), (1, 3), (0, 4), (1, 5), (3, 2), (4, 5), (2, 4), (5, 3)]
          faces :=
            [⟨[0, 1, 3, 2], ⟨-1, 0, 0⟩, some "material"⟩,
             ⟨[0, 4, 5, 1], ⟨0, -1, 0⟩, some "material"⟩,
             ⟨[0, 2, 4], ⟨0, 0, -1⟩, some "material"⟩,
             ⟨[1, 5, 3], ⟨0, 0, 1⟩, some "material"⟩,
             ⟨[5, 4, 2, 3], n, m⟩] } := by
  rfl

theorem cube64_cls_far (sqrt : ℚ → ℚ) (d : ℚ) (hs : 0 < sqrt 2) (h1 : 32 * sqrt 2 < d)
    (h2 : d < 64 * sqrt 2) :
    cube64.vertices.map (bevelPlane sqrt cube64 (6, 7) ⟨1, 0, 0⟩ ⟨0, 1, 0⟩ d).side =
      [Side.below, Side.below, Side.above, Side.above, Side.above, Side.above,
        Side.above, Side.above] := by
  have hss : 0 < sqrt 2 * sqrt 2 := mul_pos hs hs
  have below : ∀ v : Vec3, v.x + v.y = -64 →
      (bevelPlane sqrt cube64 (6, 7) ⟨1, 0, 0⟩ ⟨0, 1, 0⟩ d).side v = Side.below := by
    intro v hv
    have hneg : (bevelPlane sqrt cube64 (6, 7) ⟨1, 0, 0⟩ ⟨0, 1, 0⟩ d).pointDistance v < 0 := by
      rw [cube64_pointDistance sqrt d hs]
      apply div_neg_of_neg_of_pos _ hss
      rw [hv]; linarith
    unfold Plane.side
    rw [if_neg (not_lt.mpr hneg.le), if_pos hneg]
  have above : ∀ v : Vec3, 0 ≤ v.x + v.y →
      (bevelPlane sqrt cube64 (6, 7) ⟨1, 0, 0⟩ ⟨0, 1, 0⟩ d).side v = Side.above := by
    intro v hv
    have hpos : 0 < (bevelPlane sqrt cube64 (6, 7) ⟨1, 0, 0⟩ ⟨0, 1, 0⟩ d).pointDistance v := by
      rw [cube64_pointDistance sqrt d hs]
      apply div_pos _ hss
      nlinarith
    unfold Plane.side
    rw [if_pos hpos]
  have hv : cube64.vertices =
      [⟨-32, -32, -32⟩, ⟨-32, -32, 32⟩, ⟨-32, 32, -32⟩, ⟨-32, 32, 32⟩,
       ⟨32, -32, -32⟩, ⟨32, -32, 32⟩, ⟨32, 32, -32⟩, ⟨32, 32, 32⟩] := rfl
  rw [hv]
  simp only [List.map_cons, List.map_nil]
  rw [below ⟨-32, -32, -32⟩ (by norm_num), below ⟨-32, -32, 32⟩ (by norm_num),
    above ⟨-32, 32, -32⟩ (by norm_num), above ⟨-32, 32, 32⟩ (by norm_num),
    above ⟨32, -32, -32⟩ (by norm_num), above ⟨32, -32, 32⟩ (by norm_num),
    above ⟨32, 32, -32⟩ (by norm_num), above ⟨32, 32, 32⟩ (by norm_num)]

/-- The crossing point on an edge of the cube that leaves the corner (-32, -32) along
the y axis or along the x axis. -/
theorem cube64_intersect_far (sqrt : ℚ → ℚ) (d : ℚ) (hs : 0 < sqrt 2) (z : ℚ) :
    (bevelPlane sqrt cube64 (6, 7) ⟨1, 0, 0⟩ ⟨0, 1, 0⟩ d).intersect ⟨-32, -32, z⟩ ⟨-32, 32, z⟩ =
      ⟨-32, 96 - 2 * d / sqrt 2, z⟩ ∧
    (bevelPlane sqrt cube64 (6, 7) ⟨1, 0, 0⟩ ⟨0, 1, 0⟩ d).intersect ⟨-32, -32, z⟩ ⟨32, -32, z⟩ =
      ⟨96 - 2 * d / sqrt 2, -32, z⟩ := by
  have hne : sqrt 2 ≠ 0 := ne_of_gt hs
  constructor <;>
  · simp only [Plane.intersect, cube64_pointDistance sqrt d hs, Vec3.add, Vec3.smul, Vec3.sub,
      Vec3.mk.injEq]
    refine ⟨?_, ?_, ?_⟩ <;> norm_num <;> field_simp <;> ring_nf <;> field_simp <;> ring

theorem clipWith_is_success (cls : List Side) (cutPos : Nat → Nat → Vec3) (n : Vec3)
    (m : Option String) (p : Polyhedron) :
    (clipWith cls cutPos n m p).is_success = false ↔
      cls.any (fun s => decide (s = Side.above)) = true ∧
        cls.any (fun s => decide (s = Side.below)) = false := by
  unfold clipWith
  cases h1 : cls.any (fun s => decide (s = Side.above)) <;>
    cases h2 : cls.any (fun s => decide (s = Side.below)) <;>
    simp [Result.is_success]

theorem foldl_bevelHandle (sqrt : ℚ → ℚ) (initialBrush : Brush) (distance : ℚ)
    (handles : List Segment) :
    ∀ brush : Brush,
      handles.foldl (bevelHandle sqrt initialBrush distance) brush =
        (handles.filter (fun h => hasEdge initialBrush h (1 / 10))).foldl
          (bevelOnCopy sqrt distance) brush := by
  induction handles with
  | nil => intro brush; rfl
  | cons h hs ih =>
    intro brush
    simp only [List.foldl_cons, List.filter_cons]
    cases hc : hasEdge initialBrush h (1 / 10)
    · simp only [bevelHandle, hc, Bool.false_eq_true, if_false]
      exact ih brush
    · simp only [bevelHandle, hc, if_true, List.foldl_cons]
      exact ih _

/-- C1 (amended): a bevelEdge whose plane cuts off exactly the edge (its two end points
strictly outside, every other vertex strictly inside), on a well-formed brush where each
end point lies on three edges and three faces and the two faces of the edge are the only
faces at both, succeeds and leaves F + 1 faces, V + 2 vertices and E + 3 edges, so that
V - E + F = 2 is kept. For the cube [-32, 32]^3 and the edge (32, 32, -32)-(32, 32, 32)
every distance between 0 and 32 * sqrt 2 gives 7 faces, 10 vertices, 15 edges, a fully
specified brush and the bounds of the cube. -/
theorem bevelEdge_cut_off_edge_counts (sqrt : ℚ → ℚ) :
    (∀ (brush : Brush) (edge : Segment) (distance : ℚ) (e : Nat × Nat) (f1 f2 : Face),
      findEdge brush edge edgeEpsilon = some e → incidentFaces brush e = [f1, f2] →
      brush.wellFormed →
      cutsOffEdge
        (brush.vertices.map (bevelPlane sqrt brush e f1.normal f2.normal distance).side)
        brush.vertexCount e.1 e.2 →
      brush.degree e.1 = 3 → brush.degree e.2 = 3 → brush.edgesBetween e.1 e.2 = 1 →
      brush.facesAt e.1 = 3 → brush.facesAt e.2 = 3 → brush.facesAtBoth e.1 e.2 = 2 →
      ∃ r, bevelEdge sqrt brush edge distance = Result.success r ∧
        r.faceCount = brush.faceCount + 1 ∧ r.vertexCount = brush.vertexCount + 2 ∧
        r.edgeCount = brush.edgeCount + 3 ∧
        ((brush.vertexCount : ℤ) - brush.edgeCount + brush.faceCount = 2 →
          (r.vertexCount : ℤ) - r.edgeCount + r.faceCount = 2)) ∧
    (∀ d : ℚ, 0 < sqrt 2 → 0 < d → d < 32 * sqrt 2 →
      ∃ r, bevelEdge sqrt cube64 bevelTarget d = Result.success r ∧ r.faceCount = 7 ∧
        r.vertexCount = 10 ∧ r.edgeCount = 15 ∧ r.fullySpecified = true ∧
        r.bounds = some cube64Bounds) :=
  ⟨fun brush edge distance e f1 f2 hfind hfaces hwf hcut da db dab fa fb fab =>
      bevelEdge_counts sqrt brush edge distance e f1 f2 hfind hfaces hwf hcut da db dab fa fb fab,
    fun d hs hd hlt => cube64_bevel_small sqrt d hs hd hlt⟩

/-- C1, witness: the cube of the test with the bevel distance 8. -/
theorem bevelEdge_cut_off_edge_counts_witness :
    (cube64.faceCount = 6 ∧ cube64.vertexCount = 8 ∧ cube64.edgeCount = 12) ∧
    (∃ r, bevelEdge sqrtApprox cube64 bevelTarget 8 = Result.success r ∧
      r.faceCount = cube64.faceCount + 1 ∧ r.vertexCount = cube64.vertexCount + 2 ∧
      r.edgeCount = cube64.edgeCount + 3 ∧
      ((cube64.vertexCount : ℤ) - cube64.edgeCount + cube64.faceCount = 2 →
        (r.vertexCount : ℤ) - r.edgeCount + r.faceCount = 2)) ∧
    (∃ r, bevelEdge sqrtApprox cube64 bevelTarget 8 = Result.success r ∧ r.faceCount = 7 ∧
      r.vertexCount = 10 ∧ r.edgeCount = 15 ∧ r.fullySpecified = true ∧
      r.bounds = some cube64Bounds) :=
  ⟨by decide,
    (bevelEdge_cut_off_edge_counts sqrtApprox).1 cube64 bevelTarget 8 (6, 7)
      ⟨[4, 6, 7, 5], ⟨1, 0, 0⟩, some "material"⟩ ⟨[2, 3, 7, 6], ⟨0, 1, 0⟩, some "material"⟩
      (by decide!) (by decide!) (by decide!) (by decide!) (by decide!) (by decide!) (by decide!)
      (by decide!) (by decide!) (by decide!),
    (bevelEdge_cut_off_edge_counts sqrtApprox).2 8 (by decide!) (by decide!) (by decide!)⟩

/-- C1, counterexample: on the cube [-32, 32]^3 (6 faces, 8 vertices, 12 edges) the
bevel of the edge (32, 32, -32)-(32, 32, 32) with the positive distance 50 succeeds and
leaves 5 faces, 6 vertices and 9 edges, not 7, 10 and 15; and on a square pyramid
(5 faces, 5 vertices, 8 edges) the bevel of an edge to the apex with distance 2, whose
plane cuts off exactly that edge, leaves 6 faces, 8 vertices and 12 edges, not 6, 7
and 11. -/
theorem bevelEdge_counts_fail :
    (cube64.faceCount, cube64.vertexCount, cube64.edgeCount) = (6, 8, 12) ∧
    (bevelEdge sqrtApprox cube64 bevelTarget 50).value?.map
        (fun r => (r.faceCount, r.vertexCount, r.edgeCount)) = some (5, 6, 9) ∧
    (pyramid.faceCount, pyramid.vertexCount, pyramid.edgeCount) = (5, 5, 8) ∧
    pyramid.wellFormed ∧ findEdge pyramid apexEdge edgeEpsilon = some (2, 4) ∧
    cutsOffEdge
      (pyramid.vertices.map
        (bevelPlane sqrtApprox pyramid (2, 4) ⟨4 / 5, 0, 3 / 5⟩ ⟨0, 4 / 5, 3 / 5⟩ 2).side)
      5 2 4 ∧
    pyramid.degree 4 = 4 ∧
    (bevelEdge sqrtApprox pyramid apexEdge 2).value?.map
        (fun r => (r.faceCount, r.vertexCount, r.edgeCount)) = some (6, 8, 12) := by
  decide!

/-- C2: on the cube [-32, 32]^3 the bevel of the edge (32, 32, -32)-(32, 32, 32) with
distance 50, which is more than the distance 32 * sqrt 2 from the centre to the edge,
succeeds; the result has vertices and its bounds reach only to 96 - 100 / sqrt 2 < 32 in
x and y, so it is strictly smaller than the cube. In general, once the edge is found
with its two faces, bevelEdge fails exactly when some vertex is strictly outside the
bevel plane and no vertex is strictly inside it, that is when nothing of the solid is
left. -/
theorem bevelEdge_large_distance (sqrt : ℚ → ℚ) :
    (25 / 32 < sqrt 2 → sqrt 2 < 25 / 16 →
      32 * sqrt 2 < 50 ∧
      ∃ r, bevelEdge sqrt cube64 bevelTarget 50 = Result.success r ∧
        0 < r.vertexCount ∧
        r.bounds = some ⟨⟨-32, -32, -32⟩, ⟨96 - 100 / sqrt 2, 96 - 100 / sqrt 2, 32⟩⟩ ∧
        96 - 100 / sqrt 2 < 32 ∧ cube64.bounds = some ⟨⟨-32, -32, -32⟩, ⟨32, 32, 32⟩⟩) ∧
    (∀ (brush : Brush) (edge : Segment) (distance : ℚ) (e : Nat × Nat) (f1 f2 : Face),
      findEdge brush edge edgeEpsilon = some e → incidentFaces brush e = [f1, f2] →
      ((bevelEdge sqrt brush edge distance).is_success = false ↔
        (∃ v ∈ brush.vertices,
          (bevelPlane sqrt brush e f1.normal f2.normal distance).side v = Side.above) ∧
        ∀ v ∈ brush.vertices,
          (bevelPlane sqrt brush e f1.normal f2.normal distance).side v ≠ Side.below)) := by
  constructor
  · intro hlo hhi
    have hs : 0 < sqrt 2 := by linarith
    have h1 : 32 * sqrt 2 < 50 := by linarith
    have h2 : (50 : ℚ) < 64 * sqrt 2 := by linarith
    refine ⟨h1, ?_⟩
    rw [bevelEdge_unfold sqrt cube64 bevelTarget 50 (6, 7) _ _ cube64_findEdge
      cube64_incidentFaces, cube64_cls_far sqrt 50 hs h1 h2, clip_cube64_far]
    have hlt : 96 - 100 / sqrt 2 < 32 := by
      have : 64 < 100 / sqrt 2 := by
        rw [lt_div_iff₀ hs]; linarith
      linarith
    have hgt : -32 < 96 - 100 / sqrt 2 := by
      have : 100 / sqrt 2 < 128 := by
        rw [div_lt_iff₀ hs]; linarith
      linarith
    refine ⟨_, rfl, by simp [Polyhedron.vertexCount], ?_, hlt, by decide!⟩
    have c := cube64_intersect_far sqrt 50 hs
    have p0 : cube64.position 0 = ⟨-32, -32, -32⟩ := rfl
    have p1 : cube64.position 1 = ⟨-32, -32, 32⟩ := rfl
    have p2 : cube64.position 2 = ⟨-32, 32, -32⟩ := rfl
    have p3 : cube64.position 3 = ⟨-32, 32, 32⟩ := rfl
    have p4 : cube64.position 4 = ⟨32, -32, -32⟩ := rfl
    have p5 : cube64.position 5 = ⟨32, -32, 32⟩ := rfl
    simp only [Polyhedron.bounds, p0, p1, p2, p3, p4, p5, (c (-32)).1, (c (-32)).2, (c 32).1,
      (c 32).2]
    norm_num
    apply mergeAll_eq
    · intro p hp
      simp only [List.mem_cons, List.mem_singleton, List.not_mem_nil, or_false] at hp
      rcases hp with rfl | rfl | rfl | rfl | rfl | rfl <;>
        (rw [BBox.contains_iff]; refine ⟨?_, ?_, ?_, ?_, ?_, ?_⟩ <;> norm_num <;> linarith)
    · exact ⟨⟨-32, -32, -32⟩, by simp, rfl⟩
    · exact ⟨⟨-32, -32, -32⟩, by simp, rfl⟩
    · exact ⟨⟨-32, -32, -32⟩, by simp, rfl⟩
    · exact ⟨⟨96 - 100 / sqrt 2, -32, -32⟩, by simp, rfl⟩
    · exact ⟨⟨-32, 96 - 100 / sqrt 2, -32⟩, by simp, rfl⟩
    · exact ⟨⟨-32, -32, 32⟩, by simp, rfl⟩
  · intro brush edge distance e f1 f2 hfind hfaces
    rw [bevelEdge_unfold sqrt brush edge distance e f1 f2 hfind hfaces, clipWith_is_success]
    simp only [List.any_eq_true, List.any_eq_false, List.mem_map, decide_eq_true_eq]
    constructor
    · rintro ⟨⟨s, ⟨v, hv, rfl⟩, hva⟩, hno⟩
      exact ⟨⟨v, hv, hva⟩, fun w hw => hno _ ⟨w, hw, rfl⟩⟩
    · rintro ⟨⟨v, hv, hva⟩, hno⟩
      refine ⟨⟨_, ⟨v, hv, rfl⟩, hva⟩, ?_⟩
      rintro s ⟨w, hw, rfl⟩
      exact hno w hw

/-- C2, witness: the square root rounded to twelve places lies in the range asked
for, and the bevel by 50 succeeds with it. -/
theorem bevelEdge_large_distance_witness :
    32 * sqrtApprox 2 < 50 ∧
    ∃ r, bevelEdge sqrtApprox cube64 bevelTarget 50 = Result.success r ∧
      0 < r.vertexCount ∧
      r.bounds =
        some ⟨⟨-32, -32, -32⟩, ⟨96 - 100 / sqrtApprox 2, 96 - 100 / sqrtApprox 2, 32⟩⟩ ∧
      96 - 100 / sqrtApprox 2 < 32 ∧ cube64.bounds = some ⟨⟨-32, -32, -32⟩, ⟨32, 32, 32⟩⟩ :=
  (bevelEdge_large_distance sqrtApprox).1 (by decide!) (by decide!)

/-- An inset that cannot keep the adjoining faces planar fails: on the truncated
tetrahedron the top face, whose sides are parallel to those of the base, can be inset,
and the side face [0, 1, 4, 3] cannot, because the faces next to it would not stay
planar. -/
theorem insetFace_truncatedTetrahedron :
    truncatedTetrahedron.invariantsHold = true ∧
    (insetFace sqrtApprox truncatedTetrahedron 1 (1 / 2)).is_success = true ∧
    insetFace sqrtApprox truncatedTetrahedron 2 (1 / 2) =
      Result.error BrushError.DegenerateGeometry := by
  decide!

/-- C4: round trip of createCuboid: whenever `createCuboid worldBounds b material`
succeeds, the bounds of the brush are exactly `b`, and the brush has 6 faces, 12 edges
and 8 vertices. -/
theorem createCuboid_bounds_roundtrip (worldBounds b : BBox) (material : String)
    (brush : Brush) (h : createCuboid worldBounds b material = Result.success brush) :
    brush.bounds = some b ∧ brush.faceCount = 6 ∧ brush.edgeCount = 12 ∧
      brush.vertexCount = 8 := by
  unfold createCuboid at h
  split_ifs at h with h1 h2
  injection h with h
  subst h
  obtain ⟨hx, hy, hz⟩ := h1
  obtain ⟨⟨bx, by', bz⟩, ⟨cx, cy, cz⟩⟩ := b
  simp only at hx hy hz
  refine ⟨?_, rfl, rfl, rfl⟩
  simp [Polyhedron.bounds, BBox.mergeAll, BBox.extend, Vec3.vmin, Vec3.vmax, le_of_lt hx, le_of_lt hy, le_of_lt hz]

/-- C4, witness: the box [-32, 32]^3 inside the world bounds [-4096, 4096]^3. -/
theorem createCuboid_bounds_roundtrip_witness :
    createCuboid worldBounds4096 cube64Bounds "material" = Result.success cube64 ∧
    cube64.bounds = some cube64Bounds ∧ cube64.faceCount = 6 ∧ cube64.edgeCount = 12 ∧
      cube64.vertexCount = 8 :=
  ⟨by decide!,
    createCuboid_bounds_roundtrip worldBounds4096 cube64Bounds "material" cube64 (by decide!)⟩

/-- C5, counterexample: a bevel drag by (8, 0, 0) on the cube with the two selected
edges `bevelTarget` and `neighbourEdge`, which share a corner. The first bevel succeeds
and gives `b`; the second call of bevelEdge, on `b`, fails; all the same `setBrush` is
called with `b`, which is not the brush the node had. And with the single edge
`bevelTarget` and the drag (100, 0, 0) the only call of bevelEdge fails, and `setBrush`
is called all the same. -/
theorem move_replaces_brush_after_failed_bevel :
    (bevelEdge sqrtApprox cube64 bevelTarget 8).value?.map (fun b =>
        ((bevelEdge sqrtApprox b neighbourEdge 8).is_success,
          decide ((move sqrtApprox (1 / 1000) cubeDrag [bevelTarget, neighbourEdge] ⟨8, 0, 0⟩).2.1
            = [(0, b)]),
          decide (b = cube64))) =
      some (false, true, false) ∧
    (bevelEdge sqrtApprox cube64 bevelTarget 100).is_success = false ∧
    (move sqrtApprox (1 / 1000) cubeDrag [bevelTarget] ⟨100, 0, 0⟩).2.1 = [(0, cube64)] := by
  decide!

/-- C5 (amended): the tools do not look at the result of the kernel call. In
EdgeTool::move (bevel mode, drag longer than `almostZero`) `setBrush` is called for
every node of the drag with the working copy after all the bevels tried on it: the
selected edges that match the initial brush, each beveled on the copy, where a bevel
that fails leaves the copy as it was and one that succeeds replaces it. In the brush
visitor of AlignmentTool the copy is written back as well: it is the transformed brush
when Brush::transform succeeds and the brush as it was when it fails. -/
theorem kernel_result_not_checked (sqrt : ℚ → ℚ) (worldBounds : BBox) :
    (∀ (almostZero : ℚ) (tool : EdgeTool) (selectedHandles : List Segment) (delta : Vec3),
      ¬ Vec3.length sqrt (Vec3.add tool.totalDelta delta) < almostZero →
      (move sqrt almostZero tool selectedHandles delta).2.1 =
        tool.initialBrushes.map (fun nb =>
          (nb.1, (selectedHandles.filter (fun h => hasEdge nb.2 h (1 / 10))).foldl
            (bevelOnCopy sqrt (Vec3.length sqrt (Vec3.add tool.totalDelta delta))) nb.2))) ∧
    (∀ (distance : ℚ) (brush : Brush) (edgeHandle : Segment),
      ((bevelEdge sqrt brush edgeHandle distance).is_success = false →
        bevelOnCopy sqrt distance brush edgeHandle = brush) ∧
      ∀ b, bevelEdge sqrt brush edgeHandle distance = Result.success b →
        bevelOnCopy sqrt distance brush edgeHandle = b) ∧
    (∀ (translation : Vec3) (node : Node), node.kind = NodeKind.Brush →
      ((transformBounds worldBounds translation node.bounds).is_success = false →
        transformNode worldBounds translation node = node) ∧
      ∀ b, transformBounds worldBounds translation node.bounds = Result.success b →
        transformNode worldBounds translation node = { node with bounds := b }) := by
  refine ⟨?_, ?_, ?_⟩
  · intro almostZero tool selectedHandles delta hd
    unfold move
    simp only [if_neg hd]
    apply List.map_congr_left
    intro nb _
    rw [foldl_bevelHandle]
  · intro distance brush edgeHandle
    unfold bevelOnCopy
    cases bevelEdge sqrt brush edgeHandle distance with
    | success b => simp [Result.is_success]
    | error e => simp [Result.is_success]
  · intro translation node hk
    unfold transformNode
    rw [hk]
    cases transformBounds worldBounds translation node.bounds with
    | success b => simp [Result.is_success]
    | error e => simp [Result.is_success]

/-- C5, witness: a drag of length 8 on the cube with the edge of the test, and a brush
node moved by one unit inside the world bounds. -/
theorem kernel_result_not_checked_witness :
    (move sqrtApprox (1 / 1000) cubeDrag [bevelTarget] ⟨8, 0, 0⟩).2.1 =
      cubeDrag.initialBrushes.map (fun nb =>
        (nb.1, ([bevelTarget].filter (fun h => hasEdge nb.2 h (1 / 10))).foldl
          (bevelOnCopy sqrtApprox
            (Vec3.length sqrtApprox (Vec3.add cubeDrag.totalDelta ⟨8, 0, 0⟩))) nb.2)) ∧
    transformNode worldBounds4096 ⟨1, 0, 0⟩ (boxNode NodeKind.Brush 0 8) =
      { boxNode NodeKind.Brush 0 8 with bounds := (boxNode NodeKind.Brush 1 8).bounds } :=
  ⟨(kernel_result_not_checked sqrtApprox worldBounds4096).1 (1 / 1000) cubeDrag [bevelTarget]
      ⟨8, 0, 0⟩ (by decide!),
    ((kernel_result_not_checked sqrtApprox worldBounds4096).2.2 ⟨1, 0, 0⟩
      (boxNode NodeKind.Brush 0 8) rfl).2 _ (by decide!)⟩

theorem bevelHandleOnCurrent_eq (sqrt : ℚ → ℚ) (distance : ℚ) (brush : Brush)
    (edgeHandle : Segment) :
    bevelHandleOnCurrent sqrt distance brush edgeHandle =
      bevelOnCopy sqrt distance brush edgeHandle := by
  unfold bevelHandleOnCurrent
  cases hc : hasEdge brush edgeHandle (1 / 10)
  · simp only [Bool.false_eq_true, if_false]
    unfold hasEdge at hc
    unfold bevelOnCopy bevelEdge
    have hn : findEdge brush edgeHandle edgeEpsilon = none := by
      unfold edgeEpsilon
      cases hf : findEdge brush edgeHandle (1 / 10) with
      | none => rfl
      | some e => rw [hf] at hc; simp at hc
    rw [hn]
  · simp only [if_true]

/-- C6: in EdgeTool::move (bevel mode, drag longer than `almostZero`) the brush set for
a node comes from its selected edges, the handles that are edges of the brush as it was
when the drag started, taken in turn: each is matched with tolerance 0.1 against the
current state of the working copy, the state after the bevels already applied in the
call. An edge that matches no edge of the current state leaves the copy as it is; one
that matches is beveled at the edge of the current state that was found. -/
theorem move_matches_current_state (sqrt : ℚ → ℚ) (almostZero : ℚ) (tool : EdgeTool)
    (selectedHandles : List Segment) (delta : Vec3)
    (hd : ¬ Vec3.length sqrt (Vec3.add tool.totalDelta delta) < almostZero) :
    (move sqrt almostZero tool selectedHandles delta).2.1 =
      tool.initialBrushes.map (fun nb =>
        (nb.1, (selectedHandles.filter (fun h => hasEdge nb.2 h (1 / 10))).foldl
          (bevelHandleOnCurrent sqrt (Vec3.length sqrt (Vec3.add tool.totalDelta delta)))
          nb.2)) ∧
    (∀ nb ∈ tool.initialBrushes, (∀ h ∈ selectedHandles, hasEdge nb.2 h (1 / 10) = true) →
      (nb.1, selectedHandles.foldl
        (bevelHandleOnCurrent sqrt (Vec3.length sqrt (Vec3.add tool.totalDelta delta))) nb.2) ∈
        (move sqrt almostZero tool selectedHandles delta).2.1) ∧
    ∀ (distance : ℚ) (brush : Brush) (edgeHandle : Segment),
      (findEdge brush edgeHandle (1 / 10) = none →
        bevelHandleOnCurrent sqrt distance brush edgeHandle = brush) ∧
      ∀ e, findEdge brush edgeHandle (1 / 10) = some e →
        e ∈ brush.edges ∧ areSegmentsEqual (brush.segment e) edgeHandle (1 / 10) = true ∧
        bevelHandleOnCurrent sqrt distance brush edgeHandle =
          match incidentFaces brush e with
          | [f1, f2] =>
            match brush.clip (bevelPlane sqrt brush e f1.normal f2.normal distance)
              f1.material with
            | Result.success b => b
            | Result.error _ => brush
          | _ => brush := by
  have hmove : (move sqrt almostZero tool selectedHandles delta).2.1 =
      tool.initialBrushes.map (fun nb =>
        (nb.1, (selectedHandles.filter (fun h => hasEdge nb.2 h (1 / 10))).foldl
          (bevelHandleOnCurrent sqrt (Vec3.length sqrt (Vec3.add tool.totalDelta delta)))
          nb.2)) := by
    unfold move
    simp only [if_neg hd]
    apply List.map_congr_left
    intro nb _
    rw [foldl_bevelHandle]
    have hf : bevelOnCopy sqrt (Vec3.length sqrt (Vec3.add tool.totalDelta delta)) =
        bevelHandleOnCurrent sqrt (Vec3.length sqrt (Vec3.add tool.totalDelta delta)) := by
      funext b h
      exact (bevelHandleOnCurrent_eq sqrt _ b h).symm
    rw [hf]
  refine ⟨hmove, ?_, ?_⟩
  · intro nb hnb hall
    rw [hmove, List.mem_map]
    refine ⟨nb, hnb, ?_⟩
    rw [List.filter_eq_self.mpr hall]
  · intro distance brush edgeHandle
    constructor
    · intro hn
      unfold bevelHandleOnCurrent hasEdge
      rw [hn]
      rfl
    · intro e he
      have he' : brush.edges.find?
          (fun e => areSegmentsEqual (brush.segment e) edgeHandle (1 / 10)) = some e := he
      have h2 : areSegmentsEqual (brush.segment e) edgeHandle (1 / 10) = true :=
        @List.find?_some _ (fun e => areSegmentsEqual (brush.segment e) edgeHandle (1 / 10)) _ _ he'
      refine ⟨List.mem_of_find?_eq_some he', h2, ?_⟩
      rw [bevelHandleOnCurrent_eq]
      unfold bevelOnCopy bevelEdge edgeEpsilon
      rw [he]
      simp only
      cases hi : incidentFaces brush e with
      | nil => rfl
      | cons f1 l1 =>
        cases l1 with
        | nil => rfl
        | cons f2 l2 =>
          cases l2 with
          | nil => rfl
          | cons f3 l3 => rfl

/-- C6, witness: a bevel drag by (1/20, 0, 0) on the cube with the selected edges
`bevelTarget` and `neighbourEdge`, which share the corner (32, 32, 32). Both are edges of
the cube. After the bevel of `bevelTarget` the corner is cut off, and `neighbourEdge` is
found in the current state as the edge that ends at (32, 32 - sqrt 2 / 20, 32), less than
0.1 from the corner; it is beveled there, and the brush set has 8 faces, 11 vertices and
17 edges. With the drag (8, 0, 0) no edge of the current state is within 0.1 of
`neighbourEdge`, and it is not beveled. -/
theorem move_matches_current_state_witness :
    ((move sqrtApprox (1 / 1000) cubeDrag [bevelTarget, neighbourEdge] ⟨1 / 20, 0, 0⟩).2.1 =
        cubeDrag.initialBrushes.map (fun nb =>
          (nb.1, ([bevelTarget, neighbourEdge].filter (fun h => hasEdge nb.2 h (1 / 10))).foldl
            (bevelHandleOnCurrent sqrtApprox
              (Vec3.length sqrtApprox (Vec3.add cubeDrag.totalDelta ⟨1 / 20, 0, 0⟩)))
            nb.2)) ∧
      (∀ nb ∈ cubeDrag.initialBrushes,
        (∀ h ∈ [bevelTarget, neighbourEdge], hasEdge nb.2 h (1 / 10) = true) →
        (nb.1, [bevelTarget, neighbourEdge].foldl
          (bevelHandleOnCurrent sqrtApprox
            (Vec3.length sqrtApprox (Vec3.add cubeDrag.totalDelta ⟨1 / 20, 0, 0⟩))) nb.2) ∈
          (move sqrtApprox (1 / 1000) cubeDrag [bevelTarget, neighbourEdge]
            ⟨1 / 20, 0, 0⟩).2.1) ∧
      ∀ (distance : ℚ) (brush : Brush) (edgeHandle : Segment),
        (findEdge brush edgeHandle (1 / 10) = none →
          bevelHandleOnCurrent sqrtApprox distance brush edgeHandle = brush) ∧
        ∀ e, findEdge brush edgeHandle (1 / 10) = some e →
          e ∈ brush.edges ∧ areSegmentsEqual (brush.segment e) edgeHandle (1 / 10) = true ∧
          bevelHandleOnCurrent sqrtApprox distance brush edgeHandle =
            match incidentFaces brush e with
            | [f1, f2] =>
              match brush.clip (bevelPlane sqrtApprox brush e f1.normal f2.normal distance)
                f1.material with
              | Result.success b => b
              | Result.error _ => brush
            | _ => brush) ∧
    (hasEdge cube64 bevelTarget (1 / 10) = true ∧ hasEdge cube64 neighbourEdge (1 / 10) = true) ∧
    (bevelEdge sqrtApprox cube64 bevelTarget (1 / 20)).value?.bind (fun b =>
        (findEdge b neighbourEdge (1 / 10)).map b.segment) =
      some ⟨⟨32, -32, 32⟩, ⟨32, 45154833995936 / 1414213562373, 32⟩⟩ ∧
    (move sqrtApprox (1 / 1000) cubeDrag [bevelTarget, neighbourEdge] ⟨1 / 20, 0, 0⟩).2.1.map
        (fun nb => (nb.1, nb.2.faceCount, nb.2.vertexCount, nb.2.edgeCount)) =
      [(0, 8, 11, 17)] ∧
    (bevelEdge sqrtApprox cube64 bevelTarget 8).value?.map (fun b =>
        (findEdge b neighbourEdge (1 / 10),
          decide ((move sqrtApprox (1 / 1000) cubeDrag [bevelTarget, neighbourEdge]
            ⟨8, 0, 0⟩).2.1 = [(0, b)]))) =
      some (none, true) :=
  ⟨move_matches_current_state sqrtApprox (1 / 1000) cubeDrag [bevelTarget, neighbourEdge]
      ⟨1 / 20, 0, 0⟩ (by decide!),
    by decide!, by decide!, by decide!, by decide!⟩

/-- C7, the code at the failing input: two square faces of side 16 that face each
other along the y axis, with centres (0, 0, 0) and (0, 64, 0), and the default tool
(one segment). The bridge is created; its only segment runs from (0, 0, 0) to
(0, 64, 0), but its cuboid spans x from -32.1 to 32.1 and y only from 24 to 40, and
holds neither end point. -/
theorem createBridge_along_y_misses_faces :
    (createBridge sqrtApprox defaultBridgeTool worldBounds4096 "material"
        [bridgeFaceNear, bridgeFaceFar]).map (fun nodes => nodes.map Polyhedron.bounds) =
      some [some ⟨⟨-321 / 10, 24, -8⟩, ⟨321 / 10, 40, 8⟩⟩] ∧
    segmentEnds sqrtApprox defaultBridgeTool bridgeFaceNear.boundsCenter
        bridgeFaceFar.boundsCenter 16 0 = (⟨0, 0, 0⟩, ⟨0, 64, 0⟩) ∧
    BBox.contains ⟨⟨-321 / 10, 24, -8⟩, ⟨321 / 10, 40, 8⟩⟩ ⟨0, 0, 0⟩ = false ∧
    BBox.contains ⟨⟨-321 / 10, 24, -8⟩, ⟨321 / 10, 40, 8⟩⟩ ⟨0, 64, 0⟩ = false := by
  decide!

/-- The alignment of a selection without group nodes by alignObjects, provided every
translation it makes succeeds. With two or more
nodes, or with `alignToFirst`, every selected node ends with its reference position
(min, centre or max of its bounds on the axis) within 0.001 of the target, which is the
reference position of the first node when `alignToFirst` is set and of the bounds of
the selection otherwise; its kind and its bounds on the two other axes are unchanged.
With `alignToFirst` the first node is not moved, and with fewer than two nodes and no
`alignToFirst` nothing changes. -/
theorem alignObjects_aligns_without_groups (worldBounds : BBox) (axis : Fin 3)
    (mode : AlignMode) (alignToFirst : Bool) (nodes : List Node)
    (hg : ∀ n ∈ nodes, n.kind ≠ NodeKind.Group)
    (hok : ∀ n ∈ nodes, moveSucceeds worldBounds axis
      (alignTargetPos axis mode alignToFirst nodes) (refPos mode axis n.bounds) n = true) :
    (¬ (nodes.length < 2 ∧ alignToFirst = false) →
      List.Forall₂ (fun n n' =>
        |refPos mode axis n'.bounds - alignTargetPos axis mode alignToFirst nodes| ≤ 1 / 1000 ∧
        n'.kind = n.kind ∧
        ∀ a : Fin 3, a ≠ axis →
          n'.bounds.min.get a = n.bounds.min.get a ∧ n'.bounds.max.get a = n.bounds.max.get a)
        nodes (alignObjects worldBounds axis mode alignToFirst nodes)) ∧
    (alignToFirst = true →
      (alignObjects worldBounds axis mode alignToFirst nodes).head? = nodes.head?) ∧
    (nodes.length < 2 ∧ alignToFirst = false →
      alignObjects worldBounds axis mode alignToFirst nodes = nodes) ∧
    (∀ (first : Node) (rest : List Node), nodes = first :: rest →
      alignTargetPos axis mode alignToFirst nodes =
        if alignToFirst = true then refPos mode axis first.bounds
        else refPos mode axis (selectionBounds nodes)) := by
  cases nodes with
  | nil => simp [alignObjects]
  | cons first rest =>
    have key : ∀ n ∈ first :: rest,
        (fun n n' : Node =>
          |refPos mode axis n'.bounds - alignTargetPos axis mode alignToFirst (first :: rest)|
            ≤ 1 / 1000 ∧ n'.kind = n.kind ∧
          ∀ a : Fin 3, a ≠ axis →
            n'.bounds.min.get a = n.bounds.min.get a ∧ n'.bounds.max.get a = n.bounds.max.get a)
          n (moveTo worldBounds axis (alignTargetPos axis mode alignToFirst (first :: rest))
            (refPos mode axis n.bounds) n) :=
      fun n hn => moveTo_spec worldBounds mode axis _ n (hg n hn) (hok n hn)
    refine ⟨?_, ?_, ?_, ?_⟩
    · intro hne
      unfold alignObjects
      have hc : ((first :: rest).length < 2 && !alignToFirst) = false := by
        cases alignToFirst <;> simp_all
      simp only [hc, Bool.false_eq_true, if_false]
      cases hA : alignToFirst
      · simp only [Bool.false_eq_true, if_false]
        rw [List.forall₂_map_right_iff, List.forall₂_same]
        intro n hn
        have := key n hn
        rw [hA] at this
        exact this
      · simp only [if_true]
        refine List.Forall₂.cons ?_ ?_
        · refine ⟨?_, rfl, fun _ _ => ⟨rfl, rfl⟩⟩
          simp [alignTargetPos]
        · rw [List.forall₂_map_right_iff, List.forall₂_same]
          intro n hn
          have := key n (List.mem_cons_of_mem _ hn)
          rw [hA] at this
          exact this
    · intro hA
      subst hA
      simp [alignObjects]
    · rintro ⟨hlen, hA⟩
      subst hA
      have hc : ((first :: rest).length < 2 && !false) = true := by simpa using hlen
      simp only [alignObjects, hc, if_true]
    · intro first' rest' he
      cases he
      rfl

/-- C8, the code at the failing input: a brush with bounds [-8, 8], a point entity with
bounds [46, 54] and a group with bounds [98, 102] on the x axis, aligned by their min
without `alignToFirst`. The target is -8 and no translation fails; the entity is moved
to [-8, 0], but the group, whose children the visitor does not visit, stays at
[98, 102], its min 106 away from the target. -/
theorem alignObjects_leaves_group :
    alignTargetPos 0 AlignMode.Min false mixedSelection = -8 ∧
    (mixedSelection.all (fun n =>
      moveSucceeds worldBounds4096 0 (-8) (refPos AlignMode.Min 0 n.bounds) n)) = true ∧
    alignObjects worldBounds4096 0 AlignMode.Min false mixedSelection =
      [boxNode NodeKind.Brush 0 8, boxNode NodeKind.Entity (-4) 4,
        boxNode NodeKind.Group 100 2] ∧
    refPos AlignMode.Min 0 (boxNode NodeKind.Group 100 2).bounds - (-8) = 106 := by
  decide!

/-- The even distribution of nodes other than groups by distributeObjects. With fewer
than three nodes nothing
changes; otherwise the nodes are sorted by their centres on the axis and the loop runs
on the sorted vector. For every order `front :: mid ++ [back]` of three or more nodes
the sort may give, and provided every translation made succeeds, the first and the last
node are not moved and the node at place i + 1 ends with its centre within 0.001 of
`c_0 + (i + 1) * (c_last - c_0) / (n - 1)`, its kind and its bounds on the other axes
unchanged. -/
theorem distributeObjects_even_without_groups (worldBounds : BBox) (axis : Fin 3) (spacing : ℚ)
    (nodes : List Node) :
    List.Perm (sortByCenter axis nodes) nodes ∧
    List.Sorted (fun a b => a.centerOn axis ≤ b.centerOn axis) (sortByCenter axis nodes) ∧
    (∀ useSpacing : Bool, 3 ≤ nodes.length →
      distributeObjects worldBounds axis useSpacing spacing nodes =
        distributeSorted worldBounds axis useSpacing spacing (sortByCenter axis nodes)) ∧
    (∀ (front back : Node) (mid : List Node), mid ≠ [] →
      (∀ n ∈ mid, n.kind ≠ NodeKind.Group) →
      (∀ q ∈ mid.enum,
        moveSucceeds worldBounds axis
          (front.centerOn axis + ((q.1 + 1 : Nat) : ℚ) *
            (back.centerOn axis - front.centerOn axis) / ((mid.length + 1 : Nat) : ℚ))
          (q.2.centerOn axis) q.2 = true) →
      ∃ mid' : List Node,
        distributeSorted worldBounds axis false spacing (front :: (mid ++ [back])) =
          front :: (mid' ++ [back]) ∧
        mid'.length = mid.length ∧
        ∀ (i : Nat) (n : Node), mid[i]? = some n →
          ∃ n', mid'[i]? = some n' ∧
            |n'.centerOn axis - (front.centerOn axis + ((i + 1 : Nat) : ℚ) *
              (back.centerOn axis - front.centerOn axis) / ((mid.length + 1 : Nat) : ℚ))|
              ≤ 1 / 1000 ∧
            n'.kind = n.kind ∧
            ∀ a : Fin 3, a ≠ axis →
              n'.bounds.min.get a = n.bounds.min.get a ∧
              n'.bounds.max.get a = n.bounds.max.get a) ∧
    (∀ useSpacing : Bool, nodes.length < 3 →
      distributeObjects worldBounds axis useSpacing spacing nodes = nodes) := by
  haveI : IsTotal Node (fun a b => a.centerOn axis ≤ b.centerOn axis) :=
    ⟨fun a b => le_total _ _⟩
  haveI : IsTrans Node (fun a b => a.centerOn axis ≤ b.centerOn axis) :=
    ⟨fun a b c hab hbc => le_trans hab hbc⟩
  refine ⟨List.perm_insertionSort _ nodes, List.sorted_insertionSort _ nodes, ?_, ?_, ?_⟩
  · intro useSpacing hge
    unfold distributeObjects
    rw [if_neg (by omega)]
  · intro front back mid hmid hg hok
    rw [distributeSorted_unfold worldBounds axis false spacing front back mid hmid]
    refine ⟨_, rfl, by simp, ?_⟩
    intro i n hin
    have hi : i < mid.length := (List.getElem?_eq_some.mp hin).1
    have htarget : front.centerOn axis +
        (if false = true then spacing
         else (back.centerOn axis - front.centerOn axis) / ((mid.length + 1 : Nat) : ℚ)) *
          ((1 + i : Nat) : ℚ) =
        front.centerOn axis + ((i + 1 : Nat) : ℚ) *
          (back.centerOn axis - front.centerOn axis) / ((mid.length + 1 : Nat) : ℚ) := by
      simp only [Bool.false_eq_true, if_false]
      push_cast
      ring
    refine ⟨moveTo worldBounds axis (front.centerOn axis + ((i + 1 : Nat) : ℚ) *
        (back.centerOn axis - front.centerOn axis) / ((mid.length + 1 : Nat) : ℚ))
        (n.centerOn axis) n, ?_,
      moveTo_center_spec worldBounds axis _ n (hg n (List.getElem?_mem hin))
        (hok (i, n) (List.mk_mem_enum_iff_getElem?.mpr hin))⟩
    rw [List.getElem?_map, List.getElem?_enumFrom, hin]
    simp only [Option.map_some', htarget]
  · intro useSpacing hlt
    unfold distributeObjects
    rw [if_pos hlt]

/-- C9, the code at the failing input: a brush with centre 0, a group with centre 10 and
a brush with centre 100 on the x axis, distributed evenly. The place of the middle node
is 50 and no translation fails; but the middle node is the group, whose children the
visitor does not visit, and it stays at centre 10: the selection is left as it was. -/
theorem distributeObjects_leaves_group :
    sortByCenter 0
        [boxNode NodeKind.Brush 0 8, boxNode NodeKind.Group 10 2, boxNode NodeKind.Brush 100 8] =
      [boxNode NodeKind.Brush 0 8, boxNode NodeKind.Group 10 2, boxNode NodeKind.Brush 100 8] ∧
    (boxNode NodeKind.Brush 0 8).centerOn 0 + 1 *
        ((boxNode NodeKind.Brush 100 8).centerOn 0 - (boxNode NodeKind.Brush 0 8).centerOn 0) / 2 =
      50 ∧
    moveSucceeds worldBounds4096 0 50 ((boxNode NodeKind.Group 10 2).centerOn 0)
      (boxNode NodeKind.Group 10 2) = true ∧
    distributeObjects worldBounds4096 0 false 0
        [boxNode NodeKind.Brush 0 8, boxNode NodeKind.Group 10 2, boxNode NodeKind.Brush 100 8] =
      [boxNode NodeKind.Brush 0 8, boxNode NodeKind.Group 10 2, boxNode NodeKind.Brush 100 8] ∧
    (boxNode NodeKind.Group 10 2).centerOn 0 = 10 := by
  decide!

/-- C10, the code at the failing input: three brush nodes with centres 0, 50 and 100
on the x axis, distributed with `useSpacing` and spacing 10. The middle node is moved
to 10, the last node stays at 100: the first gap is 10, the last gap is 90. -/
theorem distributeObjects_spacing_last_gap :
    distributeObjects worldBounds4096 0 true 10
        [boxNode NodeKind.Brush 0 8, boxNode NodeKind.Brush 50 8, boxNode NodeKind.Brush 100 8] =
      [boxNode NodeKind.Brush 0 8, boxNode NodeKind.Brush 10 8, boxNode NodeKind.Brush 100 8] ∧
    (boxNode NodeKind.Brush 10 8).centerOn 0 - (boxNode NodeKind.Brush 0 8).centerOn 0 = 10 ∧
    (boxNode NodeKind.Brush 100 8).centerOn 0 - (boxNode NodeKind.Brush 10 8).centerOn 0 = 90 := by
  decide!

/-- What `moveTo` does to a node whose min on the axis is the current position. -/
theorem moveTo_min_spec (worldBounds : BBox) (axis : Fin 3) (targetPos : ℚ) (node : Node)
    (hg : node.kind ≠ NodeKind.Group)
    (h : moveSucceeds worldBounds axis targetPos (node.bounds.min.get axis) node = true) :
    (moveTo worldBounds axis targetPos (node.bounds.min.get axis) node).kind = node.kind ∧
    (∀ a : Fin 3, a ≠ axis →
      (moveTo worldBounds axis targetPos (node.bounds.min.get axis) node).bounds.min.get a
        = node.bounds.min.get a ∧
      (moveTo worldBounds axis targetPos (node.bounds.min.get axis) node).bounds.max.get a
        = node.bounds.max.get a) ∧
    (|targetPos - node.bounds.min.get axis| > 1 / 1000 →
      (moveTo worldBounds axis targetPos (node.bounds.min.get axis) node).bounds.min.get axis
        = targetPos ∧
      (moveTo worldBounds axis targetPos (node.bounds.min.get axis) node).bounds.max.get axis
        = node.bounds.max.get axis + (targetPos - node.bounds.min.get axis)) ∧
    (¬ |targetPos - node.bounds.min.get axis| > 1 / 1000 →
      moveTo worldBounds axis targetPos (node.bounds.min.get axis) node = node) := by
  unfold moveTo
  unfold moveSucceeds at h
  by_cases hd : |targetPos - node.bounds.min.get axis| > 1 / 1000
  · rw [if_pos hd]
    have hs : node.kind = NodeKind.Brush →
        (transformBounds worldBounds (axisTranslation axis (targetPos - node.bounds.min.get axis))
          node.bounds).is_success = true := by
      intro hk
      rw [if_pos ⟨hd, hk⟩] at h
      exact h
    obtain ⟨hb, hk⟩ := transformNode_bounds worldBounds _ node hg hs
    rw [hb]
    refine ⟨hk, ?_, ?_, fun hn => absurd hd hn⟩
    · intro a ha
      simp only [BBox.translate, Vec3.get_add, axisTranslation_get, if_neg ha, add_zero,
        and_self]
    · intro _
      simp only [BBox.translate, Vec3.get_add, axisTranslation_get, eq_self_iff_true, if_true]
      exact ⟨by ring, trivial⟩
  · rw [if_neg hd]
    exact ⟨rfl, fun a _ => ⟨rfl, rfl⟩, fun hp => absurd hp hd, fun _ => rfl⟩

theorem stackFrom_chain (worldBounds : BBox) (axis : Fin 3) (gap : ℚ) :
    ∀ (rest : List Node) (nextPos : ℚ) (prev : Node),
      (∀ n ∈ rest, n.kind ≠ NodeKind.Group) →
      |nextPos - (prev.bounds.max.get axis + gap)| ≤ 1 / 1000 →
      stackSucceeds worldBounds axis gap nextPos rest = true →
      List.Chain
        (fun a b : Node => |b.bounds.min.get axis - (a.bounds.max.get axis + gap)| ≤ 2 / 1000)
        prev (stackFrom worldBounds axis gap nextPos rest) := by
  intro rest
  induction rest with
  | nil => intro nextPos prev _ _ _; exact List.Chain.nil
  | cons node rest ih =>
    intro nextPos prev hg he hok
    have hg' : ∀ n ∈ rest, n.kind ≠ NodeKind.Group :=
      fun n hn => hg n (List.mem_cons_of_mem node hn)
    simp only [stackSucceeds, Bool.and_eq_true] at hok
    obtain ⟨_, _, hmoved, hstay⟩ := moveTo_min_spec worldBounds axis nextPos node
      (hg node (List.mem_cons_self node rest)) hok.1
    simp only [stackFrom]
    rw [abs_le] at he
    by_cases hd : |nextPos - node.bounds.min.get axis| > 1 / 1000
    · obtain ⟨hmin, hmax⟩ := hmoved hd
      refine List.Chain.cons ?_ (ih _ _ hg' ?_ hok.2)
      · rw [hmin, abs_le]
        constructor <;> linarith
      · rw [hmax, abs_le]
        constructor <;> linarith
    · have hnode := hstay hd
      rw [hnode]
      have hd' : |nextPos - node.bounds.min.get axis| ≤ 1 / 1000 := not_lt.mp hd
      rw [abs_le] at hd'
      refine List.Chain.cons ?_ (ih _ _ hg' ?_ hok.2)
      · rw [abs_le]
        constructor <;> linarith
      · rw [abs_le]
        constructor <;> linarith

theorem stackFrom_chain_exact (worldBounds : BBox) (axis : Fin 3) (gap : ℚ) :
    ∀ (rest : List Node) (nextPos : ℚ) (prev : Node),
      (∀ n ∈ rest, n.kind ≠ NodeKind.Group) →
      nextPos = prev.bounds.max.get axis + gap →
      stackSucceeds worldBounds axis gap nextPos rest = true →
      stackAllMoved axis gap nextPos rest = true →
      List.Chain (fun a b : Node => b.bounds.min.get axis = a.bounds.max.get axis + gap)
        prev (stackFrom worldBounds axis gap nextPos rest) := by
  intro rest
  induction rest with
  | nil => intro nextPos prev _ _ _ _; exact List.Chain.nil
  | cons node rest ih =>
    intro nextPos prev hg he hok hall
    have hg' : ∀ n ∈ rest, n.kind ≠ NodeKind.Group :=
      fun n hn => hg n (List.mem_cons_of_mem node hn)
    simp only [stackSucceeds, Bool.and_eq_true] at hok
    simp only [stackAllMoved, Bool.and_eq_true, decide_eq_true_eq] at hall
    obtain ⟨_, _, hmoved, _⟩ := moveTo_min_spec worldBounds axis nextPos node
      (hg node (List.mem_cons_self node rest)) hok.1
    obtain ⟨hmin, hmax⟩ := hmoved hall.1
    simp only [stackFrom]
    refine List.Chain.cons ?_ (ih _ _ hg' ?_ hok.2 hall.2)
    · rw [hmin, he]
    · rw [hmax]

theorem stackFrom_forall₂ (worldBounds : BBox) (axis : Fin 3) (gap : ℚ) :
    ∀ (rest : List Node) (nextPos : ℚ),
      (∀ n ∈ rest, n.kind ≠ NodeKind.Group) →
      stackSucceeds worldBounds axis gap nextPos rest = true →
      List.Forall₂ (fun n n' : Node =>
        n'.kind = n.kind ∧
        n'.bounds.max.get axis - n'.bounds.min.get axis =
          n.bounds.max.get axis - n.bounds.min.get axis ∧
        ∀ a : Fin 3, a ≠ axis →
          n'.bounds.min.get a = n.bounds.min.get a ∧ n'.bounds.max.get a = n.bounds.max.get a)
        rest (stackFrom worldBounds axis gap nextPos rest) := by
  intro rest
  induction rest with
  | nil => intro nextPos _ _; exact List.Forall₂.nil
  | cons node rest ih =>
    intro nextPos hg hok
    have hg' : ∀ n ∈ rest, n.kind ≠ NodeKind.Group :=
      fun n hn => hg n (List.mem_cons_of_mem node hn)
    simp only [stackSucceeds, Bool.and_eq_true] at hok
    obtain ⟨hk, hother, hmoved, hstay⟩ := moveTo_min_spec worldBounds axis nextPos node
      (hg node (List.mem_cons_self node rest)) hok.1
    simp only [stackFrom]
    refine List.Forall₂.cons ⟨hk, ?_, hother⟩ (ih _ hg' hok.2)
    by_cases hd : |nextPos - node.bounds.min.get axis| > 1 / 1000
    · obtain ⟨hmin, hmax⟩ := hmoved hd
      rw [hmin, hmax]
      ring
    · rw [hstay hd]

/-- The stacking of nodes other than groups by stackObjects. With fewer than two nodes
nothing changes; otherwise the nodes are
sorted by the min of their bounds on the axis and the loop runs on the sorted vector.
For every order `front :: rest` the sort may give, and provided every translation made
succeeds, the first node is not moved, the min of every later node ends within 0.002 of
the final max of the node before it plus the gap (exactly there when every computed
delta exceeds 0.001), and every node keeps its kind, its extent on the axis and its
bounds on the other axes. -/
theorem stackObjects_gap_without_groups (worldBounds : BBox) (axis : Fin 3) (gap : ℚ) (nodes : List Node) :
    List.Perm (sortByMin axis nodes) nodes ∧
    List.Sorted (fun a b => a.bounds.min.get axis ≤ b.bounds.min.get axis)
      (sortByMin axis nodes) ∧
    (2 ≤ nodes.length →
      stackObjects worldBounds axis gap nodes =
        stackSorted worldBounds axis gap (sortByMin axis nodes)) ∧
    (∀ (front : Node) (rest : List Node),
      (∀ n ∈ rest, n.kind ≠ NodeKind.Group) →
      stackSucceeds worldBounds axis gap (front.bounds.max.get axis + gap) rest = true →
      ∃ rest' : List Node,
        stackSorted worldBounds axis gap (front :: rest) = front :: rest' ∧
        List.Chain'
          (fun a b : Node => |b.bounds.min.get axis - (a.bounds.max.get axis + gap)| ≤ 2 / 1000)
          (front :: rest') ∧
        (stackAllMoved axis gap (front.bounds.max.get axis + gap) rest = true →
          List.Chain'
            (fun a b : Node => b.bounds.min.get axis = a.bounds.max.get axis + gap)
            (front :: rest')) ∧
        List.Forall₂ (fun n n' : Node =>
          n'.kind = n.kind ∧
          n'.bounds.max.get axis - n'.bounds.min.get axis =
            n.bounds.max.get axis - n.bounds.min.get axis ∧
          ∀ a : Fin 3, a ≠ axis →
            n'.bounds.min.get a = n.bounds.min.get a ∧
            n'.bounds.max.get a = n.bounds.max.get a) rest rest') ∧
    (nodes.length < 2 → stackObjects worldBounds axis gap nodes = nodes) := by
  haveI : IsTotal Node (fun a b => a.bounds.min.get axis ≤ b.bounds.min.get axis) :=
    ⟨fun a b => le_total _ _⟩
  haveI : IsTrans Node (fun a b => a.bounds.min.get axis ≤ b.bounds.min.get axis) :=
    ⟨fun a b c hab hbc => le_trans hab hbc⟩
  refine ⟨List.perm_insertionSort _ nodes, List.sorted_insertionSort _ nodes, ?_, ?_, ?_⟩
  · intro hge
    unfold stackObjects
    rw [if_neg (by omega)]
  · intro front rest hg hok
    refine ⟨stackFrom worldBounds axis gap (front.bounds.max.get axis + gap) rest, rfl, ?_, ?_,
      stackFrom_forall₂ worldBounds axis gap rest _ hg hok⟩
    · exact stackFrom_chain worldBounds axis gap rest _ front hg (by norm_num) hok
    · intro hall
      exact stackFrom_chain_exact worldBounds axis gap rest _ front hg rfl hok hall
  · intro hlt
    unfold stackObjects
    rw [if_pos hlt]

/-- C11, the code at the failing input: a brush with bounds [-8, 8], a group with bounds
[98, 102] and a brush with bounds [192, 208] on the x axis, stacked with gap 2. No
translation fails. The group should come to [10, 14], but its children are not visited
and it stays at [98, 102], 88 from its place; `nextPos` goes on as if it had moved, and
the last brush is put at [16, 32], 88 below the max of the group plus the gap. -/
theorem stackObjects_leaves_group :
    sortByMin 0
        [boxNode NodeKind.Brush 0 8, boxNode NodeKind.Group 100 2, boxNode NodeKind.Brush 200 8] =
      [boxNode NodeKind.Brush 0 8, boxNode NodeKind.Group 100 2, boxNode NodeKind.Brush 200 8] ∧
    stackSucceeds worldBounds4096 0 2 ((boxNode NodeKind.Brush 0 8).bounds.max.get 0 + 2)
      [boxNode NodeKind.Group 100 2, boxNode NodeKind.Brush 200 8] = true ∧
    stackObjects worldBounds4096 0 2
        [boxNode NodeKind.Brush 0 8, boxNode NodeKind.Group 100 2, boxNode NodeKind.Brush 200 8] =
      [boxNode NodeKind.Brush 0 8, boxNode NodeKind.Group 100 2, boxNode NodeKind.Brush 24 8] ∧
    (boxNode NodeKind.Group 100 2).bounds.min.get 0 -
        ((boxNode NodeKind.Brush 0 8).bounds.max.get 0 + 2) = 88 ∧
    (boxNode NodeKind.Brush 24 8).bounds.min.get 0 -
        ((boxNode NodeKind.Group 100 2).bounds.max.get 0 + 2) = -88 := by
  decide!

theorem Mat4.apply_translation (d p : Vec3) :
    (translation_matrix d).apply p = Vec3.add p d := by
  simp [Mat4.apply, translation_matrix, Vec4.dot, Vec3.add]

theorem Map.added_nil (map : Map) : map.added [] = (map, []) := by
  cases map
  simp [Map.added, Map.addNodes]

theorem Map.added_getElem? (base : Map) (extra : List MapNode) (s : Nat)
    (hs : s < base.nodes.length) : (base.added extra).1.nodes[s]? = base.nodes[s]? := by
  simp only [Map.added, Map.addNodes]
  exact List.getElem?_append_left hs

theorem Map.added_push (base : Map) (extra new : List MapNode) :
    ((base.added extra).1.addNodes new,
      (base.added extra).2 ++ List.range' (base.added extra).1.nodes.length new.length) =
      base.added (extra ++ new) := by
  simp only [Map.added, Map.addNodes, List.append_assoc, List.length_append, Prod.mk.injEq,
    true_and]
  rw [List.range'_append_1, Nat.add_comm]

theorem Map.added_push_one (base : Map) (extra : List MapNode) (n : MapNode) :
    ((base.added extra).1.addNodes [n], (base.added extra).2 ++ [(base.added extra).1.nodes.length]) =
      base.added (extra ++ [n]) := by
  have h := Map.added_push base extra [n]
  simpa using h

theorem Map.added_worldBounds (base : Map) (extra : List MapNode) :
    (base.added extra).1.worldBounds = base.worldBounds := rfl

/-- A loop whose body adds nodes to the map adds the nodes of its rounds in turn. -/
theorem foldl_added {α : Type} (base : Map) (G : Map × List Nat → α → Map × List Nat)
    (c : α → List MapNode) :
    ∀ (l : List α),
      (∀ a ∈ l, ∀ extra, G (base.added extra) a = base.added (extra ++ c a)) →
      ∀ extra, l.foldl G (base.added extra) = base.added (extra ++ l.flatMap c) := by
  intro l
  induction l with
  | nil => intro _ extra; simp
  | cons a l ih =>
    intro h extra
    rw [List.foldl_cons, h a (List.mem_cons_self a l) extra,
      ih (fun b hb => h b (List.mem_cons_of_mem a hb)), List.flatMap_cons, List.append_assoc]

theorem duplicateNode_added (base : Map) (extra : List MapNode) (transform : Mat4) (s : Nat)
    (hs : s < base.nodes.length) :
    duplicateNode transform (base.added extra) s =
      base.added (extra ++
        ((base.nodes[s]?).bind (copyNode base.worldBounds transform)).toList) := by
  unfold duplicateNode
  rw [Map.added_getElem? base extra s hs, Map.added_worldBounds]
  rw [List.getElem?_eq_getElem hs]
  simp only [Option.some_bind]
  cases hc : copyNode base.worldBounds transform base.nodes[s] with
  | none => simp
  | some n =>
    simp only [Option.toList_some]
    exact Map.added_push_one base extra n

theorem selection_flatMap (map : Map) (f : MapNode → Option MapNode) :
    map.selection.flatMap (fun s => ((map.nodes[s]?).bind f).toList) =
      map.selectedNodes.filterMap f := by
  unfold Map.selectedNodes
  induction map.selection with
  | nil => rfl
  | cons s l ih =>
    rw [List.flatMap_cons, ih, List.filterMap_cons]
    cases map.nodes[s]? with
    | none => simp
    | some n =>
      simp only [Option.some_bind, List.filterMap_cons]
      cases f n <;> simp

/-- One round of the loop over the nodes to duplicate in applyGridArray and
applyRadialArray. -/
theorem foldl_duplicateNode (base : Map) (hv : base.selectionValid) (transform : Mat4)
    (extra : List MapNode) :
    base.selection.foldl (duplicateNode transform) (base.added extra) =
      base.added (extra ++
        base.selectedNodes.filterMap (copyNode base.worldBounds transform)) := by
  rw [← selection_flatMap]
  exact foldl_added base (duplicateNode transform) _ base.selection
    (fun s hs extra' => duplicateNode_added base extra' transform s (hv s hs)) extra

theorem copyNode_translation (worldBounds : BBox) (d : Vec3) (n n' : MapNode)
    (h : copyNode worldBounds (translation_matrix d) n = some n') : n' = n.translate d := by
  have hmap : ∀ l : List Vec3,
      l.map (translation_matrix d).apply = l.map (fun v => Vec3.add v d) := by
    intro l
    apply List.map_congr_left
    intro v _
    exact Mat4.apply_translation d v
  unfold copyNode at h
  unfold MapNode.translate
  cases hc : n.contents with
  | World => rw [hc] at h; simp at h
  | Layer => rw [hc] at h; simp at h
  | Group g => rw [hc] at h; simp only [Option.some.injEq] at h; exact h.symm
  | Entity e =>
    rw [hc] at h
    simp only [Option.some.injEq, Mat4.apply_translation] at h
    exact h.symm
  | Brush b =>
    rw [hc] at h
    unfold transformBrush at h
    dsimp only at h
    by_cases hw : (List.map (translation_matrix d).apply b).all worldBounds.contains = true
    · rw [if_pos hw] at h
      simp only [Option.some.injEq, hmap] at h
      exact h.symm
    · rw [if_neg hw] at h
      simp at h
  | Patch p =>
    rw [hc] at h
    simp only [Option.some.injEq, hmap] at h
    exact h.symm

theorem arrayCopies_gridCells (map : Map) (countX countY countZ : Nat)
    (F : Nat → Nat → Nat → Mat4) :
    (List.range countX).flatMap (fun x =>
      (List.range countY).flatMap (fun y =>
        (List.range countZ).flatMap (fun z =>
          if x = 0 ∧ y = 0 ∧ z = 0 then []
          else map.selectedNodes.filterMap (copyNode map.worldBounds (F x y z))))) =
      arrayCopies map ((gridCells countX countY countZ).map (fun c => F c.1 c.2.1 c.2.2)) := by
  unfold arrayCopies gridCells
  simp only [List.flatMap_map, List.flatMap_assoc]
  apply List.flatMap_congr
  intro x _
  apply List.flatMap_congr
  intro y _
  apply List.flatMap_congr
  intro z _
  split_ifs <;> simp

theorem mem_gridCells (countX countY countZ x y z : Nat) :
    (x, y, z) ∈ gridCells countX countY countZ ↔
      x < countX ∧ y < countY ∧ z < countZ ∧ ¬ (x = 0 ∧ y = 0 ∧ z = 0) := by
  unfold gridCells
  simp only [List.mem_flatMap, List.mem_range]
  constructor
  · rintro ⟨a, ha, b, hb, c, hc, hm⟩
    split_ifs at hm with h0
    · simp at hm
    · simp only [List.mem_singleton, Prod.mk.injEq] at hm
      obtain ⟨rfl, rfl, rfl⟩ := hm
      exact ⟨ha, hb, hc, h0⟩
  · rintro ⟨hx, hy, hz, h0⟩
    exact ⟨x, hx, y, hy, z, hz, by rw [if_neg h0]; simp⟩

theorem isEmpty_eq_false_of_ne_nil {α : Type} (l : List α) (h : l ≠ []) : l.isEmpty = false := by
  cases l with
  | nil => exact absurd rfl h
  | cons a l => rfl

/-- The loops of applyGridArray add the new nodes cell by cell. -/
theorem applyGridArray_closed (groupSelectedNodes : Map → String → Map) (bounds : BBox)
    (map : Map) (countX countY countZ : Int) (spacingX spacingY spacingZ : ℚ)
    (groupResult : Bool) (hne : map.selection ≠ []) (hv : map.selectionValid) :
    applyGridArray groupSelectedNodes bounds map countX countY countZ spacingX spacingY
        spacingZ groupResult =
      finishArray groupSelectedNodes "Grid Array" map.selection groupResult
        (map.added (arrayCopies map
          ((gridCells countX.toNat countY.toNat countZ.toNat).map (fun c =>
            translation_matrix
              (gridTranslation bounds spacingX spacingY spacingZ c.1 c.2.1 c.2.2))))) := by
  have hz : ∀ (x y : Nat) (extra : List MapNode),
      (List.range countZ.toNat).foldl (fun st z =>
          if x = 0 ∧ y = 0 ∧ z = 0 then st
          else map.selection.foldl (duplicateNode (translation_matrix
            (gridTranslation bounds spacingX spacingY spacingZ x y z))) st) (map.added extra) =
        map.added (extra ++ (List.range countZ.toNat).flatMap (fun z =>
          if x = 0 ∧ y = 0 ∧ z = 0 then []
          else map.selectedNodes.filterMap (copyNode map.worldBounds (translation_matrix
            (gridTranslation bounds spacingX spacingY spacingZ x y z))))) := by
    intro x y extra
    refine foldl_added map _ _ _ ?_ extra
    intro z _ extra'
    by_cases h0 : x = 0 ∧ y = 0 ∧ z = 0
    · simp only [if_pos h0, List.append_nil]
    · simp only [if_neg h0]
      exact foldl_duplicateNode map hv _ extra'
  have hy : ∀ (x : Nat) (extra : List MapNode),
      (List.range countY.toNat).foldl (fun st y =>
          (List.range countZ.toNat).foldl (fun st z =>
            if x = 0 ∧ y = 0 ∧ z = 0 then st
            else map.selection.foldl (duplicateNode (translation_matrix
              (gridTranslation bounds spacingX spacingY spacingZ x y z))) st) st)
          (map.added extra) =
        map.added (extra ++ (List.range countY.toNat).flatMap (fun y =>
          (List.range countZ.toNat).flatMap (fun z =>
            if x = 0 ∧ y = 0 ∧ z = 0 then []
            else map.selectedNodes.filterMap (copyNode map.worldBounds (translation_matrix
              (gridTranslation bounds spacingX spacingY spacingZ x y z)))))) := by
    intro x extra
    exact foldl_added map _ _ _ (fun y _ extra' => hz x y extra') extra
  have hx : ∀ (extra : List MapNode),
      (List.range countX.toNat).foldl (fun st x =>
          (List.range countY.toNat).foldl (fun st y =>
            (List.range countZ.toNat).foldl (fun st z =>
              if x = 0 ∧ y = 0 ∧ z = 0 then st
              else map.selection.foldl (duplicateNode (translation_matrix
                (gridTranslation bounds spacingX spacingY spacingZ x y z))) st) st) st)
          (map.added extra) =
        map.added (extra ++ (List.range countX.toNat).flatMap (fun x =>
          (List.range countY.toNat).flatMap (fun y =>
            (List.range countZ.toNat).flatMap (fun z =>
              if x = 0 ∧ y = 0 ∧ z = 0 then []
              else map.selectedNodes.filterMap (copyNode map.worldBounds (translation_matrix
                (gridTranslation bounds spacingX spacingY spacingZ x y z))))))) := by
    intro extra
    exact foldl_added map _ _ _ (fun x _ extra' => hy x extra') extra
  unfold applyGridArray
  rw [isEmpty_eq_false_of_ne_nil _ hne]
  simp only [Bool.false_eq_true, if_false]
  rw [← Map.added_nil map, hx [], List.nil_append,
    arrayCopies_gridCells map countX.toNat countY.toNat countZ.toNat
      (fun x y z => translation_matrix (gridTranslation bounds spacingX spacingY spacingZ x y z))]

/-- The loop of applyRadialArray adds the new nodes copy by copy. -/
theorem applyRadialArray_closed (pi : ℚ) (rotation_matrix : Vec3 → ℚ → Mat4)
    (groupSelectedNodes : Map → String → Map) (map : Map) (count : Int) (center : Vec3)
    (axis : Fin 3) (totalAngle : ℚ) (groupResult : Bool) (hcount : 1 ≤ count)
    (hne : map.selection ≠ []) (hv : map.selectionValid) :
    applyRadialArray pi rotation_matrix groupSelectedNodes map count center axis totalAngle
        groupResult =
      finishArray groupSelectedNodes "Radial Array" map.selection groupResult
        (map.added (arrayCopies map
          ((List.range count.toNat).map (fun k =>
            radialTransform pi rotation_matrix count center axis totalAngle (k + 1))))) := by
  have hk : ∀ (extra : List MapNode),
      (List.range count.toNat).foldl (fun st k =>
          map.selection.foldl (duplicateNode
            (radialTransform pi rotation_matrix count center axis totalAngle (k + 1))) st)
          (map.added extra) =
        map.added (extra ++ (List.range count.toNat).flatMap (fun k =>
          map.selectedNodes.filterMap (copyNode map.worldBounds
            (radialTransform pi rotation_matrix count center axis totalAngle (k + 1))))) := by
    intro extra
    exact foldl_added map _ _ _ (fun k _ extra' => foldl_duplicateNode map hv _ extra') extra
  unfold applyRadialArray
  rw [isEmpty_eq_false_of_ne_nil _ hne]
  have hc : ¬ count ≤ 0 := by omega
  simp only [Bool.false_eq_true, false_or, if_neg hc]
  rw [← Map.added_nil map, hk [], List.nil_append]
  unfold arrayCopies
  rw [List.flatMap_map]

theorem duplicateLinear_eq_duplicateNode (transform : Mat4) (st : Map × List Nat) (s : Nat)
    (h : ∀ n, st.1.nodes[s]? = some n → ∃ brush, n.contents = NodeContents.Brush brush) :
    duplicateLinear transform st s = duplicateNode transform st s := by
  unfold duplicateLinear duplicateNode
  cases hn : st.1.nodes[s]? with
  | none => rfl
  | some n =>
    obtain ⟨brush, hb⟩ := h n hn
    simp only [copyNode, hb]
    cases transformBrush st.1.worldBounds transform brush <;> rfl

theorem linearBrushesSucceed_spec (map : Map) (count : Nat) (offset : Vec3)
    (h : linearBrushesSucceed map count offset = true) :
    ∀ s ∈ map.selection, ∃ n brush, map.nodes[s]? = some n ∧
      n.contents = NodeContents.Brush brush ∧
      ∀ k < count,
        (transformBrush map.worldBounds
          (translation_matrix (Vec3.smul ((k + 1 : Nat) : ℚ) offset)) brush).is_success = true := by
  intro s hs
  unfold linearBrushesSucceed at h
  rw [List.all_eq_true] at h
  have hs' := h s hs
  cases hn : map.nodes[s]? with
  | none => rw [hn] at hs'; simp at hs'
  | some n =>
    rw [hn] at hs'
    dsimp only at hs'
    cases hc : n.contents with
    | Brush brush =>
      rw [hc] at hs'
      simp only [List.all_eq_true, List.mem_range] at hs'
      exact ⟨n, brush, rfl, hc, hs'⟩
    | World => rw [hc] at hs'; simp at hs'
    | Layer => rw [hc] at hs'; simp at hs'
    | Group g => rw [hc] at hs'; simp at hs'
    | Entity e => rw [hc] at hs'; simp at hs'
    | Patch p => rw [hc] at hs'; simp at hs'

theorem filterMap_eq_map_of_forall {α β : Type} (f : α → Option β) (g : α → β) :
    ∀ (l : List α), (∀ x ∈ l, f x = some (g x)) → l.filterMap f = l.map g := by
  intro l
  induction l with
  | nil => intro _; rfl
  | cons a l ih =>
    intro h
    rw [List.filterMap_cons, h a (List.mem_cons_self a l), List.map_cons,
      ih (fun x hx => h x (List.mem_cons_of_mem a hx))]

theorem mem_selectedNodes (map : Map) (n : MapNode) (h : n ∈ map.selectedNodes) :
    ∃ s ∈ map.selection, map.nodes[s]? = some n := by
  unfold Map.selectedNodes at h
  rw [List.mem_filterMap] at h
  exact h

theorem copyNode_brush_success (worldBounds : BBox) (transform : Mat4) (n : MapNode)
    (brush : List Vec3) (hc : n.contents = NodeContents.Brush brush)
    (hs : (transformBrush worldBounds transform brush).is_success = true) :
    ∃ n', copyNode worldBounds transform n = some n' := by
  unfold copyNode
  rw [hc]
  dsimp only
  cases ht : transformBrush worldBounds transform brush with
  | success moved => exact ⟨_, rfl⟩
  | error e => rw [ht] at hs; simp [Result.is_success] at hs

/-- One round of the loop over the nodes to duplicate in applyLinearArray, for brush
nodes whose transforms succeed. -/
theorem foldl_duplicateLinear (map : Map) (count : Nat) (offset : Vec3)
    (hok : linearBrushesSucceed map count offset = true) (k : Nat) (hk : k < count)
    (extra : List MapNode) :
    map.selection.foldl
        (duplicateLinear (translation_matrix (Vec3.smul ((k + 1 : Nat) : ℚ) offset)))
        (map.added extra) =
      map.added (extra ++
        map.selectedNodes.map (MapNode.translate (Vec3.smul ((k + 1 : Nat) : ℚ) offset))) := by
  have hspec := linearBrushesSucceed_spec map count offset hok
  have hstep : ∀ s ∈ map.selection, ∀ extra',
      duplicateLinear (translation_matrix (Vec3.smul ((k + 1 : Nat) : ℚ) offset))
          (map.added extra') s =
        map.added (extra' ++ ((map.nodes[s]?).bind (copyNode map.worldBounds
          (translation_matrix (Vec3.smul ((k + 1 : Nat) : ℚ) offset)))).toList) := by
    intro s hs extra'
    obtain ⟨n, brush, hn, hc, _⟩ := hspec s hs
    have hlt : s < map.nodes.length := (List.getElem?_eq_some.mp hn).1
    rw [duplicateLinear_eq_duplicateNode, duplicateNode_added map extra' _ s hlt]
    intro m hm
    rw [Map.added_getElem? map extra' s hlt, hn] at hm
    cases hm
    exact ⟨brush, hc⟩
  rw [foldl_added map _ _ map.selection hstep extra, selection_flatMap]
  congr 2
  apply filterMap_eq_map_of_forall
  intro n hn
  obtain ⟨s, hs, hsn⟩ := mem_selectedNodes map n hn
  obtain ⟨m, brush, hm, hc, hsucc⟩ := hspec s hs
  rw [hsn] at hm
  cases hm
  obtain ⟨n', hn'⟩ := copyNode_brush_success map.worldBounds _ n brush hc (hsucc k hk)
  rw [hn', copyNode_translation _ _ _ _ hn']

theorem filterMap_getElem?_length (nodes : List MapNode) :
    ∀ (l : List Nat), (∀ s ∈ l, s < nodes.length) →
      (l.filterMap (fun s => nodes[s]?)).length = l.length := by
  intro l
  induction l with
  | nil => intro _; rfl
  | cons s l ih =>
    intro hv
    have hs : s < nodes.length := hv s (List.mem_cons_self s l)
    rw [List.filterMap_cons, List.getElem?_eq_getElem hs]
    simp only [List.length_cons]
    rw [ih (fun t ht => hv t (List.mem_cons_of_mem s ht))]

theorem selectedNodes_length (map : Map) (hv : map.selectionValid) :
    map.selectedNodes.length = map.selection.length :=
  filterMap_getElem?_length map.nodes map.selection hv

theorem linearCopies_length (map : Map) (count : Nat) (offset : Vec3) :
    (linearCopies map count offset).length = count * map.selectedNodes.length := by
  unfold linearCopies
  induction count with
  | zero => simp
  | succ c ih =>
    rw [List.range_succ, List.flatMap_append, List.length_append, ih]
    simp only [List.flatMap_cons, List.flatMap_nil, List.append_nil, List.length_map]
    ring

/-- The loops of applyLinearArray add the new nodes copy by copy. -/
theorem applyLinearArray_closed (groupSelectedNodes : Map → String → Map) (map : Map)
    (count : Int) (offset : Vec3) (groupResult : Bool) (hcount : 1 ≤ count)
    (hne : map.selection ≠ [])
    (hok : linearBrushesSucceed map count.toNat offset = true) :
    applyLinearArray groupSelectedNodes map count offset groupResult =
      finishArray groupSelectedNodes "Array" map.selection groupResult
        (map.added (linearCopies map count.toNat offset)) := by
  have hk : ∀ (l : List Nat), (∀ k ∈ l, k < count.toNat) → ∀ (extra : List MapNode),
      l.foldl (fun st k =>
          map.selection.foldl
            (duplicateLinear (translation_matrix (Vec3.smul ((k + 1 : Nat) : ℚ) offset))) st)
          (map.added extra) =
        map.added (extra ++ l.flatMap (fun k =>
          map.selectedNodes.map
            (MapNode.translate (Vec3.smul ((k + 1 : Nat) : ℚ) offset)))) := by
    intro l hl extra
    exact foldl_added map _ _ l
      (fun k hkl extra' => foldl_duplicateLinear map count.toNat offset hok k (hl k hkl) extra')
      extra
  unfold applyLinearArray
  rw [isEmpty_eq_false_of_ne_nil _ hne]
  have hc : ¬ count ≤ 0 := by omega
  simp only [Bool.false_eq_true, false_or, if_neg hc]
  rw [← Map.added_nil map, hk _ (fun k hk' => List.mem_range.mp hk') [], List.nil_append]
  rfl

theorem finishArray_not_grouped (groupSelectedNodes : Map → String → Map) (name : String)
    (nodesToDuplicate : List Nat) (map : Map) (copies : List MapNode) :
    (finishArray groupSelectedNodes name nodesToDuplicate false (map.added copies)).nodes =
        map.nodes ++ copies ∧
      (finishArray groupSelectedNodes name nodesToDuplicate false (map.added copies)).worldBounds =
        map.worldBounds ∧
      (copies ≠ [] →
        (finishArray groupSelectedNodes name nodesToDuplicate false (map.added copies)).selection =
          List.range' map.nodes.length copies.length) := by
  unfold finishArray
  cases copies with
  | nil => simp [Map.added, Map.addNodes]
  | cons c cs => simp [Map.added, Map.addNodes, List.range'_succ]

theorem copyNode_transformed (worldBounds : BBox) (m : Mat4) (n n' : MapNode)
    (h : copyNode worldBounds m n = some n') : n' = n.transformed m := by
  unfold copyNode at h
  unfold MapNode.transformed
  cases hc : n.contents with
  | World => rw [hc] at h; simp at h
  | Layer => rw [hc] at h; simp at h
  | Group g => rw [hc] at h; simp only [Option.some.injEq] at h; exact h.symm
  | Entity e => rw [hc] at h; simp only [Option.some.injEq] at h; exact h.symm
  | Brush b =>
    rw [hc] at h
    unfold transformBrush at h
    dsimp only at h
    by_cases hw : (List.map m.apply b).all worldBounds.contains = true
    · rw [if_pos hw] at h
      simp only [Option.some.injEq] at h
      exact h.symm
    · rw [if_neg hw] at h
      simp at h
  | Patch p => rw [hc] at h; simp only [Option.some.injEq] at h; exact h.symm

theorem radialTransform_angle (pi : ℚ) (rotation_matrix : Vec3 → ℚ → Mat4) (count : Int)
    (center : Vec3) (axis : Fin 3) (totalAngle : ℚ) (i : Nat) :
    radialTransform pi rotation_matrix count center axis totalAngle i =
      ((translation_matrix center).mul
        (rotation_matrix (Vec3.axis axis)
          (to_radians pi ((i : ℚ) * totalAngle / (count : ℚ))))).mul
        (translation_matrix (Vec3.neg center)) := by
  unfold radialTransform
  have h : to_radians pi totalAngle / (count : ℚ) * (i : ℚ) =
      to_radians pi ((i : ℚ) * totalAngle / (count : ℚ)) := by
    unfold to_radians
    ring
  simp only [h]

theorem Mat4.apply_about (m : Mat4) (center p : Vec3) (h : m.isLinear) :
    (((translation_matrix center).mul m).mul (translation_matrix (Vec3.neg center))).apply p =
      Vec3.add center (m.apply (Vec3.sub p center)) := by
  obtain ⟨h0, h1, h2, h3⟩ := h
  obtain ⟨r0, r1, r2, r3⟩ := m
  simp only at h0 h1 h2 h3
  subst h3
  simp only [Mat4.apply, Mat4.mul, Mat4.mulRow, Mat4.c0, Mat4.c1, Mat4.c2, Mat4.c3,
    translation_matrix, Vec4.dot, Vec3.neg, Vec3.add, Vec3.sub, h0, h1, h2]
  simp only [Vec3.mk.injEq]
  refine ⟨?_, ?_, ?_⟩ <;> norm_num <;> ring

theorem Mat4.apply_zero (m : Mat4) (h : m.isLinear) : m.apply ⟨0, 0, 0⟩ = ⟨0, 0, 0⟩ := by
  obtain ⟨h0, h1, h2, h3⟩ := h
  simp [Mat4.apply, Vec4.dot, h0, h1, h2, h3]

theorem Vec3.sub_self_eq (v : Vec3) : Vec3.sub v v = ⟨0, 0, 0⟩ := by
  simp [Vec3.sub]

theorem Vec3.add_zero_eq (v : Vec3) : Vec3.add v ⟨0, 0, 0⟩ = v := by
  simp [Vec3.add]

/-- C12: applyLinearArray. For a count of at least 1 and a non-empty selection of brush
nodes whose transforms all succeed, the loops add, for i from 1 to count in turn, one
new node for every selected node, the node translated by i times the offset, after the
nodes of the map, which stay as they are: count new nodes for every selected node.
Without `groupResult` the new nodes are the selection afterwards; with it the originals
and the new nodes are selected and grouped. For a count of 0 or less, or an empty
selection, the map is returned unchanged. -/
theorem applyLinearArray_copies (groupSelectedNodes : Map → String → Map) (map : Map)
    (count : Int) (offset : Vec3) (groupResult : Bool) :
    (1 ≤ count → map.selection ≠ [] →
      linearBrushesSucceed map count.toNat offset = true →
      applyLinearArray groupSelectedNodes map count offset groupResult =
        finishArray groupSelectedNodes "Array" map.selection groupResult
          (map.added (linearCopies map count.toNat offset)) ∧
      (applyLinearArray groupSelectedNodes map count offset false).nodes =
        map.nodes ++ linearCopies map count.toNat offset ∧
      (linearCopies map count.toNat offset).length = count.toNat * map.selection.length ∧
      (applyLinearArray groupSelectedNodes map count offset false).selection =
        List.range' map.nodes.length (count.toNat * map.selection.length)) ∧
    (count ≤ 0 ∨ map.selection = [] →
      applyLinearArray groupSelectedNodes map count offset groupResult = map) := by
  constructor
  · intro hcount hne hok
    have hv : map.selectionValid := by
      intro s hs
      obtain ⟨n, _, hn, _, _⟩ := linearBrushesSucceed_spec map count.toNat offset hok s hs
      exact (List.getElem?_eq_some.mp hn).1
    have hlen : (linearCopies map count.toNat offset).length =
        count.toNat * map.selection.length := by
      rw [linearCopies_length, selectedNodes_length map hv]
    have hpos : linearCopies map count.toNat offset ≠ [] := by
      intro h0
      rw [h0] at hlen
      have h1 : 0 < count.toNat := by omega
      have h2 : 0 < map.selection.length := List.length_pos.mpr hne
      have h3 := Nat.mul_pos h1 h2
      simp only [List.length_nil] at hlen
      omega
    obtain ⟨hn, _, hs⟩ := finishArray_not_grouped groupSelectedNodes "Array" map.selection map
      (linearCopies map count.toNat offset)
    refine ⟨applyLinearArray_closed groupSelectedNodes map count offset groupResult hcount hne
      hok, ?_, hlen, ?_⟩
    · rw [applyLinearArray_closed groupSelectedNodes map count offset false hcount hne hok, hn]
    · rw [applyLinearArray_closed groupSelectedNodes map count offset false hcount hne hok,
        hs hpos, hlen]
  · intro h
    unfold applyLinearArray
    rcases h with h | h
    · rw [if_pos (Or.inr h)]
    · rw [if_pos (Or.inl (by rw [h]; rfl))]

/-- C12, witness: two copies of two selected brushes with offset (0, 128, 0). -/
theorem applyLinearArray_copies_witness :
    (applyLinearArray noGrouping twoBrushMap 2 ⟨0, 128, 0⟩ false =
        finishArray noGrouping "Array" twoBrushMap.selection false
          (twoBrushMap.added (linearCopies twoBrushMap (2 : Int).toNat ⟨0, 128, 0⟩)) ∧
      (applyLinearArray noGrouping twoBrushMap 2 ⟨0, 128, 0⟩ false).nodes =
        twoBrushMap.nodes ++ linearCopies twoBrushMap (2 : Int).toNat ⟨0, 128, 0⟩ ∧
      (linearCopies twoBrushMap (2 : Int).toNat ⟨0, 128, 0⟩).length =
        (2 : Int).toNat * twoBrushMap.selection.length ∧
      (applyLinearArray noGrouping twoBrushMap 2 ⟨0, 128, 0⟩ false).selection =
        List.range' twoBrushMap.nodes.length
          ((2 : Int).toNat * twoBrushMap.selection.length)) ∧
    (applyLinearArray noGrouping twoBrushMap 2 ⟨0, 128, 0⟩ false).nodes.drop 4 =
      [⟨some 1, NodeContents.Brush (cube64.vertices.map (fun v => Vec3.add v ⟨0, 128, 0⟩))⟩,
       ⟨some 1, NodeContents.Brush (cube64.vertices.map (fun v => Vec3.add v ⟨128, 128, 0⟩))⟩,
       ⟨some 1, NodeContents.Brush (cube64.vertices.map (fun v => Vec3.add v ⟨0, 256, 0⟩))⟩,
       ⟨some 1, NodeContents.Brush (cube64.vertices.map (fun v => Vec3.add v ⟨128, 256, 0⟩))⟩] :=
  ⟨(applyLinearArray_copies noGrouping twoBrushMap 2 ⟨0, 128, 0⟩ false).1 (by decide)
      (by decide) (by decide!),
    by decide!⟩

/-- C13: applyGridArray. For a non-empty selection of nodes of the map, the loops add, for
every grid cell (x, y, z) below the counts other than (0, 0, 0), in the order of the
loops, the new node of every selected node for which one is made, after the nodes of
the map; the transform of the cell is the translation by x, y and z times the size of
the bounds of the selection plus the spacing on each axis, a new node made with it is
the selected node translated by it, and the bounds of the selection translated for two
cells next to each other on an axis are exactly the spacing of that axis apart. -/
theorem applyGridArray_spacing (groupSelectedNodes : Map → String → Map) (bounds : BBox)
    (map : Map) (countX countY countZ : Int) (spacingX spacingY spacingZ : ℚ)
    (groupResult : Bool) :
    (map.selection ≠ [] → map.selectionValid →
      applyGridArray groupSelectedNodes bounds map countX countY countZ spacingX spacingY
          spacingZ groupResult =
        finishArray groupSelectedNodes "Grid Array" map.selection groupResult
          (map.added (arrayCopies map
            ((gridCells countX.toNat countY.toNat countZ.toNat).map (fun c =>
              translation_matrix
                (gridTranslation bounds spacingX spacingY spacingZ c.1 c.2.1 c.2.2))))) ∧
      (applyGridArray groupSelectedNodes bounds map countX countY countZ spacingX spacingY
          spacingZ false).nodes =
        map.nodes ++ arrayCopies map
          ((gridCells countX.toNat countY.toNat countZ.toNat).map (fun c =>
            translation_matrix
              (gridTranslation bounds spacingX spacingY spacingZ c.1 c.2.1 c.2.2)))) ∧
    (∀ x y z : Nat, (x, y, z) ∈ gridCells countX.toNat countY.toNat countZ.toNat ↔
      x < countX.toNat ∧ y < countY.toNat ∧ z < countZ.toNat ∧ ¬ (x = 0 ∧ y = 0 ∧ z = 0)) ∧
    (∀ x y z : Nat, gridTranslation bounds spacingX spacingY spacingZ x y z =
      ⟨(x : ℚ) * ((bounds.max.x - bounds.min.x) + spacingX),
       (y : ℚ) * ((bounds.max.y - bounds.min.y) + spacingY),
       (z : ℚ) * ((bounds.max.z - bounds.min.z) + spacingZ)⟩) ∧
    (∀ (d : Vec3) (n n' : MapNode),
      copyNode map.worldBounds (translation_matrix d) n = some n' → n' = n.translate d) ∧
    (∀ x y z : Nat,
      (bounds.translate (gridTranslation bounds spacingX spacingY spacingZ (x + 1) y z)).min.x -
        (bounds.translate (gridTranslation bounds spacingX spacingY spacingZ x y z)).max.x =
          spacingX ∧
      (bounds.translate (gridTranslation bounds spacingX spacingY spacingZ x (y + 1) z)).min.y -
        (bounds.translate (gridTranslation bounds spacingX spacingY spacingZ x y z)).max.y =
          spacingY ∧
      (bounds.translate (gridTranslation bounds spacingX spacingY spacingZ x y (z + 1))).min.z -
        (bounds.translate (gridTranslation bounds spacingX spacingY spacingZ x y z)).max.z =
          spacingZ) := by
  refine ⟨?_, ?_, ?_, ?_, ?_⟩
  · intro hne hv
    refine ⟨applyGridArray_closed groupSelectedNodes bounds map countX countY countZ spacingX
      spacingY spacingZ groupResult hne hv, ?_⟩
    rw [applyGridArray_closed groupSelectedNodes bounds map countX countY countZ spacingX
      spacingY spacingZ false hne hv]
    exact (finishArray_not_grouped groupSelectedNodes "Grid Array" map.selection map _).1
  · intro x y z
    exact mem_gridCells countX.toNat countY.toNat countZ.toNat x y z
  · intro x y z
    rfl
  · intro d n n' h
    exact copyNode_translation map.worldBounds d n n' h
  · intro x y z
    simp only [BBox.translate, gridTranslation, BBox.size, Vec3.add, Vec3.sub]
    push_cast
    refine ⟨?_, ?_, ?_⟩ <;> ring

/-- C13, witness: a grid of 2 by 2 by 1 cells of two selected brushes with bounds
[-32, 160] x [-32, 32] x [-32, 32] and spacing 8: six new nodes, translated by
(0, 72, 0), (200, 0, 0) and (200, 72, 0). -/
theorem applyGridArray_spacing_witness :
    (applyGridArray noGrouping ⟨⟨-32, -32, -32⟩, ⟨160, 32, 32⟩⟩ twoBrushMap 2 2 1 8 8 8 false =
        finishArray noGrouping "Grid Array" twoBrushMap.selection false
          (twoBrushMap.added (arrayCopies twoBrushMap
            ((gridCells (2 : Int).toNat (2 : Int).toNat (1 : Int).toNat).map (fun c =>
              translation_matrix
                (gridTranslation ⟨⟨-32, -32, -32⟩, ⟨160, 32, 32⟩⟩ 8 8 8 c.1 c.2.1 c.2.2))))) ∧
      (applyGridArray noGrouping ⟨⟨-32, -32, -32⟩, ⟨160, 32, 32⟩⟩ twoBrushMap 2 2 1 8 8 8
          false).nodes =
        twoBrushMap.nodes ++ arrayCopies twoBrushMap
          ((gridCells (2 : Int).toNat (2 : Int).toNat (1 : Int).toNat).map (fun c =>
            translation_matrix
              (gridTranslation ⟨⟨-32, -32, -32⟩, ⟨160, 32, 32⟩⟩ 8 8 8 c.1 c.2.1 c.2.2)))) ∧
    (applyGridArray noGrouping ⟨⟨-32, -32, -32⟩, ⟨160, 32, 32⟩⟩ twoBrushMap 2 2 1 8 8 8
        false).nodes.drop 4 =
      [twoBrushMap.nodes[2].translate ⟨0, 72, 0⟩, twoBrushMap.nodes[3].translate ⟨0, 72, 0⟩,
       twoBrushMap.nodes[2].translate ⟨200, 0, 0⟩, twoBrushMap.nodes[3].translate ⟨200, 0, 0⟩,
       twoBrushMap.nodes[2].translate ⟨200, 72, 0⟩,
       twoBrushMap.nodes[3].translate ⟨200, 72, 0⟩] :=
  ⟨(applyGridArray_spacing noGrouping ⟨⟨-32, -32, -32⟩, ⟨160, 32, 32⟩⟩ twoBrushMap 2 2 1 8 8 8
      false).1 (by decide) (by decide),
    by decide!⟩

/-- C14, the code at the failing input: a selected group with one child brush. The copy
of the group made by applyGridArray (2 by 1 by 1 cells) and by applyRadialArray (one
copy) is a group node without children, and no other node is added, while the copy made
by applyLinearArray (one copy with the translation of the grid cell) has the translated
copy of the child brush as its child. -/
theorem array_group_copy_without_children :
    groupMap.children 2 = [⟨some 2, NodeContents.Brush cube64.vertices⟩] ∧
    (applyGridArray noGrouping cube64Bounds groupMap 2 1 1 0 0 0 false).nodes =
      groupMap.nodes ++
        [⟨some 1, NodeContents.Group ((translation_matrix ⟨64, 0, 0⟩).mul Mat4.identity)⟩] ∧
    (applyGridArray noGrouping cube64Bounds groupMap 2 1 1 0 0 0 false).children 4 = [] ∧
    (applyRadialArray piApprox (rotationAbout sinApprox cosApprox) noGrouping groupMap 1
        ⟨0, 0, 0⟩ 2 90 false).nodes.length = 5 ∧
    ((applyRadialArray piApprox (rotationAbout sinApprox cosApprox) noGrouping groupMap 1
        ⟨0, 0, 0⟩ 2 90 false).nodes.drop 4).map (fun n => n.parent) = [some 1] ∧
    (applyRadialArray piApprox (rotationAbout sinApprox cosApprox) noGrouping groupMap 1
        ⟨0, 0, 0⟩ 2 90 false).children 4 = [] ∧
    (applyLinearArray noGrouping groupMap 1 ⟨64, 0, 0⟩ false).nodes =
      groupMap.nodes ++
        [⟨some 1, NodeContents.Group ((translation_matrix ⟨64, 0, 0⟩).mul Mat4.identity)⟩,
         ⟨some 4, NodeContents.Brush (cube64.vertices.map (fun v => Vec3.add v ⟨64, 0, 0⟩))⟩] ∧
    (applyLinearArray noGrouping groupMap 1 ⟨64, 0, 0⟩ false).children 4 =
      [⟨some 4, NodeContents.Brush (cube64.vertices.map (fun v => Vec3.add v ⟨64, 0, 0⟩))⟩] := by
  decide!

/-- C15: applyRadialArray. For a count of at least 1 and a non-empty selection of nodes
of the map, the loop adds, for i from 1 to count in turn, the new node of every selected
node for which one is made with the transform of copy i, after the nodes of the map; a
new node made with a transform is the selected node transformed by it. The transform of
copy i is translate(center) * rotation(axis, angle) * translate(-center) with the angle
of i * totalAngle / count degrees; when that rotation matrix is a linear map, the
transform takes the centre to itself and every point p to centre + rotation (p -
centre). For a count of 0 or less the map is returned unchanged. -/
theorem applyRadialArray_rotations (pi : ℚ) (rotation_matrix : Vec3 → ℚ → Mat4)
    (groupSelectedNodes : Map → String → Map) (map : Map) (count : Int) (center : Vec3)
    (axis : Fin 3) (totalAngle : ℚ) (groupResult : Bool) :
    (1 ≤ count → map.selection ≠ [] → map.selectionValid →
      applyRadialArray pi rotation_matrix groupSelectedNodes map count center axis totalAngle
          groupResult =
        finishArray groupSelectedNodes "Radial Array" map.selection groupResult
          (map.added (arrayCopies map
            ((List.range count.toNat).map (fun k =>
              radialTransform pi rotation_matrix count center axis totalAngle (k + 1))))) ∧
      (applyRadialArray pi rotation_matrix groupSelectedNodes map count center axis totalAngle
          false).nodes =
        map.nodes ++ arrayCopies map
          ((List.range count.toNat).map (fun k =>
            radialTransform pi rotation_matrix count center axis totalAngle (k + 1)))) ∧
    (∀ (m : Mat4) (n n' : MapNode),
      copyNode map.worldBounds m n = some n' → n' = n.transformed m) ∧
    (∀ i : Nat,
      radialTransform pi rotation_matrix count center axis totalAngle i =
        ((translation_matrix center).mul
          (rotation_matrix (Vec3.axis axis)
            (to_radians pi ((i : ℚ) * totalAngle / (count : ℚ))))).mul
          (translation_matrix (Vec3.neg center))) ∧
    (∀ i : Nat,
      (rotation_matrix (Vec3.axis axis)
        (to_radians pi ((i : ℚ) * totalAngle / (count : ℚ)))).isLinear →
      (radialTransform pi rotation_matrix count center axis totalAngle i).apply center =
        center ∧
      ∀ p : Vec3,
        (radialTransform pi rotation_matrix count center axis totalAngle i).apply p =
          Vec3.add center
            ((rotation_matrix (Vec3.axis axis)
              (to_radians pi ((i : ℚ) * totalAngle / (count : ℚ)))).apply
              (Vec3.sub p center))) ∧
    (count ≤ 0 →
      applyRadialArray pi rotation_matrix groupSelectedNodes map count center axis totalAngle
        groupResult = map) := by
  refine ⟨?_, ?_, ?_, ?_, ?_⟩
  · intro hcount hne hv
    refine ⟨applyRadialArray_closed pi rotation_matrix groupSelectedNodes map count center
      axis totalAngle groupResult hcount hne hv, ?_⟩
    rw [applyRadialArray_closed pi rotation_matrix groupSelectedNodes map count center axis
      totalAngle false hcount hne hv]
    exact (finishArray_not_grouped groupSelectedNodes "Radial Array" map.selection map _).1
  · intro m n n' h
    exact copyNode_transformed map.worldBounds m n n' h
  · intro i
    exact radialTransform_angle pi rotation_matrix count center axis totalAngle i
  · intro i hlin
    rw [radialTransform_angle]
    refine ⟨?_, fun p => Mat4.apply_about _ center p hlin⟩
    rw [Mat4.apply_about _ center center hlin, Vec3.sub_self_eq, Mat4.apply_zero _ hlin,
      Vec3.add_zero_eq]
  · intro h
    unfold applyRadialArray
    rw [if_pos (Or.inr h)]

/-- C15, witness: four copies of two selected brushes over 360 degrees about the z axis
through (64, 0, 0); the transform of the first copy takes the centre to itself. -/
theorem applyRadialArray_rotations_witness :
    (applyRadialArray piApprox (rotationAbout sinApprox cosApprox) noGrouping twoBrushMap 4
          ⟨64, 0, 0⟩ 2 360 false =
        finishArray noGrouping "Radial Array" twoBrushMap.selection false
          (twoBrushMap.added (arrayCopies twoBrushMap
            ((List.range (4 : Int).toNat).map (fun k =>
              radialTransform piApprox (rotationAbout sinApprox cosApprox) 4 ⟨64, 0, 0⟩ 2 360
                (k + 1))))) ∧
      (applyRadialArray piApprox (rotationAbout sinApprox cosApprox) noGrouping twoBrushMap 4
          ⟨64, 0, 0⟩ 2 360 false).nodes =
        twoBrushMap.nodes ++ arrayCopies twoBrushMap
          ((List.range (4 : Int).toNat).map (fun k =>
            radialTransform piApprox (rotationAbout sinApprox cosApprox) 4 ⟨64, 0, 0⟩ 2 360
              (k + 1)))) ∧
    (radialTransform piApprox (rotationAbout sinApprox cosApprox) 4 ⟨64, 0, 0⟩ 2 360 1).apply
        ⟨64, 0, 0⟩ = ⟨64, 0, 0⟩ ∧
    (applyRadialArray piApprox (rotationAbout sinApprox cosApprox) noGrouping twoBrushMap 4
        ⟨64, 0, 0⟩ 2 360 false).nodes.length = 12 :=
  ⟨(applyRadialArray_rotations piApprox (rotationAbout sinApprox cosApprox) noGrouping
      twoBrushMap 4 ⟨64, 0, 0⟩ 2 360 false).1 (by decide) (by decide) (by decide),
    ((applyRadialArray_rotations piApprox (rotationAbout sinApprox cosApprox) noGrouping
      twoBrushMap 4 ⟨64, 0, 0⟩ 2 360 false).2.2.2.1 1 ⟨rfl, rfl, rfl, rfl⟩).1,
    by decide!⟩

end tb
